import Mathlib

set_option maxHeartbeats 1000000
set_option maxRecDepth 4000

/-!
Verification development for a bounded-concurrency task-execution engine
(a "smart cluster" dispatching work items onto isolated browser contexts).

The model below is a small-step operational semantics of `CreateSmartCluster`
from `src/index.ts`.  Each step of the semantics corresponds to one
synchronous JavaScript block between two `await` suspension points; external
collaborator behaviour (the puppeteer launch, `browser.pages()`, the user
work function, close calls, timers) is supplied by the event being fired.
Ghost fields (logs, counters, snapshots) record observable history and do not
influence control flow.
-/

namespace SmartCluster

/-- A browser (execution context) is identified by the number drawn from a
fresh-id counter when `puppeteerInstance.launch` resolves. -/
abbrev Browser := Nat

/-- The `proxy` configuration option: absent, a constant string, or a resolver
function over the task parameters.  A resolver may reject; this is modelled by
`Except` where the error payload is a numeric error value. -/
inductive ProxyCfg where
  | noProxy
  | constStr (s : String)
  | resolver (f : Nat → Except Nat String)

/-- Construction-time configuration of the cluster (the fields of
`ClusterOptions` that affect control flow; `poolingTime`, `debug` and
`showStatus` only affect timing and logging).  `hasLaunch` models whether
`puppeteerInstance.launch` is defined (it is a `Partial` in the source). -/
structure Cfg where
  maxWorkers : Nat
  proxy : ProxyCfg
  staticArgs : List String
  hasLaunch : Bool
  iterationsBeforeStop : Nat

/-- An entry of `taskQueue`: the task function together with its `params`.
The work function itself is modelled by its observable behaviour `beh`:
invocation number `k` (0-based) succeeds iff `beh k = true`.  `tid` is a ghost
identity assigned at `addTask` time. -/
structure TaskItem where
  tid : Nat
  params : Nat
  beh : Nat → Bool

/-- The suspension point at which an admitted task's asynchronous unit
(the IIFE launched by the worker loop, continuing into `executeTask`) is
currently parked:
* `aProxy` — at `await proxy(params)`;
* `aLaunch tok` — at `await createWorker(usedProxy)` with resolved token `tok`;
* `aPages b tok` — inside `executeTask`, at `await browser.pages()`;
* `aWork b page tok idx` — at `await task({page, props, proxy})`, the
  `idx`-th invocation of this task's work function, with `page` the first
  element of the pages list (`none` when the list was empty);
* `cPage b` — in the `finally` block, at `await page.close()`;
* `cBrowser b` — in the `finally` block, at `await browser.close()`;
* `settledU b` — `executeTask`'s promise has settled; the `.finally(...)`
  callback registered by the worker loop has not yet run. -/
inductive UPhase where
  | aProxy
  | aLaunch (tok : Option String)
  | aPages (b : Browser) (tok : Option String)
  | aWork (b : Browser) (page : Option Nat) (tok : Option String) (idx : Nat)
  | cPage (b : Browser)
  | cBrowser (b : Browser)
  | settledU (b : Browser)

/-- A pending asynchronous task unit. -/
structure TUnit where
  uid : Nat
  task : TaskItem
  phase : UPhase

/-- The phase of one invocation of the `worker()` loop: about to run one
iteration (`atLoop`), suspended in the `setTimeout` delay (`sleeping`),
past the loop awaiting the final `Promise.all` of browser closes
(`draining`), or finished (`doneW`).  The natural number is the local
variable `emptyQueueIteration`. -/
inductive WPhase where
  | atLoop (iter : Nat)
  | sleeping (iter : Nat)
  | draining
  | doneW

/-- One invocation of `worker()` (re-entrant `start()` spawns several). -/
structure Worker where
  wid : Nat
  phase : WPhase

/-- One in-flight invocation of `stop()` that is iterating over
`activeBrowsers` and is suspended at `await browser.close()` for index
`idx`. -/
structure StopU where
  sid : Nat
  idx : Nat
deriving DecidableEq

/-- A snapshot of the observable counters, recorded when the idle condition
is detected and when the `tasksCompleted` promise is resolved. -/
structure Snap where
  qLen : Nat
  act : Int
  brs : Nat
  iter : Nat
deriving DecidableEq

/-- Ghost record of one successful `puppeteerInstance.launch` call:
which task it served, the resolved resource token, and the `args` array
passed in the launch options. -/
structure LaunchRec where
  tid : Nat
  params : Nat
  tok : Option String
  args : List String
deriving DecidableEq

/-- Ghost record of one invocation of a task's work function: the page it
received (`none` when `browser.pages()` returned an empty list), the props,
the proxy token, and the 0-based invocation index for that task. -/
structure WorkRec where
  tid : Nat
  params : Nat
  page : Option Nat
  tok : Option String
  idx : Nat
deriving DecidableEq

/-- The full cluster state.  The first group of fields are the mutable
variables of `CreateSmartCluster` (`isRunning`, `taskQueue`, `activeTasks`,
`activeBrowsers`, plus the pending asynchronous continuations and the
`tasksCompleted` promise state); the remaining fields are ghost history. -/
structure St where
  isRunning : Bool
  taskQueue : List TaskItem
  activeTasks : Int
  activeBrowsers : List Browser
  units : List TUnit
  workers : List Worker
  stops : List StopU
  tasksCompleted : Bool
  nextTid : Nat
  nextUid : Nat
  nextBid : Nat
  nextSid : Nat
  nextWid : Nat
  nextStopId : Nat
  -- ghost history
  detectedIdle : Bool
  detectSnap : Option Snap
  resolveSnap : Option Snap
  startCalls : Nat
  stopCalls : Nat
  stopsCompleted : Nat
  callbacks : List (Nat × Option Nat)
  admitLog : List Nat
  failLog : List Nat
  droppedTids : List Nat
  lostTids : List Nat
  invCnt : Nat → Nat
  behOf : Nat → Option (Nat → Bool)
  launches : List LaunchRec
  workCalls : List WorkRec
  closeLog : List Browser
  pageCloseLog : List Nat

/-- The state right after `CreateSmartCluster` returns: note that
`isRunning` is initialised to `true` in the source. -/
def initSt : St where
  isRunning := true
  taskQueue := []
  activeTasks := 0
  activeBrowsers := []
  units := []
  workers := []
  stops := []
  tasksCompleted := false
  nextTid := 0
  nextUid := 0
  nextBid := 0
  nextSid := 0
  nextWid := 0
  nextStopId := 0
  detectedIdle := false
  detectSnap := none
  resolveSnap := none
  startCalls := 0
  stopCalls := 0
  stopsCompleted := 0
  callbacks := []
  admitLog := []
  failLog := []
  droppedTids := []
  lostTids := []
  invCnt := fun _ => 0
  behOf := fun _ => none
  launches := []
  workCalls := []
  closeLog := []
  pageCloseLog := []

instance : Inhabited St := ⟨initSt⟩

/-- Outcome of the external `puppeteerInstance.launch` promise. -/
inductive LaunchOut where
  | ok
  | reject (e : Nat)

/-- Outcome of the external `browser.pages()` promise: resolution with a
list whose only relevant datum is whether it has a first element, or
rejection. -/
inductive PagesOut where
  | resolve (hasPage : Bool)
  | reject

/-- Events: public operations, worker-loop scheduling points, and the
resolution of each pending external promise. -/
inductive Ev where
  | start
  | addTask (beh : Nat → Bool) (params : Nat)
  | wake (w : Nat)
  | loopStep (w : Nat)
  | drainDone (w : Nat) (err : Option Nat)
  | resumeProxy (u : Nat)
  | resumeLaunch (u : Nat) (out : LaunchOut)
  | resumePages (u : Nat) (out : PagesOut)
  | resumeWork (u : Nat) (errVal : Nat)
  | resumePageClose (u : Nat) (ok : Bool)
  | resumeBrowserClose (u : Nat) (ok : Bool)
  | finallyCb (u : Nat)
  | stopBegin
  | stopCloseResume (k : Nat) (ok : Bool)

/-- `ResourceAssigner.resolve`: the value of `usedProxy` computed for a task
with the given params (for a resolver, the successfully awaited value). -/
def resolveProxy (p : ProxyCfg) (params : Nat) : Option String :=
  match p with
  | .noProxy => none
  | .constStr s => some s
  | .resolver f => (f params).toOption

/-- The proxy part of the `args` array built by `createWorker`:
`usedProxy ? ['--proxy-server=' + usedProxy] : []`.  JavaScript truthiness
makes the empty string behave like `undefined` here. -/
def proxyArgs (tok : Option String) : List String :=
  match tok with
  | some s => if s = "" then [] else ["--proxy-server=" ++ s]
  | none => []

/-- The full `args` array passed to `puppeteerInstance.launch`:
proxy directive first, then the caller-supplied static args
(`...(puppeteerOptions?.args || [])`). -/
def launchArgs (cfg : Cfg) (tok : Option String) : List String :=
  proxyArgs tok ++ cfg.staticArgs

/-- The phase at which a freshly admitted unit first suspends: the IIFE runs
synchronously up to `await proxy(params)` when `proxy` is a function, and up
to `await createWorker(usedProxy)` otherwise. -/
def initPhase (cfg : Cfg) : UPhase :=
  match cfg.proxy with
  | .resolver _ => .aProxy
  | .constStr s => .aLaunch (some s)
  | .noProxy => .aLaunch .none

def snapOf (s : St) (iter : Nat) : Snap :=
  { qLen := s.taskQueue.length, act := s.activeTasks
    brs := s.activeBrowsers.length, iter := iter }

def findWorker (s : St) (w : Nat) : Option Worker :=
  s.workers.find? fun x => x.wid = w

def updWorker (ws : List Worker) (w : Nat) (p : WPhase) : List Worker :=
  ws.map fun x => if x.wid = w then { x with phase := p } else x

def findUnit (s : St) (u : Nat) : Option TUnit :=
  s.units.find? fun x => x.uid = u

def updUnit (us : List TUnit) (u : Nat) (p : UPhase) : List TUnit :=
  us.map fun x => if x.uid = u then { x with phase := p } else x

def dropUnit (us : List TUnit) (u : Nat) : List TUnit :=
  us.filter fun x => x.uid ≠ u

/-- The `catch` handler of the admitted IIFE (source lines 154–159):
decrement `activeTasks`, re-enqueue the task at the queue front if the
cluster is still running, and fire the error callback with the error and the
task's params. -/
def catchStep (s : St) (un : TUnit) (e : Nat) : St :=
  { s with
      activeTasks := s.activeTasks - 1
      taskQueue := if s.isRunning then un.task :: s.taskQueue else s.taskQueue
      callbacks := s.callbacks ++ [(e, some un.task.params)]
      units := dropUnit s.units un.uid }

/-- The non-admission branch of the worker loop (source lines 167–190):
evaluate the idle-shutdown condition against the current
`emptyQueueIteration`, then increment it and suspend in the `setTimeout`. -/
def sleepBranch (cfg : Cfg) (s : St) (w : Worker) (iter : Nat) : St :=
  if s.activeTasks = 0 ∧ s.activeBrowsers.length = 0 ∧ s.taskQueue.length = 0 ∧
      cfg.iterationsBeforeStop ≤ iter then
    { s with
        isRunning := false
        detectedIdle := true
        detectSnap := if s.detectSnap = none then some (snapOf s iter) else s.detectSnap
        workers := updWorker s.workers w.wid (.sleeping (iter + 1)) }
  else
    { s with workers := updWorker s.workers w.wid (.sleeping (iter + 1)) }

/-- One iteration of the `while (isRunning)` loop (or its exit) for worker
`w` currently holding `emptyQueueIteration = iter`.  On exit (source lines
192–202) the `tasksCompleted` promise is resolved and `close()` is called on
every browser still registered (the `Promise.all` drain). -/
def loopBody (cfg : Cfg) (s : St) (w : Worker) (iter : Nat) : St :=
  if s.isRunning then
    match s.taskQueue with
    | t :: rest =>
      if s.activeTasks < (cfg.maxWorkers : Int) ∧
          s.activeBrowsers.length < cfg.maxWorkers then
        { s with
            taskQueue := rest
            units := s.units ++ [{ uid := s.nextUid, task := t, phase := initPhase cfg }]
            nextUid := s.nextUid + 1
            activeTasks := s.activeTasks + 1
            admitLog := s.admitLog ++ [t.tid]
            workers := updWorker s.workers w.wid (.atLoop 0) }
      else sleepBranch cfg s w iter
    | [] => sleepBranch cfg s w iter
  else
    { s with
        tasksCompleted := true
        resolveSnap := if s.resolveSnap = none then some (snapOf s iter) else s.resolveSnap
        closeLog := s.closeLog ++ s.activeBrowsers
        workers := updWorker s.workers w.wid .draining }

/-- The `finally` continuation of `executeTask` after the work promise
settles: `page.close()` is attempted first; with no page this raises a
synchronous `TypeError` that the inner `catch` swallows, skipping
`browser.close()` entirely. -/
def afterWorkPhase (b : Browser) (page : Option Nat) : UPhase :=
  match page with
  | some _ => .cPage b
  | none => .settledU b

/-- The page-close call made on entering the `finally` block, when a page
exists. -/
def pageCloseCalls (page : Option Nat) : List Nat :=
  match page with
  | some p => [p]
  | none => []

/-- Apply one event to the state.  `none` means the event is not enabled
(no such pending continuation, or a phase mismatch). -/
def applyEvent (cfg : Cfg) (s : St) : Ev → Option St
  | .start =>
    some { s with
        isRunning := true
        workers := s.workers ++ [{ wid := s.nextWid, phase := .atLoop 0 }]
        nextWid := s.nextWid + 1
        startCalls := s.startCalls + 1 }
  | .addTask beh params =>
    some { s with
        taskQueue := s.taskQueue ++ [{ tid := s.nextTid, params := params, beh := beh }]
        nextTid := s.nextTid + 1
        behOf := fun t => if t = s.nextTid then some beh else s.behOf t }
  | .wake w => do
    let wk ← findWorker s w
    match wk.phase with
    | .sleeping iter => some { s with workers := updWorker s.workers w (.atLoop iter) }
    | _ => none
  | .loopStep w => do
    let wk ← findWorker s w
    match wk.phase with
    | .atLoop iter => some (loopBody cfg s wk iter)
    | _ => none
  | .drainDone w err => do
    let wk ← findWorker s w
    match wk.phase with
    | .draining =>
      some { s with
          workers := updWorker s.workers w .doneW
          callbacks := match err with
            | some e => s.callbacks ++ [(e, none)]
            | none => s.callbacks }
    | _ => none
  | .resumeProxy u => do
    let un ← findUnit s u
    match un.phase with
    | .aProxy =>
      match cfg.proxy with
      | .resolver f =>
        match f un.task.params with
        | .ok tok => some { s with units := updUnit s.units u (.aLaunch (some tok)) }
        | .error e => some (catchStep s un e)
      | _ => none
    | _ => none
  | .resumeLaunch u out => do
    let un ← findUnit s u
    match un.phase with
    | .aLaunch tok =>
      if cfg.hasLaunch then
        match out with
        | .ok =>
          some { s with
              nextBid := s.nextBid + 1
              launches := s.launches ++
                [{ tid := un.task.tid, params := un.task.params, tok := tok
                   args := launchArgs cfg tok }]
              activeBrowsers := s.activeBrowsers ++ [s.nextBid]
              units := updUnit s.units u (.aPages s.nextBid tok) }
        | .reject e => some (catchStep s un e)
      else
        some { s with
            activeTasks := s.activeTasks - 1
            units := dropUnit s.units u
            lostTids := s.lostTids ++ [un.task.tid] }
    | _ => none
  | .resumePages u out => do
    let un ← findUnit s u
    match un.phase with
    | .aPages b tok =>
      match out with
      | .reject =>
        some { s with
            lostTids := s.lostTids ++ [un.task.tid]
            units := updUnit s.units u (.settledU b) }
      | .resolve hasPage =>
        let pg : Option Nat := if hasPage then some s.nextSid else none
        let k := s.invCnt un.task.tid
        some { s with
            nextSid := if hasPage then s.nextSid + 1 else s.nextSid
            invCnt := fun t => if t = un.task.tid then k + 1 else s.invCnt t
            workCalls := s.workCalls ++
              [{ tid := un.task.tid, params := un.task.params, page := pg
                 tok := tok, idx := k }]
            units := updUnit s.units u (.aWork b pg tok k) }
    | _ => none
  | .resumeWork u errVal => do
    let un ← findUnit s u
    match un.phase with
    | .aWork b pg _tok idx =>
      if un.task.beh idx then
        some { s with
            pageCloseLog := s.pageCloseLog ++ pageCloseCalls pg
            units := updUnit s.units u (afterWorkPhase b pg) }
      else
        some { s with
            failLog := s.failLog ++ [un.task.tid]
            taskQueue := if s.isRunning then un.task :: s.taskQueue else s.taskQueue
            callbacks := s.callbacks ++ [(errVal, some un.task.params)]
            pageCloseLog := s.pageCloseLog ++ pageCloseCalls pg
            units := updUnit s.units u (afterWorkPhase b pg) }
    | _ => none
  | .resumePageClose u ok => do
    let un ← findUnit s u
    match un.phase with
    | .cPage b =>
      if ok then
        some { s with
            closeLog := s.closeLog ++ [b]
            units := updUnit s.units u (.cBrowser b) }
      else
        some { s with units := updUnit s.units u (.settledU b) }
    | _ => none
  | .resumeBrowserClose u _ok => do
    let un ← findUnit s u
    match un.phase with
    | .cBrowser b => some { s with units := updUnit s.units u (.settledU b) }
    | _ => none
  | .finallyCb u => do
    let un ← findUnit s u
    match un.phase with
    | .settledU b =>
      if b ∈ s.activeBrowsers then
        some { s with
            activeTasks := s.activeTasks - 1
            activeBrowsers := s.activeBrowsers.erase b
            units := dropUnit s.units u }
      else
        some { s with units := dropUnit s.units u }
    | _ => none
  | .stopBegin =>
    let s1 : St := { s with
        isRunning := false
        droppedTids := s.droppedTids ++ s.taskQueue.map (fun t => t.tid)
        taskQueue := ([] : List TaskItem)
        stopCalls := s.stopCalls + 1 }
    match s.activeBrowsers with
    | [] =>
      some { s1 with
          activeTasks := 0
          stopsCompleted := s1.stopsCompleted + 1 }
    | b :: _ =>
      some { s1 with
          closeLog := s1.closeLog ++ [b]
          stops := s1.stops ++ [{ sid := s1.nextStopId, idx := 0 }]
          nextStopId := s1.nextStopId + 1 }
  | .stopCloseResume k _ok =>
    match s.stops.find? fun x => x.sid = k with
    | none => none
    | some st =>
      if st.idx + 1 < s.activeBrowsers.length then
        some { s with
            closeLog := s.closeLog ++ [s.activeBrowsers.getD (st.idx + 1) 0]
            stops := s.stops.map fun x =>
              if x.sid = k then { x with idx := st.idx + 1 } else x }
      else
        some { s with
            activeBrowsers := []
            activeTasks := 0
            stops := s.stops.filter fun x => x.sid ≠ k
            stopsCompleted := s.stopsCompleted + 1 }

/-- Monadic fold step. -/
def stepM (cfg : Cfg) (s : Option St) (e : Ev) : Option St :=
  s.bind fun st => applyEvent cfg st e

/-- Run a sequence of events from an arbitrary state. -/
def runFrom (cfg : Cfg) (s : St) (evts : List Ev) : Option St :=
  evts.foldl (stepM cfg) (some s)

/-- Run a sequence of events from the freshly constructed cluster. -/
def runEvents (cfg : Cfg) (evts : List Ev) : Option St :=
  runFrom cfg initSt evts

/-- The behaviour of a work function that fails exactly `n` times and then
succeeds forever: invocation `k` succeeds iff `n ≤ k`. -/
def behN (n : Nat) : Nat → Bool := fun k => n ≤ k

/-! ### Derived observations on states -/

/-- The tids currently sitting in the queue. -/
def queueTids (s : St) : List Nat := s.taskQueue.map fun t => t.tid

/-- A unit is *active* while it may still act on its task (before the work
outcome has been handled); in the closing/settled phases the unit only
performs cleanup. -/
def activeU (p : UPhase) : Bool :=
  match p with
  | .aProxy => true
  | .aLaunch _ => true
  | .aPages _ _ => true
  | .aWork _ _ _ _ => true
  | _ => false

/-- Active phases before the work function has been invoked. -/
def preInvoke (p : UPhase) : Bool :=
  match p with
  | .aProxy => true
  | .aLaunch _ => true
  | .aPages _ _ => true
  | _ => false

/-- The browser a unit has registered, if it is past `createWorker`. -/
def browserOf (p : UPhase) : Option Browser :=
  match p with
  | .aPages b _ => some b
  | .aWork b _ _ _ => some b
  | .cPage b => some b
  | .cBrowser b => some b
  | .settledU b => some b
  | _ => none

/-- The resolved resource token a unit is carrying, where defined. -/
def tokOf (p : UPhase) : Option (Option String) :=
  match p with
  | .aLaunch tok => some tok
  | .aPages _ tok => some tok
  | .aWork _ _ tok _ => some tok
  | _ => none

/-- Number of queue entries for tid `t`. -/
def countQ (s : St) (t : Nat) : Nat :=
  s.taskQueue.countP fun x => x.tid = t

/-- Number of active units working on tid `t`. -/
def countAU (s : St) (t : Nat) : Nat :=
  s.units.countP fun u => decide (u.task.tid = t) && activeU u.phase

/-- Recognizer for the `start` event. -/
def isStartEv : Ev → Bool
  | .start => true
  | _ => false

/-- Recognizer for the public operations that may interleave with a pending
`stop()` (used to state postconditions about an *undisturbed* stop). -/
def isPublicEv : Ev → Bool
  | .start => true
  | .addTask _ _ => true
  | .stopBegin => true
  | _ => false

/-! ### The master invariant -/

/-- Inductive invariant of the cluster semantics: identifier freshness,
ghost-consistency, queue-ordering, occupancy and counter properties that
hold in every reachable state. -/
structure MInv (cfg : Cfg) (s : St) : Prop where
  qTidLt : ∀ t ∈ s.taskQueue, t.tid < s.nextTid
  uTidLt : ∀ u ∈ s.units, u.task.tid < s.nextTid
  admitLt : ∀ t ∈ s.admitLog, t < s.nextTid
  dropLt : ∀ t ∈ s.droppedTids, t < s.nextTid
  behLt : ∀ t, s.nextTid ≤ t → s.behOf t = none
  invLt : ∀ t, s.nextTid ≤ t → s.invCnt t = 0
  uidLt : ∀ u ∈ s.units, u.uid < s.nextUid
  uidNodup : (s.units.map fun u => u.uid).Nodup
  widLt : ∀ w ∈ s.workers, w.wid < s.nextWid
  sidLt : ∀ k ∈ s.stops, k.sid < s.nextStopId
  bidLtU : ∀ u ∈ s.units, ∀ b, browserOf u.phase = some b → b < s.nextBid
  bidLtA : ∀ b ∈ s.activeBrowsers, b < s.nextBid
  abNodup : s.activeBrowsers.Nodup
  behQ : ∀ t ∈ s.taskQueue, s.behOf t.tid = some t.beh
  behU : ∀ u ∈ s.units, s.behOf u.task.tid = some u.task.beh
  unitAdmitted : ∀ u ∈ s.units, u.task.tid ∈ s.admitLog
  qOrder : s.taskQueue.Pairwise fun a b =>
    a.tid ∉ s.admitLog → b.tid ∉ s.admitLog → a.tid < b.tid
  unadmittedInQ : ∀ t, t < s.nextTid → t ∉ s.admitLog → t ∉ s.droppedTids →
    t ∈ queueTids s
  qNotDropped : ∀ t ∈ queueTids s, t ∉ s.admitLog → t ∉ s.droppedTids
  belowAdmitted : ∀ t u, u ∈ s.admitLog → t < u → t ∉ s.admitLog →
    t ∈ s.droppedTids
  admitOrder : ∀ t u, t ∈ s.admitLog → u ∈ s.admitLog → t < u →
    s.admitLog.indexOf t < s.admitLog.indexOf u
  occupancy : ∀ t, countQ s t + countAU s t ≤ 1
  stopsEmpty : s.stopCalls = 0 → s.stops = []
  actEqUnits : s.stopCalls = 0 → s.activeTasks = s.units.length
  runningUnits : s.stopCalls = 0 → s.units = [] ∨ s.isRunning = true
  browReg : s.stopCalls = 0 → ∀ u ∈ s.units, ∀ b, browserOf u.phase = some b →
    b ∈ s.activeBrowsers
  browInj : s.stopCalls = 0 → ∀ u ∈ s.units, ∀ v ∈ s.units, u.uid ≠ v.uid →
    ∀ b b', browserOf u.phase = some b → browserOf v.phase = some b' → b ≠ b'
  actLeMax : s.activeTasks ≤ (cfg.maxWorkers : Int)
  tokConsistent : ∀ u ∈ s.units, ∀ tk, tokOf u.phase = some tk →
    tk = resolveProxy cfg.proxy u.task.params
  launchRecOk : ∀ r ∈ s.launches, r.tok = resolveProxy cfg.proxy r.params ∧
    r.args = launchArgs cfg r.tok
  workRecOk : ∀ r ∈ s.workCalls, r.tok = resolveProxy cfg.proxy r.params
  detectOk : ∀ p, s.detectSnap = some p → p.qLen = 0 ∧ p.act = 0 ∧ p.brs = 0 ∧
    cfg.iterationsBeforeStop ≤ p.iter
  detectIff : s.detectedIdle = true ↔ s.detectSnap ≠ none
  notRunning : s.isRunning = false → s.detectedIdle = true ∨ 1 ≤ s.stopCalls
  resolvedFrom : s.tasksCompleted = true → s.detectedIdle = true ∨ 1 ≤ s.stopCalls

/-! ### The per-task retry invariant (for the no-retry-limit property) -/

/-- Task `T` (with behaviour `behN N`) is queued, not yet invoked `N+1`
times. -/
def phiA (s : St) (T N : Nat) : Prop :=
  countQ s T = 1 ∧ countAU s T = 0 ∧ s.invCnt T ≤ N

/-- Task `T` is held by exactly one active unit that has not yet invoked the
work function. -/
def phiB (s : St) (T N : Nat) : Prop :=
  countQ s T = 0 ∧ countAU s T = 1 ∧ s.invCnt T ≤ N ∧
  ∀ u ∈ s.units, u.task.tid = T → activeU u.phase = true → preInvoke u.phase = true

/-- Task `T` is held by exactly one active unit that is awaiting the work
function's outcome for invocation `s.invCnt T - 1`. -/
def phiC (s : St) (T N : Nat) : Prop :=
  countQ s T = 0 ∧ countAU s T = 1 ∧ s.invCnt T ≤ N + 1 ∧ 1 ≤ s.invCnt T ∧
  ∀ u ∈ s.units, u.task.tid = T → activeU u.phase = true →
    ∃ b pg tok, u.phase = .aWork b pg tok (s.invCnt T - 1)

/-- Task `T` has succeeded: invoked exactly `N+1` times and gone. -/
def phiD (s : St) (T N : Nat) : Prop :=
  countQ s T = 0 ∧ countAU s T = 0 ∧ s.invCnt T = N + 1

/-- Life-cycle invariant of a fail-`N`-then-succeed task while the cluster
has never been stopped and the task has not been abandoned by a
launch/pages failure: the task is queued, held by exactly one unit, or
completed with exactly `N+1` invocations. -/
def Phi (s : St) (T N : Nat) : Prop :=
  s.stopCalls = 0 → s.behOf T = some (behN N) → T ∉ s.lostTids →
    phiA s T N ∨ phiB s T N ∨ phiC s T N ∨ phiD s T N

/-- The global inductive invariant: the master invariant together with the
per-task retry invariant for every task/behaviour pair. -/
def GInv (cfg : Cfg) (s : St) : Prop :=
  MInv cfg s ∧ ∀ T N, Phi s T N

/-- While `stop()` has never been called, every registered browser is
carried by some unit (used to bound the active-browser count). -/
def BrowOk (s : St) : Prop :=
  s.stopCalls = 0 → ∀ b ∈ s.activeBrowsers, ∃ u ∈ s.units, browserOf u.phase = some b

/-! ### Transition shapes (inversion of `applyEvent`) -/

/-- The possible transitions of the semantics, with the produced state made
explicit.  `StepShape cfg s e s'` enumerates exactly the successful branches
of `applyEvent`; the inversion theorem `applyEvent_shape` below recovers a
shape from any successful application. -/
inductive StepShape (cfg : Cfg) (s : St) : Ev → St → Prop where
  | sStart :
    StepShape cfg s .start
      { s with isRunning := true
               workers := s.workers ++ [{ wid := s.nextWid, phase := .atLoop 0 }]
               nextWid := s.nextWid + 1
               startCalls := s.startCalls + 1 }
  | sAddTask (beh : Nat → Bool) (params : Nat) :
    StepShape cfg s (.addTask beh params)
      { s with taskQueue := s.taskQueue ++ [{ tid := s.nextTid, params := params, beh := beh }]
               nextTid := s.nextTid + 1
               behOf := fun t => if t = s.nextTid then some beh else s.behOf t }
  | sWake (w : Nat) (wk : Worker) (iter : Nat)
      (hf : findWorker s w = some wk) (hph : wk.phase = .sleeping iter) :
    StepShape cfg s (.wake w)
      { s with workers := updWorker s.workers w (.atLoop iter) }
  | sLoopExit (w : Nat) (wk : Worker) (iter : Nat)
      (hf : findWorker s w = some wk) (hph : wk.phase = .atLoop iter)
      (hrun : s.isRunning = false) :
    StepShape cfg s (.loopStep w)
      { s with tasksCompleted := true
               resolveSnap := if s.resolveSnap = none then some (snapOf s iter) else s.resolveSnap
               closeLog := s.closeLog ++ s.activeBrowsers
               workers := updWorker s.workers wk.wid .draining }
  | sLoopAdmit (w : Nat) (wk : Worker) (iter : Nat) (t : TaskItem) (rest : List TaskItem)
      (hf : findWorker s w = some wk) (hph : wk.phase = .atLoop iter)
      (hrun : s.isRunning = true) (hq : s.taskQueue = t :: rest)
      (hcap : s.activeTasks < (cfg.maxWorkers : Int) ∧
        s.activeBrowsers.length < cfg.maxWorkers) :
    StepShape cfg s (.loopStep w)
      { s with taskQueue := rest
               units := s.units ++ [{ uid := s.nextUid, task := t, phase := initPhase cfg }]
               nextUid := s.nextUid + 1
               activeTasks := s.activeTasks + 1
               admitLog := s.admitLog ++ [t.tid]
               workers := updWorker s.workers wk.wid (.atLoop 0) }
  | sLoopDetect (w : Nat) (wk : Worker) (iter : Nat)
      (hf : findWorker s w = some wk) (hph : wk.phase = .atLoop iter)
      (hrun : s.isRunning = true)
      (hnoadm : s.taskQueue = [] ∨ ¬ (s.activeTasks < (cfg.maxWorkers : Int) ∧
        s.activeBrowsers.length < cfg.maxWorkers))
      (hdet : s.activeTasks = 0 ∧ s.activeBrowsers.length = 0 ∧
        s.taskQueue.length = 0 ∧ cfg.iterationsBeforeStop ≤ iter) :
    StepShape cfg s (.loopStep w)
      { s with isRunning := false
               detectedIdle := true
               detectSnap := if s.detectSnap = none then some (snapOf s iter) else s.detectSnap
               workers := updWorker s.workers wk.wid (.sleeping (iter + 1)) }
  | sLoopSleep (w : Nat) (wk : Worker) (iter : Nat)
      (hf : findWorker s w = some wk) (hph : wk.phase = .atLoop iter)
      (hrun : s.isRunning = true)
      (hnoadm : s.taskQueue = [] ∨ ¬ (s.activeTasks < (cfg.maxWorkers : Int) ∧
        s.activeBrowsers.length < cfg.maxWorkers))
      (hdet : ¬ (s.activeTasks = 0 ∧ s.activeBrowsers.length = 0 ∧
        s.taskQueue.length = 0 ∧ cfg.iterationsBeforeStop ≤ iter)) :
    StepShape cfg s (.loopStep w)
      { s with workers := updWorker s.workers wk.wid (.sleeping (iter + 1)) }
  | sDrain (w : Nat) (wk : Worker) (err : Option Nat)
      (hf : findWorker s w = some wk) (hph : wk.phase = .draining) :
    StepShape cfg s (.drainDone w err)
      { s with workers := updWorker s.workers w .doneW
               callbacks := match err with
                 | some e => s.callbacks ++ [(e, none)]
                 | none => s.callbacks }
  | sProxyOk (u : Nat) (un : TUnit) (f : Nat → Except Nat String) (tok : String)
      (hf : findUnit s u = some un) (hph : un.phase = .aProxy)
      (hpr : cfg.proxy = .resolver f) (hok : f un.task.params = .ok tok) :
    StepShape cfg s (.resumeProxy u)
      { s with units := updUnit s.units u (.aLaunch (some tok)) }
  | sProxyErr (u : Nat) (un : TUnit) (f : Nat → Except Nat String) (e : Nat)
      (hf : findUnit s u = some un) (hph : un.phase = .aProxy)
      (hpr : cfg.proxy = .resolver f) (herr : f un.task.params = .error e) :
    StepShape cfg s (.resumeProxy u) (catchStep s un e)
  | sLaunchNone (u : Nat) (un : TUnit) (tok : Option String) (out : LaunchOut)
      (hf : findUnit s u = some un) (hph : un.phase = .aLaunch tok)
      (hhl : cfg.hasLaunch = false) :
    StepShape cfg s (.resumeLaunch u out)
      { s with activeTasks := s.activeTasks - 1
               units := dropUnit s.units u
               lostTids := s.lostTids ++ [un.task.tid] }
  | sLaunchOk (u : Nat) (un : TUnit) (tok : Option String)
      (hf : findUnit s u = some un) (hph : un.phase = .aLaunch tok)
      (hhl : cfg.hasLaunch = true) :
    StepShape cfg s (.resumeLaunch u .ok)
      { s with nextBid := s.nextBid + 1
               launches := s.launches ++
                 [{ tid := un.task.tid, params := un.task.params, tok := tok
                    args := launchArgs cfg tok }]
               activeBrowsers := s.activeBrowsers ++ [s.nextBid]
               units := updUnit s.units u (.aPages s.nextBid tok) }
  | sLaunchRej (u : Nat) (un : TUnit) (tok : Option String) (e : Nat)
      (hf : findUnit s u = some un) (hph : un.phase = .aLaunch tok)
      (hhl : cfg.hasLaunch = true) :
    StepShape cfg s (.resumeLaunch u (.reject e)) (catchStep s un e)
  | sPagesRej (u : Nat) (un : TUnit) (b : Browser) (tok : Option String)
      (hf : findUnit s u = some un) (hph : un.phase = .aPages b tok) :
    StepShape cfg s (.resumePages u .reject)
      { s with lostTids := s.lostTids ++ [un.task.tid]
               units := updUnit s.units u (.settledU b) }
  | sPagesRes (u : Nat) (un : TUnit) (b : Browser) (tok : Option String) (hasPage : Bool)
      (hf : findUnit s u = some un) (hph : un.phase = .aPages b tok) :
    StepShape cfg s (.resumePages u (.resolve hasPage))
      { s with nextSid := if hasPage then s.nextSid + 1 else s.nextSid
               invCnt := fun t => if t = un.task.tid then s.invCnt un.task.tid + 1 else s.invCnt t
               workCalls := s.workCalls ++
                 [{ tid := un.task.tid, params := un.task.params
                    page := if hasPage then some s.nextSid else none
                    tok := tok, idx := s.invCnt un.task.tid }]
               units := updUnit s.units u
                 (.aWork b (if hasPage then some s.nextSid else none) tok (s.invCnt un.task.tid)) }
  | sWorkDone (u : Nat) (un : TUnit) (b : Browser) (pg : Option Nat) (tok : Option String)
      (idx : Nat) (e : Nat)
      (hf : findUnit s u = some un) (hph : un.phase = .aWork b pg tok idx)
      (hb : un.task.beh idx = true) :
    StepShape cfg s (.resumeWork u e)
      { s with pageCloseLog := s.pageCloseLog ++ pageCloseCalls pg
               units := updUnit s.units u (afterWorkPhase b pg) }
  | sWorkFail (u : Nat) (un : TUnit) (b : Browser) (pg : Option Nat) (tok : Option String)
      (idx : Nat) (e : Nat)
      (hf : findUnit s u = some un) (hph : un.phase = .aWork b pg tok idx)
      (hb : un.task.beh idx = false) :
    StepShape cfg s (.resumeWork u e)
      { s with failLog := s.failLog ++ [un.task.tid]
               taskQueue := if s.isRunning then un.task :: s.taskQueue else s.taskQueue
               callbacks := s.callbacks ++ [(e, some un.task.params)]
               pageCloseLog := s.pageCloseLog ++ pageCloseCalls pg
               units := updUnit s.units u (afterWorkPhase b pg) }
  | sPageCloseOk (u : Nat) (un : TUnit) (b : Browser)
      (hf : findUnit s u = some un) (hph : un.phase = .cPage b) :
    StepShape cfg s (.resumePageClose u true)
      { s with closeLog := s.closeLog ++ [b]
               units := updUnit s.units u (.cBrowser b) }
  | sPageCloseErr (u : Nat) (un : TUnit) (b : Browser)
      (hf : findUnit s u = some un) (hph : un.phase = .cPage b) :
    StepShape cfg s (.resumePageClose u false)
      { s with units := updUnit s.units u (.settledU b) }
  | sBrowserClose (u : Nat) (un : TUnit) (b : Browser) (ok : Bool)
      (hf : findUnit s u = some un) (hph : un.phase = .cBrowser b) :
    StepShape cfg s (.resumeBrowserClose u ok)
      { s with units := updUnit s.units u (.settledU b) }
  | sFinallyIn (u : Nat) (un : TUnit) (b : Browser)
      (hf : findUnit s u = some un) (hph : un.phase = .settledU b)
      (hb : b ∈ s.activeBrowsers) :
    StepShape cfg s (.finallyCb u)
      { s with activeTasks := s.activeTasks - 1
               activeBrowsers := s.activeBrowsers.erase b
               units := dropUnit s.units u }
  | sFinallyOut (u : Nat) (un : TUnit) (b : Browser)
      (hf : findUnit s u = some un) (hph : un.phase = .settledU b)
      (hb : b ∉ s.activeBrowsers) :
    StepShape cfg s (.finallyCb u)
      { s with units := dropUnit s.units u }
  | sStopEmpty (hb : s.activeBrowsers = []) :
    StepShape cfg s .stopBegin
      { s with isRunning := false
               droppedTids := s.droppedTids ++ s.taskQueue.map (fun t => t.tid)
               taskQueue := ([] : List TaskItem)
               stopCalls := s.stopCalls + 1
               activeTasks := 0
               stopsCompleted := s.stopsCompleted + 1 }
  | sStopNonempty (b : Browser) (rest : List Browser)
      (hb : s.activeBrowsers = b :: rest) :
    StepShape cfg s .stopBegin
      { s with isRunning := false
               droppedTids := s.droppedTids ++ s.taskQueue.map (fun t => t.tid)
               taskQueue := ([] : List TaskItem)
               stopCalls := s.stopCalls + 1
               closeLog := s.closeLog ++ [b]
               stops := s.stops ++ [{ sid := s.nextStopId, idx := 0 }]
               nextStopId := s.nextStopId + 1 }
  | sStopAdv (k : Nat) (st : StopU) (ok : Bool)
      (hf : s.stops.find? (fun x => x.sid = k) = some st)
      (hlt : st.idx + 1 < s.activeBrowsers.length) :
    StepShape cfg s (.stopCloseResume k ok)
      { s with closeLog := s.closeLog ++ [s.activeBrowsers.getD (st.idx + 1) 0]
               stops := s.stops.map fun x =>
                 if x.sid = k then { x with idx := st.idx + 1 } else x }
  | sStopFin (k : Nat) (st : StopU) (ok : Bool)
      (hf : s.stops.find? (fun x => x.sid = k) = some st)
      (hge : ¬ st.idx + 1 < s.activeBrowsers.length) :
    StepShape cfg s (.stopCloseResume k ok)
      { s with activeBrowsers := ([] : List Browser)
               activeTasks := 0
               stops := s.stops.filter fun x => x.sid ≠ k
               stopsCompleted := s.stopsCompleted + 1 }

/-! ### Concrete configurations and runs used as counterexamples/witnesses -/

/-- A minimal configuration: one worker slot, no proxy, launch available. -/
def cfgBase : Cfg :=
  { maxWorkers := 1, proxy := .noProxy, staticArgs := [], hasLaunch := true
    iterationsBeforeStop := 1 }

/-- Run driving `activeTasks` to `-1`: a task is admitted, `stop()` runs
while the launch is pending, then the launch rejects. -/
def evtsNeg : List Ev :=
  [.addTask (behN 0) 0, .start, .loopStep 0, .stopBegin, .resumeLaunch 0 (.reject 7)]

/-- Configuration with a large idle threshold, used to show that `stop()`
resolves the idle promise below the threshold. -/
def cfgThresh : Cfg :=
  { maxWorkers := 1, proxy := .noProxy, staticArgs := [], hasLaunch := true
    iterationsBeforeStop := 5 }

/-- Run in which `stop()` alone causes the idle promise to resolve after a
single empty poll, far below `iterationsBeforeStop = 5`. -/
def evtsStopResolve : List Ev :=
  [.start, .loopStep 0, .stopBegin, .wake 0, .loopStep 0]

/-- Run in which a pending admission registers its browser after `stop()`
has already completed. -/
def evtsLateReg : List Ev :=
  [.addTask (behN 0) 0, .start, .loopStep 0, .stopBegin, .resumeLaunch 0 .ok]

/-- Run in which `browser.pages()` yields no page and the work function
rejects: the acquired context is never closed. -/
def evtsNoPageFail : List Ev :=
  [.addTask (fun _ => false) 0, .start, .loopStep 0, .resumeLaunch 0 .ok,
   .resumePages 0 (.resolve false), .resumeWork 0 17, .finallyCb 0]

/-- Run in which `browser.pages()` yields no page and the work function
resolves: no error callback, no retry, and the context is never closed. -/
def evtsNoPageOk : List Ev :=
  [.addTask (fun _ => true) 0, .start, .loopStep 0, .resumeLaunch 0 .ok,
   .resumePages 0 (.resolve false), .resumeWork 0 0, .finallyCb 0]

/-- Configuration with an empty-string proxy constant and one static arg. -/
def cfgEmptyProxy : Cfg :=
  { maxWorkers := 1, proxy := .constStr "", staticArgs := ["--foo"], hasLaunch := true
    iterationsBeforeStop := 1 }

/-- Run admitting one task and launching under `cfgEmptyProxy`. -/
def evtsEmptyProxy : List Ev :=
  [.addTask (behN 0) 5, .start, .loopStep 0, .resumeLaunch 0 .ok]

/-- A complete natural-idle run of a task that fails once and then
succeeds: the work function runs exactly twice. -/
def evtsRetryOnce : List Ev :=
  [.addTask (behN 1) 0, .start, .loopStep 0, .resumeLaunch 0 .ok,
   .resumePages 0 (.resolve true), .resumeWork 0 3, .resumePageClose 0 true,
   .resumeBrowserClose 0 true, .finallyCb 0,
   .loopStep 0, .resumeLaunch 1 .ok, .resumePages 1 (.resolve true), .resumeWork 1 3,
   .resumePageClose 1 true, .resumeBrowserClose 1 true, .finallyCb 1,
   .loopStep 0, .wake 0, .loopStep 0, .wake 0, .loopStep 0]

/-- The state reached by `evtsRetryOnce` (used by witnesses). -/
def stRetryOnce : St := (runEvents cfgBase evtsRetryOnce).getD default

/-- A two-task FIFO run: both tasks admitted in enqueue order. -/
def evtsFifo : List Ev :=
  [.addTask (behN 0) 0, .addTask (behN 0) 1, .start, .loopStep 0, .resumeLaunch 0 .ok,
   .resumePages 0 (.resolve true), .resumeWork 0 0, .resumePageClose 0 true,
   .resumeBrowserClose 0 true, .finallyCb 0, .loopStep 0]

/-- The state reached by `evtsFifo`. -/
def stFifo : St := (runEvents cfgBase evtsFifo).getD default

/-- A state with one unit awaiting its launch under a launch-less provider
(used to witness the silent-abandonment step). -/
def cfgNoLaunch : Cfg :=
  { maxWorkers := 1, proxy := .noProxy, staticArgs := [], hasLaunch := false
    iterationsBeforeStop := 1 }

/-- Admission prefix: one task admitted, unit 0 awaiting launch. -/
def evtsAdmit : List Ev := [.addTask (behN 0) 4, .start, .loopStep 0]

/-- State with unit 0 at `aLaunch` under `cfgNoLaunch`. -/
def stAdmitNoLaunch : St := (runEvents cfgNoLaunch evtsAdmit).getD default

/-- State with unit 0 at `aLaunch` under `cfgBase`. -/
def stAdmit : St := (runEvents cfgBase evtsAdmit).getD default

/-- Prefix reaching a unit at `aWork` with a page present. -/
def evtsAtWork : List Ev :=
  [.addTask (behN 1) 0, .start, .loopStep 0, .resumeLaunch 0 .ok,
   .resumePages 0 (.resolve true)]

/-- State with unit 0 at `aWork 0 (some 0) none 0` under `cfgBase`. -/
def stAtWork : St := (runEvents cfgBase evtsAtWork).getD default

/-- Prefix reaching a unit at `aPages`. -/
def evtsAtPages : List Ev :=
  [.addTask (behN 0) 0, .start, .loopStep 0, .resumeLaunch 0 .ok]

/-- State with unit 0 at `aPages 0 none` under `cfgBase`. -/
def stAtPages : St := (runEvents cfgBase evtsAtPages).getD default

/-- Prefix reaching a unit at `cPage`. -/
def evtsAtCPage : List Ev :=
  [.addTask (behN 0) 0, .start, .loopStep 0, .resumeLaunch 0 .ok,
   .resumePages 0 (.resolve true), .resumeWork 0 0]

/-- State with unit 0 at `cPage 0` under `cfgBase`. -/
def stAtCPage : St := (runEvents cfgBase evtsAtCPage).getD default

/-- State right after `stopBegin` from `stAdmit` (stop completes at once:
no browsers are active). -/
def stStopped : St := (runEvents cfgBase (evtsAdmit ++ [.stopBegin])).getD default

/-- Run exceeding the browser bound (maxWorkers = 1): a task admitted before
`stop()` registers its browser only after a second `start()`/admission
cycle, alongside the second admission's browser. -/
def evtsOverflow : List Ev :=
  [.addTask (behN 0) 0, .start, .loopStep 0, .stopBegin,
   .addTask (behN 0) 1, .start, .loopStep 0,
   .resumeLaunch 0 .ok, .resumeLaunch 1 .ok]

/-! ### Basic facts about runs -/

theorem runFrom_nil (cfg : Cfg) (s : St) : runFrom cfg s [] = some s := rfl

theorem foldl_stepM_none (cfg : Cfg) (es : List Ev) :
    es.foldl (stepM cfg) none = none := by
  induction es with
  | nil => rfl
  | cons e es ih => simpa [stepM] using ih

theorem runFrom_cons (cfg : Cfg) (s : St) (e : Ev) (es : List Ev) :
    runFrom cfg s (e :: es) =
      match applyEvent cfg s e with
      | some s' => runFrom cfg s' es
      | none => none := by
  show (e :: es).foldl (stepM cfg) (some s) = _
  rw [List.foldl_cons]
  cases h : applyEvent cfg s e with
  | none =>
    have : stepM cfg (some s) e = none := by simp [stepM, h]
    rw [this]; exact foldl_stepM_none cfg es
  | some s1 =>
    have : stepM cfg (some s) e = some s1 := by simp [stepM, h]
    rw [this]; rfl

/-- Preservation of an invariant along any run. -/
theorem runFrom_inv {cfg : Cfg} {Inv : St → Prop}
    (step : ∀ s e s', Inv s → applyEvent cfg s e = some s' → Inv s') :
    ∀ (es : List Ev) (s s' : St), Inv s → runFrom cfg s es = some s' → Inv s' := by
  intro es
  induction es with
  | nil =>
    intro s s' h hr
    rw [runFrom_nil] at hr
    cases hr; exact h
  | cons e es ih =>
    intro s s' h hr
    rw [runFrom_cons] at hr
    cases hap : applyEvent cfg s e with
    | none => rw [hap] at hr; exact absurd hr (by simp)
    | some s1 =>
      rw [hap] at hr
      exact ih s1 s' (step s e s1 h hap) hr

/-! ### List surgery infrastructure -/

theorem find?_split {α : Type} (p : α → Bool) :
    ∀ (l : List α) (x : α), l.find? p = some x →
      ∃ l1 l2, l = l1 ++ x :: l2 ∧ p x = true ∧ ∀ y ∈ l1, p y = false := by
  intro l
  induction l with
  | nil => intro x h; simp [List.find?] at h
  | cons a l ih =>
    intro x h
    by_cases ha : p a = true
    · rw [List.find?_cons_of_pos _ ha] at h
      cases h
      exact ⟨[], l, by simp, ha, by simp⟩
    · have ha' : p a = false := by simpa using ha
      rw [List.find?_cons_of_neg _ (by simp [ha'])] at h
      obtain ⟨l1, l2, hl, hx, hl1⟩ := ih x h
      exact ⟨a :: l1, l2, by simp [hl], hx, by
        intro y hy
        rcases List.mem_cons.mp hy with h1 | h1
        · subst h1; exact ha'
        · exact hl1 y h1⟩

/-- Surgery on the units list addressed by a uid. -/
theorem findUnit_split {s : St} {u : Nat} {un : TUnit}
    (h : findUnit s u = some un)
    (hnd : (s.units.map fun x => x.uid).Nodup) :
    un.uid = u ∧ ∃ l1 l2, s.units = l1 ++ un :: l2 ∧
      (∀ v ∈ l1, v.uid ≠ u) ∧ (∀ v ∈ l2, v.uid ≠ u) := by
  obtain ⟨l1, l2, hl, hx, hl1⟩ := find?_split _ _ _ h
  have huid : un.uid = u := by simpa using hx
  refine ⟨huid, l1, l2, hl, ?_, ?_⟩
  · intro v hv
    have := hl1 v hv
    simpa using this
  · intro v hv hvu
    rw [hl] at hnd
    rw [List.map_append, List.map_cons] at hnd
    have h2 := (List.nodup_append.mp hnd).2.1
    have := (List.nodup_cons.mp h2).1
    exact this (by
      rw [← huid] at hvu
      exact hvu ▸ List.mem_map.mpr ⟨v, hv, hvu.symm ▸ rfl⟩)

theorem map_id_of {α : Type} (f : α → α) :
    ∀ (l : List α), (∀ v ∈ l, f v = v) → l.map f = l := by
  intro l
  induction l with
  | nil => intro _; rfl
  | cons a l ih =>
    intro h
    simp only [List.map_cons, h a (by simp), ih fun v hv => h v (by simp [hv])]

theorem updUnit_eq (l1 l2 : List TUnit) (un : TUnit) (p : UPhase)
    (h1 : ∀ v ∈ l1, v.uid ≠ un.uid) (h2 : ∀ v ∈ l2, v.uid ≠ un.uid) :
    updUnit (l1 ++ un :: l2) un.uid p = l1 ++ { un with phase := p } :: l2 := by
  unfold updUnit
  rw [List.map_append, List.map_cons]
  rw [map_id_of _ l1 (fun v hv => by simp [h1 v hv]),
    map_id_of _ l2 (fun v hv => by simp [h2 v hv])]
  simp

theorem dropUnit_eq (l1 l2 : List TUnit) (un : TUnit)
    (h1 : ∀ v ∈ l1, v.uid ≠ un.uid) (h2 : ∀ v ∈ l2, v.uid ≠ un.uid) :
    dropUnit (l1 ++ un :: l2) un.uid = l1 ++ l2 := by
  unfold dropUnit
  rw [List.filter_append, List.filter_cons]
  have : (decide (un.uid ≠ un.uid)) = false := by simp
  rw [this]
  congr 1
  · apply List.filter_eq_self.mpr
    intro v hv; simp [h1 v hv]
  · apply List.filter_eq_self.mpr
    intro v hv; simp [h2 v hv]

/-- Surgery on the workers list addressed by a wid. -/
theorem findWorker_mem {s : St} {w : Nat} {wk : Worker}
    (h : findWorker s w = some wk) : wk ∈ s.workers ∧ wk.wid = w := by
  obtain ⟨l1, l2, hl, hx, _⟩ := find?_split _ _ _ h
  refine ⟨?_, by simpa using hx⟩
  rw [hl]; exact List.mem_append_right _ (List.mem_cons_self _ _)

theorem findUnit_mem {s : St} {u : Nat} {un : TUnit}
    (h : findUnit s u = some un) : un ∈ s.units ∧ un.uid = u := by
  obtain ⟨l1, l2, hl, hx, _⟩ := find?_split _ _ _ h
  refine ⟨?_, by simpa using hx⟩
  rw [hl]; exact List.mem_append_right _ (List.mem_cons_self _ _)

theorem mem_updUnit {us : List TUnit} {u : Nat} {p : UPhase} {x : TUnit}
    (h : x ∈ updUnit us u p) :
    (x ∈ us ∧ x.uid ≠ u) ∨ ∃ y ∈ us, y.uid = u ∧ x = { y with phase := p } := by
  unfold updUnit at h
  obtain ⟨y, hy, hyx⟩ := List.mem_map.mp h
  by_cases hyu : y.uid = u
  · right; exact ⟨y, hy, hyu, by rw [← hyx]; simp [hyu]⟩
  · left
    constructor
    · rw [← hyx]; simpa [hyu] using hy
    · rw [← hyx]; simp [hyu]

theorem mem_dropUnit {us : List TUnit} {u : Nat} {x : TUnit}
    (h : x ∈ dropUnit us u) : x ∈ us ∧ x.uid ≠ u := by
  unfold dropUnit at h
  have := List.mem_filter.mp h
  exact ⟨this.1, by simpa using this.2⟩

theorem mem_updWorker {ws : List Worker} {w : Nat} {p : WPhase} {x : Worker}
    (h : x ∈ updWorker ws w p) :
    (x ∈ ws ∧ x.wid ≠ w) ∨ ∃ y ∈ ws, y.wid = w ∧ x = { y with phase := p } := by
  unfold updWorker at h
  obtain ⟨y, hy, hyx⟩ := List.mem_map.mp h
  by_cases hyw : y.wid = w
  · right; exact ⟨y, hy, hyw, by rw [← hyx]; simp [hyw]⟩
  · left
    constructor
    · rw [← hyx]; simpa [hyw] using hy
    · rw [← hyx]; simp [hyw]

theorem length_updUnit (us : List TUnit) (u : Nat) (p : UPhase) :
    (updUnit us u p).length = us.length := by
  unfold updUnit; exact List.length_map _ _

theorem map_uid_updUnit (us : List TUnit) (u : Nat) (p : UPhase) :
    (updUnit us u p).map (fun x => x.uid) = us.map fun x => x.uid := by
  unfold updUnit
  rw [List.map_map]
  apply List.map_congr_left
  intro v _
  by_cases h : v.uid = u <;> simp [h]

theorem find?_prefix_none {α : Type} (p : α → Bool) (l1 l2 : List α)
    (h : ∀ y ∈ l1, p y = false) : (l1 ++ l2).find? p = l2.find? p := by
  induction l1 with
  | nil => rfl
  | cons a l ih =>
    rw [List.cons_append, List.find?_cons_of_neg _ (by simp [h a (by simp)])]
    exact ih fun y hy => h y (by simp [hy])

theorem findUnit_updUnit {s : St} {u : Nat} {un : TUnit}
    (h : findUnit s u = some un) (p : UPhase) :
    (updUnit s.units u p).find? (fun x => x.uid = u) = some { un with phase := p } := by
  obtain ⟨l1, l2, hl, hx, hl1⟩ := find?_split _ _ _ h
  have huid : un.uid = u := by simpa using hx
  unfold updUnit
  rw [hl, List.map_append, List.map_cons]
  rw [map_id_of _ l1 (fun v hv => by simp [show ¬ v.uid = u by simpa using hl1 v hv])]
  rw [find?_prefix_none _ l1 _ (fun y hy => hl1 y hy)]
  rw [if_pos huid]
  exact List.find?_cons_of_pos _ (by simp [huid])

theorem find?_dropUnit (us : List TUnit) (u : Nat) :
    (dropUnit us u).find? (fun x => x.uid = u) = none := by
  apply List.find?_eq_none.mpr
  intro x hx
  have := mem_dropUnit hx
  simp [this.2]

/-! ### Inversion of `applyEvent` into transition shapes -/

theorem applyEvent_shape (cfg : Cfg) (s : St) (e : Ev) (s' : St)
    (hap : applyEvent cfg s e = some s') : StepShape cfg s e s' := by
  cases e with
  | start =>
    simp only [applyEvent] at hap
    cases hap
    exact .sStart
  | addTask beh params =>
    simp only [applyEvent] at hap
    cases hap
    exact .sAddTask beh params
  | wake w =>
    simp only [applyEvent, Option.bind_eq_bind] at hap
    cases hfw : findWorker s w with
    | none => rw [hfw] at hap; simp at hap
    | some wk =>
      rw [hfw, Option.some_bind] at hap
      cases hph : wk.phase with
      | atLoop iter => rw [hph] at hap; simp at hap
      | sleeping iter => rw [hph] at hap; cases hap; exact .sWake w wk iter hfw hph
      | draining => rw [hph] at hap; simp at hap
      | doneW => rw [hph] at hap; simp at hap
  | loopStep w =>
    simp only [applyEvent, Option.bind_eq_bind] at hap
    cases hfw : findWorker s w with
    | none => rw [hfw] at hap; simp at hap
    | some wk =>
      rw [hfw, Option.some_bind] at hap
      cases hph : wk.phase with
      | sleeping iter => rw [hph] at hap; simp at hap
      | draining => rw [hph] at hap; simp at hap
      | doneW => rw [hph] at hap; simp at hap
      | atLoop iter =>
        rw [hph] at hap
        cases hap
        cases hrun : s.isRunning with
        | false =>
          have heq : loopBody cfg s wk iter =
              { s with tasksCompleted := true
                       resolveSnap := if s.resolveSnap = none then some (snapOf s iter)
                         else s.resolveSnap
                       closeLog := s.closeLog ++ s.activeBrowsers
                       workers := updWorker s.workers wk.wid .draining } := by
            unfold loopBody; rw [hrun]; simp
          rw [heq]
          exact .sLoopExit w wk iter hfw hph hrun
        | true =>
          cases hq : s.taskQueue with
          | nil =>
            by_cases hdet : s.activeTasks = 0 ∧ s.activeBrowsers.length = 0 ∧
                s.taskQueue.length = 0 ∧ cfg.iterationsBeforeStop ≤ iter
            · have heq : loopBody cfg s wk iter =
                  { s with isRunning := false
                           detectedIdle := true
                           detectSnap := if s.detectSnap = none then some (snapOf s iter)
                             else s.detectSnap
                           workers := updWorker s.workers wk.wid (.sleeping (iter + 1)) } := by
                unfold loopBody sleepBranch; rw [hrun, hq]; simp only [if_true]
                rw [if_pos (show _ by rw [hq] at hdet; exact hdet)]
              rw [heq]
              exact .sLoopDetect w wk iter hfw hph hrun (Or.inl hq) hdet
            · have heq : loopBody cfg s wk iter =
                  { s with workers := updWorker s.workers wk.wid (.sleeping (iter + 1)) } := by
                unfold loopBody sleepBranch; rw [hrun, hq]; simp only [if_true]
                rw [if_neg (show _ by rw [hq] at hdet; exact hdet)]
              rw [heq]
              exact .sLoopSleep w wk iter hfw hph hrun (Or.inl hq) hdet
          | cons t rest =>
            by_cases hcap : s.activeTasks < (cfg.maxWorkers : Int) ∧
                s.activeBrowsers.length < cfg.maxWorkers
            · have heq : loopBody cfg s wk iter =
                  { s with taskQueue := rest
                           units := s.units ++
                             [{ uid := s.nextUid, task := t, phase := initPhase cfg }]
                           nextUid := s.nextUid + 1
                           activeTasks := s.activeTasks + 1
                           admitLog := s.admitLog ++ [t.tid]
                           workers := updWorker s.workers wk.wid (.atLoop 0) } := by
                unfold loopBody; rw [hrun, hq]; simp only [if_true]
                rw [if_pos hcap]
              rw [heq]
              exact .sLoopAdmit w wk iter t rest hfw hph hrun hq hcap
            · have hdet : ¬ (s.activeTasks = 0 ∧ s.activeBrowsers.length = 0 ∧
                  s.taskQueue.length = 0 ∧ cfg.iterationsBeforeStop ≤ iter) := by
                intro hc
                rw [hq] at hc
                simp at hc
              have heq : loopBody cfg s wk iter =
                  { s with workers := updWorker s.workers wk.wid (.sleeping (iter + 1)) } := by
                unfold loopBody sleepBranch; rw [hrun, hq]; simp only [if_true]
                rw [if_neg hcap, if_neg (show _ by rw [hq] at hdet; exact hdet)]
              rw [heq]
              exact .sLoopSleep w wk iter hfw hph hrun (Or.inr hcap) hdet
  | drainDone w err =>
    simp only [applyEvent, Option.bind_eq_bind] at hap
    cases hfw : findWorker s w with
    | none => rw [hfw] at hap; simp at hap
    | some wk =>
      rw [hfw, Option.some_bind] at hap
      cases hph : wk.phase with
      | atLoop iter => rw [hph] at hap; simp at hap
      | sleeping iter => rw [hph] at hap; simp at hap
      | doneW => rw [hph] at hap; simp at hap
      | draining => rw [hph] at hap; cases hap; exact .sDrain w wk err hfw hph
  | resumeProxy u =>
    simp only [applyEvent, Option.bind_eq_bind] at hap
    cases hfu : findUnit s u with
    | none => rw [hfu] at hap; simp at hap
    | some un =>
      rw [hfu, Option.some_bind] at hap
      cases hph : un.phase with
      | aProxy =>
        rw [hph] at hap
        cases hpr : cfg.proxy with
        | noProxy => rw [hpr] at hap; simp at hap
        | constStr str => rw [hpr] at hap; simp at hap
        | resolver f =>
          rw [hpr] at hap
          replace hap : (match f un.task.params with
            | Except.ok tok =>
              some { s with units := updUnit s.units u (.aLaunch (some tok)) }
            | Except.error e => some (catchStep s un e)) = some s' := hap
          cases hres : f un.task.params with
          | ok tok => rw [hres] at hap; cases hap; exact .sProxyOk u un f tok hfu hph hpr hres
          | error e => rw [hres] at hap; cases hap; exact .sProxyErr u un f e hfu hph hpr hres
      | aLaunch tok => rw [hph] at hap; simp at hap
      | aPages b tok => rw [hph] at hap; simp at hap
      | aWork b pg tok idx => rw [hph] at hap; simp at hap
      | cPage b => rw [hph] at hap; simp at hap
      | cBrowser b => rw [hph] at hap; simp at hap
      | settledU b => rw [hph] at hap; simp at hap
  | resumeLaunch u out =>
    simp only [applyEvent, Option.bind_eq_bind] at hap
    cases hfu : findUnit s u with
    | none => rw [hfu] at hap; simp at hap
    | some un =>
      rw [hfu, Option.some_bind] at hap
      cases hph : un.phase with
      | aProxy => rw [hph] at hap; simp at hap
      | aPages b tok => rw [hph] at hap; simp at hap
      | aWork b pg tok idx => rw [hph] at hap; simp at hap
      | cPage b => rw [hph] at hap; simp at hap
      | cBrowser b => rw [hph] at hap; simp at hap
      | settledU b => rw [hph] at hap; simp at hap
      | aLaunch tok =>
        rw [hph] at hap
        replace hap : (if cfg.hasLaunch then
            match out with
            | LaunchOut.ok =>
              some { s with nextBid := s.nextBid + 1
                            launches := s.launches ++
                              [{ tid := un.task.tid, params := un.task.params, tok := tok
                                 args := launchArgs cfg tok }]
                            activeBrowsers := s.activeBrowsers ++ [s.nextBid]
                            units := updUnit s.units u (.aPages s.nextBid tok) }
            | LaunchOut.reject e => some (catchStep s un e)
          else
            some { s with activeTasks := s.activeTasks - 1
                          units := dropUnit s.units u
                          lostTids := s.lostTids ++ [un.task.tid] }) = some s' := hap
        cases hhl : cfg.hasLaunch with
        | false =>
          rw [hhl] at hap
          simp only [Bool.false_eq_true, if_false] at hap
          cases hap
          exact .sLaunchNone u un tok out hfu hph hhl
        | true =>
          rw [hhl] at hap
          simp only [if_true] at hap
          cases out with
          | ok => cases hap; exact .sLaunchOk u un tok hfu hph hhl
          | reject e => cases hap; exact .sLaunchRej u un tok e hfu hph hhl
  | resumePages u out =>
    simp only [applyEvent, Option.bind_eq_bind] at hap
    cases hfu : findUnit s u with
    | none => rw [hfu] at hap; simp at hap
    | some un =>
      rw [hfu, Option.some_bind] at hap
      cases hph : un.phase with
      | aProxy => rw [hph] at hap; simp at hap
      | aLaunch tok => rw [hph] at hap; simp at hap
      | aWork b pg tok idx => rw [hph] at hap; simp at hap
      | cPage b => rw [hph] at hap; simp at hap
      | cBrowser b => rw [hph] at hap; simp at hap
      | settledU b => rw [hph] at hap; simp at hap
      | aPages b tok =>
        rw [hph] at hap
        cases out with
        | reject => cases hap; exact .sPagesRej u un b tok hfu hph
        | resolve hasPage => cases hap; exact .sPagesRes u un b tok hasPage hfu hph
  | resumeWork u e =>
    simp only [applyEvent, Option.bind_eq_bind] at hap
    cases hfu : findUnit s u with
    | none => rw [hfu] at hap; simp at hap
    | some un =>
      rw [hfu, Option.some_bind] at hap
      cases hph : un.phase with
      | aProxy => rw [hph] at hap; simp at hap
      | aLaunch tok => rw [hph] at hap; simp at hap
      | aPages b tok => rw [hph] at hap; simp at hap
      | cPage b => rw [hph] at hap; simp at hap
      | cBrowser b => rw [hph] at hap; simp at hap
      | settledU b => rw [hph] at hap; simp at hap
      | aWork b pg tok idx =>
        rw [hph] at hap
        replace hap : (if un.task.beh idx = true then
            some { s with pageCloseLog := s.pageCloseLog ++ pageCloseCalls pg
                          units := updUnit s.units u (afterWorkPhase b pg) }
          else
            some { s with failLog := s.failLog ++ [un.task.tid]
                          taskQueue := if s.isRunning then un.task :: s.taskQueue
                            else s.taskQueue
                          callbacks := s.callbacks ++ [(e, some un.task.params)]
                          pageCloseLog := s.pageCloseLog ++ pageCloseCalls pg
                          units := updUnit s.units u (afterWorkPhase b pg) }) = some s' := hap
        cases hb : un.task.beh idx with
        | true =>
          rw [hb] at hap
          simp only [if_true] at hap
          cases hap
          exact .sWorkDone u un b pg tok idx e hfu hph hb
        | false =>
          rw [hb] at hap
          simp only [Bool.false_eq_true, if_false] at hap
          cases hap
          exact .sWorkFail u un b pg tok idx e hfu hph hb
  | resumePageClose u ok =>
    simp only [applyEvent, Option.bind_eq_bind] at hap
    cases hfu : findUnit s u with
    | none => rw [hfu] at hap; simp at hap
    | some un =>
      rw [hfu, Option.some_bind] at hap
      cases hph : un.phase with
      | aProxy => rw [hph] at hap; simp at hap
      | aLaunch tok => rw [hph] at hap; simp at hap
      | aPages b tok => rw [hph] at hap; simp at hap
      | aWork b pg tok idx => rw [hph] at hap; simp at hap
      | cBrowser b => rw [hph] at hap; simp at hap
      | settledU b => rw [hph] at hap; simp at hap
      | cPage b =>
        rw [hph] at hap
        replace hap : (if ok = true then
            some { s with closeLog := s.closeLog ++ [b]
                          units := updUnit s.units u (.cBrowser b) }
          else
            some { s with units := updUnit s.units u (.settledU b) }) = some s' := hap
        cases ok with
        | true =>
          simp only [if_true] at hap
          cases hap
          exact .sPageCloseOk u un b hfu hph
        | false =>
          simp only [Bool.false_eq_true, if_false] at hap
          cases hap
          exact .sPageCloseErr u un b hfu hph
  | resumeBrowserClose u ok =>
    simp only [applyEvent, Option.bind_eq_bind] at hap
    cases hfu : findUnit s u with
    | none => rw [hfu] at hap; simp at hap
    | some un =>
      rw [hfu, Option.some_bind] at hap
      cases hph : un.phase with
      | aProxy => rw [hph] at hap; simp at hap
      | aLaunch tok => rw [hph] at hap; simp at hap
      | aPages b tok => rw [hph] at hap; simp at hap
      | aWork b pg tok idx => rw [hph] at hap; simp at hap
      | cPage b => rw [hph] at hap; simp at hap
      | settledU b => rw [hph] at hap; simp at hap
      | cBrowser b =>
        rw [hph] at hap
        cases hap
        exact .sBrowserClose u un b ok hfu hph
  | finallyCb u =>
    simp only [applyEvent, Option.bind_eq_bind] at hap
    cases hfu : findUnit s u with
    | none => rw [hfu] at hap; simp at hap
    | some un =>
      rw [hfu, Option.some_bind] at hap
      cases hph : un.phase with
      | aProxy => rw [hph] at hap; simp at hap
      | aLaunch tok => rw [hph] at hap; simp at hap
      | aPages b tok => rw [hph] at hap; simp at hap
      | aWork b pg tok idx => rw [hph] at hap; simp at hap
      | cPage b => rw [hph] at hap; simp at hap
      | cBrowser b => rw [hph] at hap; simp at hap
      | settledU b =>
        rw [hph] at hap
        replace hap : (if b ∈ s.activeBrowsers then
            some { s with activeTasks := s.activeTasks - 1
                          activeBrowsers := s.activeBrowsers.erase b
                          units := dropUnit s.units u }
          else
            some { s with units := dropUnit s.units u }) = some s' := hap
        by_cases hbmem : b ∈ s.activeBrowsers
        · rw [if_pos hbmem] at hap
          cases hap
          exact .sFinallyIn u un b hfu hph hbmem
        · rw [if_neg hbmem] at hap
          cases hap
          exact .sFinallyOut u un b hfu hph hbmem
  | stopBegin =>
    simp only [applyEvent] at hap
    cases hb : s.activeBrowsers with
    | nil =>
      rw [hb] at hap
      cases hap
      have hsh := @StepShape.sStopEmpty cfg s hb
      rw [hb] at hsh
      exact hsh
    | cons b rest =>
      rw [hb] at hap
      cases hap
      have hsh := @StepShape.sStopNonempty cfg s b rest hb
      rw [hb] at hsh
      exact hsh
  | stopCloseResume k ok =>
    simp only [applyEvent] at hap
    cases hfs : s.stops.find? (fun x => x.sid = k) with
    | none => rw [hfs] at hap; simp at hap
    | some st =>
      rw [hfs] at hap
      replace hap : (if st.idx + 1 < s.activeBrowsers.length then
          some { s with closeLog := s.closeLog ++ [s.activeBrowsers.getD (st.idx + 1) 0]
                        stops := s.stops.map fun x =>
                          if x.sid = k then { x with idx := st.idx + 1 } else x }
        else
          some { s with activeBrowsers := ([] : List Browser)
                        activeTasks := 0
                        stops := s.stops.filter fun x => x.sid ≠ k
                        stopsCompleted := s.stopsCompleted + 1 }) = some s' := hap
      by_cases hlt : st.idx + 1 < s.activeBrowsers.length
      · rw [if_pos hlt] at hap
        cases hap
        exact .sStopAdv k st ok hfs hlt
      · rw [if_neg hlt] at hap
        cases hap
        exact .sStopFin k st ok hfs hlt

/-! ### The master invariant: initial state and preservation -/

theorem countP_surgery (p : TUnit → Bool) (l1 l2 : List TUnit) (x : TUnit) :
    (l1 ++ x :: l2).countP p = l1.countP p + l2.countP p + (if p x then 1 else 0) := by
  rw [List.countP_append, List.countP_cons]
  by_cases hx : p x
  all_goals simp [hx]
  all_goals omega

/-- Decomposition of the units list around a unit found by uid, together
with the effect of `updUnit` and `dropUnit`. -/
theorem units_surgery {cfg : Cfg} {s : St} {u : Nat} {un : TUnit}
    (h : MInv cfg s) (hf : findUnit s u = some un) :
    ∃ l1 l2, s.units = l1 ++ un :: l2 ∧ un.uid = u ∧
      (∀ v ∈ l1, v.uid ≠ u) ∧ (∀ v ∈ l2, v.uid ≠ u) ∧
      (∀ p, updUnit s.units u p = l1 ++ { un with phase := p } :: l2) ∧
      dropUnit s.units u = l1 ++ l2 := by
  obtain ⟨huid, l1, l2, hl, h1, h2⟩ := findUnit_split hf h.uidNodup
  have h1' : ∀ v ∈ l1, v.uid ≠ un.uid := by intro v hv; rw [huid]; exact h1 v hv
  have h2' : ∀ v ∈ l2, v.uid ≠ un.uid := by intro v hv; rw [huid]; exact h2 v hv
  refine ⟨l1, l2, hl, huid, h1, h2, ?_, ?_⟩
  · intro p
    rw [hl, ← huid]
    exact updUnit_eq l1 l2 un p h1' h2'
  · rw [hl, ← huid]
    exact dropUnit_eq l1 l2 un h1' h2'

theorem activeU_initPhase (cfg : Cfg) : activeU (initPhase cfg) = true := by
  unfold initPhase
  cases cfg.proxy <;> rfl

theorem browserOf_initPhase (cfg : Cfg) : browserOf (initPhase cfg) = none := by
  unfold initPhase
  cases cfg.proxy <;> rfl

theorem minv_init (cfg : Cfg) : MInv cfg initSt := by
  constructor
  all_goals simp [initSt, queueTids, countQ, countAU]

theorem minv_sStart (cfg : Cfg) (s : St) (h : MInv cfg s) :
    MInv cfg
      { s with isRunning := true
               workers := s.workers ++ [{ wid := s.nextWid, phase := .atLoop 0 }]
               nextWid := s.nextWid + 1
               startCalls := s.startCalls + 1 } := by
  refine { h with widLt := ?_, runningUnits := ?_, notRunning := ?_ }
  · intro w hw
    rcases List.mem_append.mp hw with hw | hw
    · exact Nat.lt_succ_of_lt (h.widLt w hw)
    · simp at hw
      rw [hw]
      exact Nat.lt_succ_self _
  · intro _
    exact Or.inr rfl
  · intro hfalse
    exact absurd hfalse (by simp)

theorem minv_sAddTask (cfg : Cfg) (s : St) (beh : Nat → Bool) (params : Nat)
    (h : MInv cfg s) :
    MInv cfg
      { s with taskQueue := s.taskQueue ++ [{ tid := s.nextTid, params := params, beh := beh }]
               nextTid := s.nextTid + 1
               behOf := fun t => if t = s.nextTid then some beh else s.behOf t } := by
  have hqz : countQ s s.nextTid = 0 := by
    apply List.countP_eq_zero.mpr
    intro x hx
    simp only [decide_eq_true_eq]
    exact Nat.ne_of_lt (h.qTidLt x hx)
  have huz : countAU s s.nextTid = 0 := by
    apply List.countP_eq_zero.mpr
    intro x hx
    simp only [Bool.and_eq_true, decide_eq_true_eq, not_and]
    intro hx'
    exact absurd hx' (Nat.ne_of_lt (h.uTidLt x hx))
  refine { h with
    qTidLt := ?_
    uTidLt := ?_
    admitLt := ?_
    dropLt := ?_
    behLt := ?_
    invLt := ?_
    behQ := ?_
    behU := ?_
    qOrder := ?_
    unadmittedInQ := ?_
    qNotDropped := ?_
    occupancy := ?_ }
  all_goals dsimp only
  · intro t ht
    rcases List.mem_append.mp ht with ht | ht
    · exact Nat.lt_succ_of_lt (h.qTidLt t ht)
    · simp at ht
      rw [ht]
      exact Nat.lt_succ_self _
  · intro u hu
    exact Nat.lt_succ_of_lt (h.uTidLt u hu)
  · intro t ht
    exact Nat.lt_succ_of_lt (h.admitLt t ht)
  · intro t ht
    exact Nat.lt_succ_of_lt (h.dropLt t ht)
  · intro t ht
    have h1 : t ≠ s.nextTid := by omega
    simp only [if_neg h1]
    exact h.behLt t (by omega)
  · intro t ht
    exact h.invLt t (by omega)
  · intro t ht
    rcases List.mem_append.mp ht with ht | ht
    · have : t.tid ≠ s.nextTid := Nat.ne_of_lt (h.qTidLt t ht)
      simp only [if_neg this]
      exact h.behQ t ht
    · simp at ht
      rw [ht]
      simp
  · intro u hu
    have : u.task.tid ≠ s.nextTid := Nat.ne_of_lt (h.uTidLt u hu)
    simp only [if_neg this]
    exact h.behU u hu
  · apply List.pairwise_append.mpr
    refine ⟨h.qOrder, List.pairwise_singleton _ _, ?_⟩
    intro a ha b hb _ _
    simp at hb
    rw [hb]
    exact h.qTidLt a ha
  · intro t hlt hA hD
    by_cases ht : t = s.nextTid
    · rw [ht]
      unfold queueTids
      simp
    · have := h.unadmittedInQ t (by omega) hA hD
      unfold queueTids at this ⊢
      dsimp only
      rw [List.map_append]
      exact List.mem_append_left _ this
  · intro t ht hA
    unfold queueTids at ht
    dsimp only at ht
    rw [List.map_append] at ht
    rcases List.mem_append.mp ht with ht | ht
    · exact h.qNotDropped t ht hA
    · simp at ht
      rw [ht]
      intro hd
      exact absurd (h.dropLt _ hd) (by omega)
  · intro t
    unfold countQ countAU
    dsimp only
    rw [List.countP_append]
    have e2 : List.countP (fun u => decide (u.task.tid = t) && activeU u.phase) s.units
        = countAU s t := rfl
    rw [e2]
    by_cases ht : t = s.nextTid
    · subst ht
      have e1 : List.countP (fun x => decide (x.tid = s.nextTid)) s.taskQueue = 0 := hqz
      rw [e1, huz]
      simp
    · have e3 : List.countP (fun x => decide (x.tid = t))
          [({ tid := s.nextTid, params := params, beh := beh } : TaskItem)] = 0 := by
        simp [List.countP_cons, Ne.symm ht]
      rw [e3]
      have e1 : List.countP (fun x => decide (x.tid = t)) s.taskQueue = countQ s t := rfl
      rw [e1]
      have := h.occupancy t
      omega

theorem minv_sWake (cfg : Cfg) (s : St) (w : Nat) (iter : Nat) (h : MInv cfg s) :
    MInv cfg { s with workers := updWorker s.workers w (.atLoop iter) } := by
  refine { h with widLt := ?_ }
  intro x hx
  rcases mem_updWorker hx with ⟨hx, _⟩ | ⟨y, hy, _, hxy⟩
  · exact h.widLt x hx
  · rw [hxy]
    exact h.widLt y hy

theorem minv_sDrain (cfg : Cfg) (s : St) (w : Nat) (err : Option Nat) (h : MInv cfg s) :
    MInv cfg
      { s with workers := updWorker s.workers w .doneW
               callbacks := match err with
                 | some e => s.callbacks ++ [(e, none)]
                 | none => s.callbacks } := by
  refine { h with widLt := ?_ }
  intro x hx
  rcases mem_updWorker hx with ⟨hx, _⟩ | ⟨y, hy, _, hxy⟩
  · exact h.widLt x hx
  · rw [hxy]
    exact h.widLt y hy

theorem minv_sLoopExit (cfg : Cfg) (s : St) (wid : Nat) (iter : Nat)
    (hrun : s.isRunning = false) (h : MInv cfg s) :
    MInv cfg
      { s with tasksCompleted := true
               resolveSnap := if s.resolveSnap = none then some (snapOf s iter)
                 else s.resolveSnap
               closeLog := s.closeLog ++ s.activeBrowsers
               workers := updWorker s.workers wid .draining } := by
  refine { h with
    widLt := ?_
    resolvedFrom := ?_ }
  · intro x hx
    rcases mem_updWorker hx with ⟨hx, _⟩ | ⟨y, hy, _, hxy⟩
    · exact h.widLt x hx
    · rw [hxy]
      exact h.widLt y hy
  · intro _
    exact h.notRunning hrun

theorem minv_sLoopSleep (cfg : Cfg) (s : St) (wid : Nat) (iter : Nat) (h : MInv cfg s) :
    MInv cfg { s with workers := updWorker s.workers wid (.sleeping (iter + 1)) } := by
  refine { h with widLt := ?_ }
  intro x hx
  rcases mem_updWorker hx with ⟨hx, _⟩ | ⟨y, hy, _, hxy⟩
  · exact h.widLt x hx
  · rw [hxy]
    exact h.widLt y hy

theorem minv_sLoopDetect (cfg : Cfg) (s : St) (wid : Nat) (iter : Nat)
    (hdet : s.activeTasks = 0 ∧ s.activeBrowsers.length = 0 ∧
      s.taskQueue.length = 0 ∧ cfg.iterationsBeforeStop ≤ iter)
    (h : MInv cfg s) :
    MInv cfg
      { s with isRunning := false
               detectedIdle := true
               detectSnap := if s.detectSnap = none then some (snapOf s iter)
                 else s.detectSnap
               workers := updWorker s.workers wid (.sleeping (iter + 1)) } := by
  refine { h with
    widLt := ?_
    runningUnits := ?_
    detectOk := ?_
    detectIff := ?_
    notRunning := ?_
    resolvedFrom := ?_ }
  · intro x hx
    rcases mem_updWorker hx with ⟨hx, _⟩ | ⟨y, hy, _, hxy⟩
    · exact h.widLt x hx
    · rw [hxy]
      exact h.widLt y hy
  · intro h0
    left
    have := h.actEqUnits h0
    rw [hdet.1] at this
    dsimp only
    exact List.length_eq_zero.mp (by omega)
  · intro p hp
    by_cases hd : s.detectSnap = none
    · rw [if_pos hd] at hp
      cases hp
      exact ⟨hdet.2.2.1, hdet.1, hdet.2.1, hdet.2.2.2⟩
    · rw [if_neg hd] at hp
      exact h.detectOk p hp
  · constructor
    · intro _
      by_cases hd : s.detectSnap = none
      · simp [hd]
      · simp [hd]
    · intro _
      rfl
  · intro _
    exact Or.inl rfl
  · intro _
    exact Or.inl rfl

theorem minv_sLoopAdmit (cfg : Cfg) (s : St) (wid : Nat) (t : TaskItem)
    (rest : List TaskItem)
    (hrun : s.isRunning = true) (hq : s.taskQueue = t :: rest)
    (hcap : s.activeTasks < (cfg.maxWorkers : Int) ∧
      s.activeBrowsers.length < cfg.maxWorkers)
    (h : MInv cfg s) :
    MInv cfg
      { s with taskQueue := rest
               units := s.units ++ [{ uid := s.nextUid, task := t, phase := initPhase cfg }]
               nextUid := s.nextUid + 1
               activeTasks := s.activeTasks + 1
               admitLog := s.admitLog ++ [t.tid]
               workers := updWorker s.workers wid (.atLoop 0) } := by
  have htmem : t ∈ s.taskQueue := by rw [hq]; exact List.mem_cons_self _ _
  have htlt : t.tid < s.nextTid := h.qTidLt t htmem
  have htqmem : t.tid ∈ queueTids s := by
    unfold queueTids
    exact List.mem_map.mpr ⟨t, htmem, rfl⟩
  refine { h with
    qTidLt := ?_
    uTidLt := ?_
    admitLt := ?_
    uidLt := ?_
    uidNodup := ?_
    widLt := ?_
    bidLtU := ?_
    behQ := ?_
    behU := ?_
    unitAdmitted := ?_
    qOrder := ?_
    unadmittedInQ := ?_
    qNotDropped := ?_
    belowAdmitted := ?_
    admitOrder := ?_
    occupancy := ?_
    actEqUnits := ?_
    runningUnits := ?_
    browReg := ?_
    browInj := ?_
    actLeMax := ?_
    tokConsistent := ?_ }
  all_goals dsimp only
  · intro x hx
    exact h.qTidLt x (by rw [hq]; exact List.mem_cons_of_mem _ hx)
  · intro u hu
    rcases List.mem_append.mp hu with hu | hu
    · exact h.uTidLt u hu
    · simp at hu
      rw [hu]
      exact htlt
  · intro x hx
    rcases List.mem_append.mp hx with hx | hx
    · exact h.admitLt x hx
    · simp at hx
      rw [hx]
      exact htlt
  · intro u hu
    rcases List.mem_append.mp hu with hu | hu
    · exact Nat.lt_succ_of_lt (h.uidLt u hu)
    · simp at hu
      rw [hu]
      exact Nat.lt_succ_self _
  · rw [List.map_append]
    refine List.Nodup.append h.uidNodup (by simp) ?_
    intro x hx hx'
    simp at hx'
    obtain ⟨u, hu, hux⟩ := List.mem_map.mp hx
    rw [← hux] at hx'
    exact absurd hx' (Nat.ne_of_lt (h.uidLt u hu))
  · intro x hx
    rcases mem_updWorker hx with ⟨hx, _⟩ | ⟨y, hy, _, hxy⟩
    · exact h.widLt x hx
    · rw [hxy]
      exact h.widLt y hy
  · intro u hu b hb
    rcases List.mem_append.mp hu with hu | hu
    · exact h.bidLtU u hu b hb
    · simp at hu
      rw [hu] at hb
      rw [browserOf_initPhase] at hb
      cases hb
  · intro x hx
    exact h.behQ x (by rw [hq]; exact List.mem_cons_of_mem _ hx)
  · intro u hu
    rcases List.mem_append.mp hu with hu | hu
    · exact h.behU u hu
    · simp at hu
      rw [hu]
      exact h.behQ t htmem
  · intro u hu
    rcases List.mem_append.mp hu with hu | hu
    · exact List.mem_append_left _ (h.unitAdmitted u hu)
    · simp at hu
      rw [hu]
      exact List.mem_append_right _ (by simp)
  · have hqo := h.qOrder
    rw [hq] at hqo
    have hrest := (List.pairwise_cons.mp hqo).2
    refine hrest.imp ?_
    intro a b hab ha hb
    exact hab (fun hA => ha (List.mem_append_left _ hA))
      (fun hA => hb (List.mem_append_left _ hA))
  · intro x hlt hA hD
    have hxA : x ∉ s.admitLog := fun hc => hA (List.mem_append_left _ hc)
    have hxt : x ≠ t.tid := by
      intro hc
      exact hA (by rw [hc]; exact List.mem_append_right _ (by simp))
    have := h.unadmittedInQ x hlt hxA hD
    unfold queueTids at this ⊢
    dsimp only
    rw [hq, List.map_cons] at this
    rcases List.mem_cons.mp this with hc | hc
    · exact absurd hc hxt
    · exact hc
  · intro x hx hA
    have hxA : x ∉ s.admitLog := fun hc => hA (List.mem_append_left _ hc)
    apply h.qNotDropped x ?_ hxA
    unfold queueTids at hx ⊢
    dsimp only at hx
    rw [hq, List.map_cons]
    exact List.mem_cons_of_mem _ hx
  · intro x y hy hxy hxA'
    have hxA : x ∉ s.admitLog := fun hc => hxA' (List.mem_append_left _ hc)
    have hxt : x ≠ t.tid := by
      intro hc
      exact hxA' (by rw [hc]; exact List.mem_append_right _ (by simp))
    rcases List.mem_append.mp hy with hyA | hy1
    · exact h.belowAdmitted x y hyA hxy hxA
    · have hya : y = t.tid := by simpa using hy1
      subst hya
      by_cases ht : t.tid ∈ s.admitLog
      · exact h.belowAdmitted x t.tid ht hxy hxA
      · by_contra hxD
        have hxq := h.unadmittedInQ x (Nat.lt_trans hxy htlt) hxA hxD
        unfold queueTids at hxq
        rw [hq, List.map_cons] at hxq
        rcases List.mem_cons.mp hxq with hc | hc
        · exact hxt hc
        · obtain ⟨it, hit, hitx⟩ := List.mem_map.mp hc
          have hqo := h.qOrder
          rw [hq] at hqo
          have hR := (List.pairwise_cons.mp hqo).1 it hit
          have : t.tid < it.tid := hR ht (by rw [hitx]; exact hxA)
          rw [hitx] at this
          omega
  · intro x y hx hy hxy
    by_cases hxA : x ∈ s.admitLog
    · by_cases hyA : y ∈ s.admitLog
      · rw [List.indexOf_append_of_mem hxA, List.indexOf_append_of_mem hyA]
        exact h.admitOrder x y hxA hyA hxy
      · have hya : y = t.tid := by
          rcases List.mem_append.mp hy with hc | hc
          · exact absurd hc hyA
          · simpa using hc
        subst hya
        rw [List.indexOf_append_of_mem hxA, List.indexOf_append_of_not_mem hyA]
        have h0 : List.indexOf t.tid [t.tid] = 0 := by simp
        rw [h0]
        have := List.indexOf_lt_length.mpr hxA
        omega
    · have hxa : x = t.tid := by
        rcases List.mem_append.mp hx with hc | hc
        · exact absurd hc hxA
        · simpa using hc
      rcases List.mem_append.mp hy with hyA | hy1
      · have hdrop := h.belowAdmitted x y hyA hxy hxA
        rw [hxa] at hdrop
        exact absurd hdrop (h.qNotDropped t.tid htqmem (hxa ▸ hxA))
      · have hya : y = t.tid := by simpa using hy1
        rw [hxa, hya] at hxy
        exact absurd hxy (lt_irrefl _)
  · intro x
    have hocc := h.occupancy x
    unfold countQ at hocc ⊢
    unfold countAU at hocc ⊢
    dsimp only
    rw [hq, List.countP_cons] at hocc
    rw [List.countP_append]
    have hsing : List.countP (fun (u : TUnit) => decide (u.task.tid = x) && activeU u.phase)
        [{ uid := s.nextUid, task := t, phase := initPhase cfg }] =
        if t.tid = x then 1 else 0 := by
      by_cases htx : t.tid = x
      · simp [List.countP_cons, htx, activeU_initPhase]
      · simp [List.countP_cons, htx]
    rw [hsing]
    by_cases htx : t.tid = x
    · simp only [htx] at hocc ⊢
      simp at hocc ⊢
      omega
    · simp only [if_neg htx]
      have : (decide (t.tid = x)) = false := by simp [htx]
      rw [this] at hocc
      simp at hocc
      omega
  · intro h0
    have := h.actEqUnits h0
    rw [List.length_append]
    simp only [List.length_cons, List.length_nil]
    rw [this]
    push_cast
    ring
  · intro _
    exact Or.inr hrun
  · intro h0 u hu b hb
    rcases List.mem_append.mp hu with hu | hu
    · exact h.browReg h0 u hu b hb
    · simp at hu
      rw [hu] at hb
      rw [browserOf_initPhase] at hb
      cases hb
  · intro h0 u hu v hv huv b b' hbu hbv
    rcases List.mem_append.mp hu with hu | hu
    · rcases List.mem_append.mp hv with hv | hv
      · exact h.browInj h0 u hu v hv huv b b' hbu hbv
      · simp at hv
        rw [hv] at hbv
        rw [browserOf_initPhase] at hbv
        cases hbv
    · simp at hu
      rw [hu] at hbu
      rw [browserOf_initPhase] at hbu
      cases hbu
  · have := hcap.1
    omega
  · intro u hu tk htk
    rcases List.mem_append.mp hu with hu | hu
    · exact h.tokConsistent u hu tk htk
    · simp at hu
      rw [hu] at htk ⊢
      cases hcp : cfg.proxy with
      | noProxy =>
        unfold initPhase at htk
        rw [hcp] at htk
        simp only [tokOf] at htk
        cases htk
        rfl
      | constStr str =>
        unfold initPhase at htk
        rw [hcp] at htk
        simp only [tokOf] at htk
        cases htk
        rfl
      | resolver f =>
        unfold initPhase at htk
        rw [hcp] at htk
        simp only [tokOf] at htk
        cases htk

theorem countP_updUnit (pr : TUnit → Bool) {cfg : Cfg} {s : St} {u : Nat} {un : TUnit}
    (h : MInv cfg s) (hf : findUnit s u = some un) (p : UPhase) :
    (updUnit s.units u p).countP pr + (if pr un then 1 else 0)
      = s.units.countP pr + (if pr { un with phase := p } then 1 else 0) := by
  obtain ⟨l1, l2, hl, _, _, _, hupd, _⟩ := units_surgery h hf
  rw [hupd p, hl, countP_surgery, countP_surgery]
  omega

theorem countP_dropUnit (pr : TUnit → Bool) {cfg : Cfg} {s : St} {u : Nat} {un : TUnit}
    (h : MInv cfg s) (hf : findUnit s u = some un) :
    (dropUnit s.units u).countP pr + (if pr un then 1 else 0) = s.units.countP pr := by
  obtain ⟨l1, l2, hl, _, _, _, _, hdrop⟩ := units_surgery h hf
  rw [hdrop, hl, countP_surgery, List.countP_append]

theorem length_dropUnit {cfg : Cfg} {s : St} {u : Nat} {un : TUnit}
    (h : MInv cfg s) (hf : findUnit s u = some un) :
    (dropUnit s.units u).length + 1 = s.units.length := by
  obtain ⟨l1, l2, hl, _, _, _, _, hdrop⟩ := units_surgery h hf
  rw [hdrop, hl]
  simp [Nat.add_assoc, Nat.add_comm, Nat.add_left_comm]

theorem nodup_uid_dropUnit (s : St) (u : Nat)
    (h : (s.units.map fun x => x.uid).Nodup) :
    ((dropUnit s.units u).map fun x => x.uid).Nodup :=
  (List.Sublist.map _ (List.filter_sublist _)).nodup h

/-- The `catch` handler of the admitted IIFE preserves the master invariant
(the failing unit must still be active). -/
theorem minv_catch (cfg : Cfg) (s : St) (u : Nat) (un : TUnit) (e : Nat)
    (h : MInv cfg s) (hf : findUnit s u = some un)
    (hact : activeU un.phase = true) :
    MInv cfg (catchStep s un e) := by
  have hmem : un ∈ s.units := (findUnit_mem hf).1
  have huid : un.uid = u := (findUnit_mem hf).2
  unfold catchStep
  rw [huid]
  have hAU : ∀ x, (dropUnit s.units u).countP
      (fun v => decide (v.task.tid = x) && activeU v.phase) +
      (if un.task.tid = x then 1 else 0)
      = s.units.countP (fun v => decide (v.task.tid = x) && activeU v.phase) := by
    intro x
    have := countP_dropUnit (fun v => decide (v.task.tid = x) && activeU v.phase) h hf
    by_cases hx : un.task.tid = x
    · simpa [hx, hact] using this
    · simpa [hx] using this
  refine { h with
    qTidLt := ?_
    uTidLt := ?_
    uidLt := ?_
    uidNodup := ?_
    bidLtU := ?_
    behQ := ?_
    behU := ?_
    unitAdmitted := ?_
    qOrder := ?_
    unadmittedInQ := ?_
    qNotDropped := ?_
    occupancy := ?_
    actEqUnits := ?_
    runningUnits := ?_
    browReg := ?_
    browInj := ?_
    actLeMax := ?_
    tokConsistent := ?_ }
  all_goals dsimp only
  · intro x hx
    by_cases hr : s.isRunning = true
    · rw [if_pos hr] at hx
      rcases List.mem_cons.mp hx with hx | hx
      · rw [hx]
        exact h.uTidLt un hmem
      · exact h.qTidLt x hx
    · rw [if_neg hr] at hx
      exact h.qTidLt x hx
  · intro v hv
    exact h.uTidLt v (mem_dropUnit hv).1
  · intro v hv
    exact h.uidLt v (mem_dropUnit hv).1
  · exact nodup_uid_dropUnit s u h.uidNodup
  · intro v hv b hb
    exact h.bidLtU v (mem_dropUnit hv).1 b hb
  · intro x hx
    by_cases hr : s.isRunning = true
    · rw [if_pos hr] at hx
      rcases List.mem_cons.mp hx with hx | hx
      · rw [hx]
        exact h.behU un hmem
      · exact h.behQ x hx
    · rw [if_neg hr] at hx
      exact h.behQ x hx
  · intro v hv
    exact h.behU v (mem_dropUnit hv).1
  · intro v hv
    exact h.unitAdmitted v (mem_dropUnit hv).1
  · by_cases hr : s.isRunning = true
    · rw [if_pos hr]
      apply List.pairwise_cons.mpr
      refine ⟨?_, h.qOrder⟩
      intro b _ hA
      exact absurd (h.unitAdmitted un hmem) hA
    · rw [if_neg hr]
      exact h.qOrder
  · intro x hlt hA hD
    have := h.unadmittedInQ x hlt hA hD
    unfold queueTids at this ⊢
    dsimp only
    by_cases hr : s.isRunning = true
    · rw [if_pos hr, List.map_cons]
      exact List.mem_cons_of_mem _ this
    · rw [if_neg hr]
      exact this
  · intro x hx hA
    unfold queueTids at hx
    dsimp only at hx
    by_cases hr : s.isRunning = true
    · rw [if_pos hr, List.map_cons] at hx
      rcases List.mem_cons.mp hx with hx | hx
      · rw [hx] at hA
        exact absurd (h.unitAdmitted un hmem) hA
      · exact h.qNotDropped x hx hA
    · rw [if_neg hr] at hx
      exact h.qNotDropped x hx hA
  · intro x
    have hocc := h.occupancy x
    unfold countQ countAU at hocc ⊢
    dsimp only
    have hau := hAU x
    by_cases hr : s.isRunning = true
    · rw [if_pos hr]
      have hq' : List.countP (fun v => decide (v.tid = x)) (un.task :: s.taskQueue)
          = List.countP (fun v => decide (v.tid = x)) s.taskQueue
            + (if un.task.tid = x then 1 else 0) := by
        rw [List.countP_cons]
        by_cases hx : un.task.tid = x
        all_goals simp [hx]
      rw [hq']
      by_cases hx : un.task.tid = x
      · have hpos : 0 < s.units.countP
            (fun v => decide (v.task.tid = x) && activeU v.phase) := by
          apply List.countP_pos_iff.mpr
          exact ⟨un, hmem, by simp [hx, hact]⟩
        rw [if_pos hx] at hau
        rw [if_pos hx]
        omega
      · rw [if_neg hx] at hau
        rw [if_neg hx]
        omega
    · rw [if_neg hr]
      by_cases hx : un.task.tid = x
      · rw [if_pos hx] at hau
        omega
      · rw [if_neg hx] at hau
        omega
  · intro h0
    have hlen := length_dropUnit h hf
    have := h.actEqUnits h0
    omega
  · intro h0
    rcases h.runningUnits h0 with h1 | h1
    · rw [h1] at hmem
      cases hmem
    · exact Or.inr h1
  · intro h0 v hv b hb
    exact h.browReg h0 v (mem_dropUnit hv).1 b hb
  · intro h0 v hv v' hv' hvv b b' hbv hbv'
    exact h.browInj h0 v (mem_dropUnit hv).1 v' (mem_dropUnit hv').1 hvv b b' hbv hbv'
  · have := h.actLeMax
    omega
  · intro v hv tk htk
    exact h.tokConsistent v (mem_dropUnit hv).1 tk htk

theorem uid_unique {cfg : Cfg} {s : St} (h : MInv cfg s) {y z : TUnit}
    (hy : y ∈ s.units) (hz : z ∈ s.units) (he : y.uid = z.uid) : y = z :=
  List.inj_on_of_nodup_map h.uidNodup hy hz he

theorem minv_sLaunchNone (cfg : Cfg) (s : St) (u : Nat) (un : TUnit)
    (h : MInv cfg s) (hf : findUnit s u = some un) :
    MInv cfg
      { s with activeTasks := s.activeTasks - 1
               units := dropUnit s.units u
               lostTids := s.lostTids ++ [un.task.tid] } := by
  have hmem : un ∈ s.units := (findUnit_mem hf).1
  refine { h with
    uTidLt := ?_
    uidLt := ?_
    uidNodup := ?_
    bidLtU := ?_
    behU := ?_
    unitAdmitted := ?_
    occupancy := ?_
    actEqUnits := ?_
    runningUnits := ?_
    browReg := ?_
    browInj := ?_
    actLeMax := ?_
    tokConsistent := ?_ }
  all_goals dsimp only
  · intro v hv
    exact h.uTidLt v (mem_dropUnit hv).1
  · intro v hv
    exact h.uidLt v (mem_dropUnit hv).1
  · exact nodup_uid_dropUnit s u h.uidNodup
  · intro v hv b hb
    exact h.bidLtU v (mem_dropUnit hv).1 b hb
  · intro v hv
    exact h.behU v (mem_dropUnit hv).1
  · intro v hv
    exact h.unitAdmitted v (mem_dropUnit hv).1
  · intro x
    have hc := countP_dropUnit (fun v => decide (v.task.tid = x) && activeU v.phase) h hf
    have hocc := h.occupancy x
    unfold countQ countAU at hocc ⊢
    dsimp only
    omega
  · intro h0
    have hlen := length_dropUnit h hf
    have := h.actEqUnits h0
    omega
  · intro h0
    rcases h.runningUnits h0 with h1 | h1
    · rw [h1] at hmem
      cases hmem
    · exact Or.inr h1
  · intro h0 v hv b hb
    exact h.browReg h0 v (mem_dropUnit hv).1 b hb
  · intro h0 v hv v' hv' hvv b b' hbv hbv'
    exact h.browInj h0 v (mem_dropUnit hv).1 v' (mem_dropUnit hv').1 hvv b b' hbv hbv'
  · have := h.actLeMax
    omega
  · intro v hv tk htk
    exact h.tokConsistent v (mem_dropUnit hv).1 tk htk

/-- A pure phase update of one pending unit (with arbitrary updates to the
ghost logs that the invariant does not mention) preserves the master
invariant, provided activity does not increase and the browser/token
carried by the phase are preserved. -/
theorem minv_phase (cfg : Cfg) (s : St) (u : Nat) (un : TUnit) (p : UPhase)
    (lost : List Nat) (clog : List Browser) (pclog : List Nat)
    (h : MInv cfg s) (hf : findUnit s u = some un)
    (hact : activeU p = true → activeU un.phase = true)
    (hbrow : ∀ b, browserOf p = some b → browserOf un.phase = some b)
    (htok : ∀ tk, tokOf p = some tk → tk = resolveProxy cfg.proxy un.task.params) :
    MInv cfg
      { s with units := updUnit s.units u p
               lostTids := lost
               closeLog := clog
               pageCloseLog := pclog } := by
  have hmem : un ∈ s.units := (findUnit_mem hf).1
  have huid : un.uid = u := (findUnit_mem hf).2
  have hupdmem : ∀ {x : TUnit}, x ∈ updUnit s.units u p →
      (x ∈ s.units ∧ x.uid ≠ u) ∨ x = { un with phase := p } := by
    intro x hx
    rcases mem_updUnit hx with hx | ⟨y, hy, hyu, hxy⟩
    · exact Or.inl hx
    · right
      have : y = un := uid_unique h hy hmem (by rw [hyu, huid])
      rw [hxy, this]
  refine { h with
    uTidLt := ?_
    uidLt := ?_
    uidNodup := ?_
    bidLtU := ?_
    behU := ?_
    unitAdmitted := ?_
    occupancy := ?_
    actEqUnits := ?_
    runningUnits := ?_
    browReg := ?_
    browInj := ?_
    tokConsistent := ?_ }
  all_goals dsimp only
  · intro v hv
    rcases hupdmem hv with ⟨hv, _⟩ | hv
    · exact h.uTidLt v hv
    · rw [hv]
      exact h.uTidLt un hmem
  · intro v hv
    rcases hupdmem hv with ⟨hv, _⟩ | hv
    · exact h.uidLt v hv
    · rw [hv]
      exact h.uidLt un hmem
  · rw [map_uid_updUnit]
    exact h.uidNodup
  · intro v hv b hb
    rcases hupdmem hv with ⟨hv, _⟩ | hv
    · exact h.bidLtU v hv b hb
    · rw [hv] at hb
      exact h.bidLtU un hmem b (hbrow b hb)
  · intro v hv
    rcases hupdmem hv with ⟨hv, _⟩ | hv
    · exact h.behU v hv
    · rw [hv]
      exact h.behU un hmem
  · intro v hv
    rcases hupdmem hv with ⟨hv, _⟩ | hv
    · exact h.unitAdmitted v hv
    · rw [hv]
      exact h.unitAdmitted un hmem
  · intro x
    have hc := countP_updUnit (fun v => decide (v.task.tid = x) && activeU v.phase) h hf p
    have hocc := h.occupancy x
    unfold countQ countAU at hocc ⊢
    dsimp only
    have hle : (if (decide (({ un with phase := p } : TUnit).task.tid = x) &&
        activeU ({ un with phase := p } : TUnit).phase) = true then 1 else 0)
        ≤ (if (decide (un.task.tid = x) && activeU un.phase) = true then 1 else 0) := by
      dsimp only
      cases hap : activeU p
      · simp
      · rw [hact hap]
    omega
  · intro h0
    rw [length_updUnit]
    exact h.actEqUnits h0
  · intro h0
    rcases h.runningUnits h0 with h1 | h1
    · left
      rw [h1]
      rfl
    · exact Or.inr h1
  · intro h0 v hv b hb
    rcases hupdmem hv with ⟨hv, _⟩ | hv
    · exact h.browReg h0 v hv b hb
    · rw [hv] at hb
      exact h.browReg h0 un hmem b (hbrow b hb)
  · intro h0 v hv v' hv' hvv b b' hbv hbv'
    rcases hupdmem hv with ⟨hv1, _⟩ | hv1
    · rcases hupdmem hv' with ⟨hv2, _⟩ | hv2
      · exact h.browInj h0 v hv1 v' hv2 hvv b b' hbv hbv'
      · rw [hv2] at hbv' hvv
        exact h.browInj h0 v hv1 un hmem hvv b b' hbv (hbrow b' hbv')
    · rcases hupdmem hv' with ⟨hv2, _⟩ | hv2
      · rw [hv1] at hbv hvv
        exact h.browInj h0 un hmem v' hv2 hvv b b' (hbrow b hbv) hbv'
      · rw [hv1, hv2] at hvv
        exact absurd rfl hvv
  · intro v hv tk htk
    rcases hupdmem hv with ⟨hv, _⟩ | hv
    · exact h.tokConsistent v hv tk htk
    · rw [hv] at htk ⊢
      exact htok tk htk

theorem activeU_afterWork (b : Browser) (pg : Option Nat) :
    activeU (afterWorkPhase b pg) = false := by
  cases pg
  all_goals rfl

theorem browserOf_afterWork (b : Browser) (pg : Option Nat) :
    browserOf (afterWorkPhase b pg) = some b := by
  cases pg
  all_goals rfl

theorem tokOf_afterWork (b : Browser) (pg : Option Nat) :
    tokOf (afterWorkPhase b pg) = none := by
  cases pg
  all_goals rfl

theorem minv_sLaunchOk (cfg : Cfg) (s : St) (u : Nat) (un : TUnit)
    (tok : Option String)
    (h : MInv cfg s) (hf : findUnit s u = some un)
    (hph : un.phase = .aLaunch tok) :
    MInv cfg
      { s with nextBid := s.nextBid + 1
               launches := s.launches ++
                 [{ tid := un.task.tid, params := un.task.params, tok := tok
                    args := launchArgs cfg tok }]
               activeBrowsers := s.activeBrowsers ++ [s.nextBid]
               units := updUnit s.units u (.aPages s.nextBid tok) } := by
  have hmem : un ∈ s.units := (findUnit_mem hf).1
  have huid : un.uid = u := (findUnit_mem hf).2
  have htokc : tok = resolveProxy cfg.proxy un.task.params :=
    h.tokConsistent un hmem tok (by rw [hph]; rfl)
  have hupdmem : ∀ {x : TUnit}, x ∈ updUnit s.units u (.aPages s.nextBid tok) →
      (x ∈ s.units ∧ x.uid ≠ u) ∨ x = { un with phase := .aPages s.nextBid tok } := by
    intro x hx
    rcases mem_updUnit hx with hx | ⟨y, hy, hyu, hxy⟩
    · exact Or.inl hx
    · right
      have : y = un := uid_unique h hy hmem (by rw [hyu, huid])
      rw [hxy, this]
  refine { h with
    uTidLt := ?_
    uidLt := ?_
    uidNodup := ?_
    bidLtU := ?_
    bidLtA := ?_
    abNodup := ?_
    behU := ?_
    unitAdmitted := ?_
    occupancy := ?_
    actEqUnits := ?_
    runningUnits := ?_
    browReg := ?_
    browInj := ?_
    tokConsistent := ?_
    launchRecOk := ?_ }
  all_goals dsimp only
  · intro v hv
    rcases hupdmem hv with ⟨hv, _⟩ | hv
    · exact h.uTidLt v hv
    · rw [hv]
      exact h.uTidLt un hmem
  · intro v hv
    rcases hupdmem hv with ⟨hv, _⟩ | hv
    · exact h.uidLt v hv
    · rw [hv]
      exact h.uidLt un hmem
  · rw [map_uid_updUnit]
    exact h.uidNodup
  · intro v hv b hb
    rcases hupdmem hv with ⟨hv, _⟩ | hv
    · exact Nat.lt_succ_of_lt (h.bidLtU v hv b hb)
    · rw [hv] at hb
      simp only [browserOf] at hb
      cases hb
      exact Nat.lt_succ_self _
  · intro b hb
    rcases List.mem_append.mp hb with hb | hb
    · exact Nat.lt_succ_of_lt (h.bidLtA b hb)
    · simp at hb
      rw [hb]
      exact Nat.lt_succ_self _
  · refine List.Nodup.append h.abNodup (by simp) ?_
    intro b hb hb'
    simp at hb'
    rw [hb'] at hb
    exact absurd (h.bidLtA _ hb) (Nat.lt_irrefl _)
  · intro v hv
    rcases hupdmem hv with ⟨hv, _⟩ | hv
    · exact h.behU v hv
    · rw [hv]
      exact h.behU un hmem
  · intro v hv
    rcases hupdmem hv with ⟨hv, _⟩ | hv
    · exact h.unitAdmitted v hv
    · rw [hv]
      exact h.unitAdmitted un hmem
  · intro x
    have hc := countP_updUnit (fun v => decide (v.task.tid = x) && activeU v.phase) h hf
      (.aPages s.nextBid tok)
    have hocc := h.occupancy x
    unfold countQ countAU at hocc ⊢
    dsimp only
    have heq : (if (decide (un.task.tid = x) && activeU (.aPages s.nextBid tok)) = true
        then 1 else 0)
        = (if (decide (un.task.tid = x) && activeU un.phase) = true then 1 else 0) := by
      rw [hph]
      rfl
    rw [heq] at hc
    omega
  · intro h0
    rw [length_updUnit]
    exact h.actEqUnits h0
  · intro h0
    rcases h.runningUnits h0 with h1 | h1
    · left
      rw [h1]
      rfl
    · exact Or.inr h1
  · intro h0 v hv b hb
    rcases hupdmem hv with ⟨hv, _⟩ | hv
    · exact List.mem_append_left _ (h.browReg h0 v hv b hb)
    · rw [hv] at hb
      simp only [browserOf] at hb
      cases hb
      exact List.mem_append_right _ (by simp)
  · intro h0 v hv v' hv' hvv b b' hbv hbv'
    rcases hupdmem hv with ⟨hv1, _⟩ | hv1
    · rcases hupdmem hv' with ⟨hv2, _⟩ | hv2
      · exact h.browInj h0 v hv1 v' hv2 hvv b b' hbv hbv'
      · rw [hv2] at hbv'
        simp only [browserOf] at hbv'
        cases hbv'
        have := h.bidLtU v hv1 b hbv
        exact Nat.ne_of_lt this
    · rcases hupdmem hv' with ⟨hv2, _⟩ | hv2
      · rw [hv1] at hbv
        simp only [browserOf] at hbv
        cases hbv
        have := h.bidLtU v' hv2 b' hbv'
        exact Ne.symm (Nat.ne_of_lt this)
      · rw [hv1, hv2] at hvv
        exact absurd rfl hvv
  · intro v hv tk htk
    rcases hupdmem hv with ⟨hv, _⟩ | hv
    · exact h.tokConsistent v hv tk htk
    · rw [hv] at htk ⊢
      simp only [tokOf] at htk
      cases htk
      exact htokc
  · intro r hr
    rcases List.mem_append.mp hr with hr | hr
    · exact h.launchRecOk r hr
    · simp at hr
      rw [hr]
      exact ⟨htokc, rfl⟩

theorem minv_sPagesRes (cfg : Cfg) (s : St) (u : Nat) (un : TUnit)
    (b : Browser) (tok : Option String) (hasPage : Bool)
    (h : MInv cfg s) (hf : findUnit s u = some un)
    (hph : un.phase = .aPages b tok) :
    MInv cfg
      { s with nextSid := if hasPage then s.nextSid + 1 else s.nextSid
               invCnt := fun t => if t = un.task.tid then s.invCnt un.task.tid + 1
                 else s.invCnt t
               workCalls := s.workCalls ++
                 [{ tid := un.task.tid, params := un.task.params
                    page := if hasPage then some s.nextSid else none
                    tok := tok, idx := s.invCnt un.task.tid }]
               units := updUnit s.units u
                 (.aWork b (if hasPage then some s.nextSid else none) tok
                   (s.invCnt un.task.tid)) } := by
  have hmem : un ∈ s.units := (findUnit_mem hf).1
  have huid : un.uid = u := (findUnit_mem hf).2
  have htokc : tok = resolveProxy cfg.proxy un.task.params :=
    h.tokConsistent un hmem tok (by rw [hph]; rfl)
  have hupdmem : ∀ {x : TUnit} {p : UPhase}, x ∈ updUnit s.units u p →
      (x ∈ s.units ∧ x.uid ≠ u) ∨ x = { un with phase := p } := by
    intro x p hx
    rcases mem_updUnit hx with hx | ⟨y, hy, hyu, hxy⟩
    · exact Or.inl hx
    · right
      have : y = un := uid_unique h hy hmem (by rw [hyu, huid])
      rw [hxy, this]
  refine { h with
    uTidLt := ?_
    invLt := ?_
    uidLt := ?_
    uidNodup := ?_
    bidLtU := ?_
    behU := ?_
    unitAdmitted := ?_
    occupancy := ?_
    actEqUnits := ?_
    runningUnits := ?_
    browReg := ?_
    browInj := ?_
    tokConsistent := ?_
    workRecOk := ?_ }
  all_goals dsimp only
  · intro v hv
    rcases hupdmem hv with ⟨hv, _⟩ | hv
    · exact h.uTidLt v hv
    · rw [hv]
      exact h.uTidLt un hmem
  · intro t ht
    have : t ≠ un.task.tid := by
      have := h.uTidLt un hmem
      omega
    rw [if_neg this]
    exact h.invLt t ht
  · intro v hv
    rcases hupdmem hv with ⟨hv, _⟩ | hv
    · exact h.uidLt v hv
    · rw [hv]
      exact h.uidLt un hmem
  · rw [map_uid_updUnit]
    exact h.uidNodup
  · intro v hv bb hb
    rcases hupdmem hv with ⟨hv, _⟩ | hv
    · exact h.bidLtU v hv bb hb
    · rw [hv] at hb
      simp only [browserOf] at hb
      cases hb
      exact h.bidLtU un hmem b (by rw [hph]; rfl)
  · intro v hv
    rcases hupdmem hv with ⟨hv, _⟩ | hv
    · exact h.behU v hv
    · rw [hv]
      exact h.behU un hmem
  · intro v hv
    rcases hupdmem hv with ⟨hv, _⟩ | hv
    · exact h.unitAdmitted v hv
    · rw [hv]
      exact h.unitAdmitted un hmem
  · intro x
    have hc := countP_updUnit (fun v => decide (v.task.tid = x) && activeU v.phase) h hf
      (.aWork b (if hasPage then some s.nextSid else none) tok (s.invCnt un.task.tid))
    have hocc := h.occupancy x
    unfold countQ countAU at hocc ⊢
    dsimp only
    have heq : (if (decide (un.task.tid = x) &&
        activeU (.aWork b (if hasPage then some s.nextSid else none) tok
          (s.invCnt un.task.tid))) = true then 1 else 0)
        = (if (decide (un.task.tid = x) && activeU un.phase) = true then 1 else 0) := by
      rw [hph]
      rfl
    rw [heq] at hc
    omega
  · intro h0
    rw [length_updUnit]
    exact h.actEqUnits h0
  · intro h0
    rcases h.runningUnits h0 with h1 | h1
    · left
      rw [h1]
      rfl
    · exact Or.inr h1
  · intro h0 v hv bb hb
    rcases hupdmem hv with ⟨hv, _⟩ | hv
    · exact h.browReg h0 v hv bb hb
    · rw [hv] at hb
      simp only [browserOf] at hb
      cases hb
      exact h.browReg h0 un hmem b (by rw [hph]; rfl)
  · intro h0 v hv v' hv' hvv bb bb' hbv hbv'
    rcases hupdmem hv with ⟨hv1, _⟩ | hv1
    · rcases hupdmem hv' with ⟨hv2, _⟩ | hv2
      · exact h.browInj h0 v hv1 v' hv2 hvv bb bb' hbv hbv'
      · rw [hv2] at hbv' hvv
        simp only [browserOf] at hbv'
        cases hbv'
        exact h.browInj h0 v hv1 un hmem hvv bb b hbv (by rw [hph]; rfl)
    · rcases hupdmem hv' with ⟨hv2, _⟩ | hv2
      · rw [hv1] at hbv hvv
        simp only [browserOf] at hbv
        cases hbv
        exact h.browInj h0 un hmem v' hv2 hvv b bb' (by rw [hph]; rfl) hbv'
      · rw [hv1, hv2] at hvv
        exact absurd rfl hvv
  · intro v hv tk htk
    rcases hupdmem hv with ⟨hv, _⟩ | hv
    · exact h.tokConsistent v hv tk htk
    · rw [hv] at htk ⊢
      simp only [tokOf] at htk
      cases htk
      exact htokc
  · intro r hr
    rcases List.mem_append.mp hr with hr | hr
    · exact h.workRecOk r hr
    · simp at hr
      rw [hr]
      exact htokc

theorem minv_sWorkFail (cfg : Cfg) (s : St) (u : Nat) (un : TUnit)
    (b : Browser) (pg : Option Nat) (e : Nat)
    (h : MInv cfg s) (hf : findUnit s u = some un)
    (hact : activeU un.phase = true)
    (hbrow : browserOf un.phase = some b) :
    MInv cfg
      { s with failLog := s.failLog ++ [un.task.tid]
               taskQueue := if s.isRunning then un.task :: s.taskQueue else s.taskQueue
               callbacks := s.callbacks ++ [(e, some un.task.params)]
               pageCloseLog := s.pageCloseLog ++ pageCloseCalls pg
               units := updUnit s.units u (afterWorkPhase b pg) } := by
  have hmem : un ∈ s.units := (findUnit_mem hf).1
  have huid : un.uid = u := (findUnit_mem hf).2
  have hupdmem : ∀ {x : TUnit}, x ∈ updUnit s.units u (afterWorkPhase b pg) →
      (x ∈ s.units ∧ x.uid ≠ u) ∨ x = { un with phase := afterWorkPhase b pg } := by
    intro x hx
    rcases mem_updUnit hx with hx | ⟨y, hy, hyu, hxy⟩
    · exact Or.inl hx
    · right
      have : y = un := uid_unique h hy hmem (by rw [hyu, huid])
      rw [hxy, this]
  refine { h with
    qTidLt := ?_
    uTidLt := ?_
    uidLt := ?_
    uidNodup := ?_
    bidLtU := ?_
    behQ := ?_
    behU := ?_
    unitAdmitted := ?_
    qOrder := ?_
    unadmittedInQ := ?_
    qNotDropped := ?_
    occupancy := ?_
    actEqUnits := ?_
    runningUnits := ?_
    browReg := ?_
    browInj := ?_
    tokConsistent := ?_ }
  all_goals dsimp only
  · intro x hx
    by_cases hr : s.isRunning = true
    · rw [if_pos hr] at hx
      rcases List.mem_cons.mp hx with hx | hx
      · rw [hx]
        exact h.uTidLt un hmem
      · exact h.qTidLt x hx
    · rw [if_neg hr] at hx
      exact h.qTidLt x hx
  · intro v hv
    rcases hupdmem hv with ⟨hv, _⟩ | hv
    · exact h.uTidLt v hv
    · rw [hv]
      exact h.uTidLt un hmem
  · intro v hv
    rcases hupdmem hv with ⟨hv, _⟩ | hv
    · exact h.uidLt v hv
    · rw [hv]
      exact h.uidLt un hmem
  · rw [map_uid_updUnit]
    exact h.uidNodup
  · intro v hv bb hb
    rcases hupdmem hv with ⟨hv, _⟩ | hv
    · exact h.bidLtU v hv bb hb
    · rw [hv] at hb
      rw [browserOf_afterWork] at hb
      cases hb
      exact h.bidLtU un hmem b hbrow
  · intro x hx
    by_cases hr : s.isRunning = true
    · rw [if_pos hr] at hx
      rcases List.mem_cons.mp hx with hx | hx
      · rw [hx]
        exact h.behU un hmem
      · exact h.behQ x hx
    · rw [if_neg hr] at hx
      exact h.behQ x hx
  · intro v hv
    rcases hupdmem hv with ⟨hv, _⟩ | hv
    · exact h.behU v hv
    · rw [hv]
      exact h.behU un hmem
  · intro v hv
    rcases hupdmem hv with ⟨hv, _⟩ | hv
    · exact h.unitAdmitted v hv
    · rw [hv]
      exact h.unitAdmitted un hmem
  · by_cases hr : s.isRunning = true
    · rw [if_pos hr]
      apply List.pairwise_cons.mpr
      refine ⟨?_, h.qOrder⟩
      intro bb _ hA
      exact absurd (h.unitAdmitted un hmem) hA
    · rw [if_neg hr]
      exact h.qOrder
  · intro x hlt hA hD
    have := h.unadmittedInQ x hlt hA hD
    unfold queueTids at this ⊢
    dsimp only
    by_cases hr : s.isRunning = true
    · rw [if_pos hr, List.map_cons]
      exact List.mem_cons_of_mem _ this
    · rw [if_neg hr]
      exact this
  · intro x hx hA
    unfold queueTids at hx
    dsimp only at hx
    by_cases hr : s.isRunning = true
    · rw [if_pos hr, List.map_cons] at hx
      rcases List.mem_cons.mp hx with hx | hx
      · rw [hx] at hA
        exact absurd (h.unitAdmitted un hmem) hA
      · exact h.qNotDropped x hx hA
    · rw [if_neg hr] at hx
      exact h.qNotDropped x hx hA
  · intro x
    have hc := countP_updUnit (fun v => decide (v.task.tid = x) && activeU v.phase) h hf
      (afterWorkPhase b pg)
    have hocc := h.occupancy x
    unfold countQ countAU at hocc ⊢
    dsimp only
    have hz : (if (decide (un.task.tid = x) && activeU (afterWorkPhase b pg)) = true
        then 1 else 0) = 0 := by
      rw [activeU_afterWork]
      simp
    rw [hz] at hc
    by_cases hr : s.isRunning = true
    · rw [if_pos hr]
      have hq' : List.countP (fun v => decide (v.tid = x)) (un.task :: s.taskQueue)
          = List.countP (fun v => decide (v.tid = x)) s.taskQueue
            + (if un.task.tid = x then 1 else 0) := by
        rw [List.countP_cons]
        by_cases hx : un.task.tid = x
        all_goals simp [hx]
      rw [hq']
      by_cases hx : un.task.tid = x
      · have hpos : 0 < s.units.countP
            (fun v => decide (v.task.tid = x) && activeU v.phase) := by
          apply List.countP_pos_iff.mpr
          exact ⟨un, hmem, by simp [hx, hact]⟩
        rw [if_pos hx]
        have hle : (if (decide (un.task.tid = x) && activeU un.phase) = true
            then 1 else 0) = 1 := by simp [hx, hact]
        rw [hle] at hc
        omega
      · rw [if_neg hx]
        omega
    · rw [if_neg hr]
      omega
  · intro h0
    rw [length_updUnit]
    exact h.actEqUnits h0
  · intro h0
    rcases h.runningUnits h0 with h1 | h1
    · left
      rw [h1]
      rfl
    · exact Or.inr h1
  · intro h0 v hv bb hb
    rcases hupdmem hv with ⟨hv, _⟩ | hv
    · exact h.browReg h0 v hv bb hb
    · rw [hv] at hb
      rw [browserOf_afterWork] at hb
      cases hb
      exact h.browReg h0 un hmem b hbrow
  · intro h0 v hv v' hv' hvv bb bb' hbv hbv'
    rcases hupdmem hv with ⟨hv1, _⟩ | hv1
    · rcases hupdmem hv' with ⟨hv2, _⟩ | hv2
      · exact h.browInj h0 v hv1 v' hv2 hvv bb bb' hbv hbv'
      · rw [hv2] at hbv' hvv
        rw [browserOf_afterWork] at hbv'
        cases hbv'
        exact h.browInj h0 v hv1 un hmem hvv bb b hbv hbrow
    · rcases hupdmem hv' with ⟨hv2, _⟩ | hv2
      · rw [hv1] at hbv hvv
        rw [browserOf_afterWork] at hbv
        cases hbv
        exact h.browInj h0 un hmem v' hv2 hvv b bb' hbrow hbv'
      · rw [hv1, hv2] at hvv
        exact absurd rfl hvv
  · intro v hv tk htk
    rcases hupdmem hv with ⟨hv, _⟩ | hv
    · exact h.tokConsistent v hv tk htk
    · rw [hv] at htk
      rw [tokOf_afterWork] at htk
      cases htk

theorem minv_sFinallyIn (cfg : Cfg) (s : St) (u : Nat) (un : TUnit) (b : Browser)
    (h : MInv cfg s) (hf : findUnit s u = some un)
    (hph : un.phase = .settledU b) (_hb : b ∈ s.activeBrowsers) :
    MInv cfg
      { s with activeTasks := s.activeTasks - 1
               activeBrowsers := s.activeBrowsers.erase b
               units := dropUnit s.units u } := by
  have hmem : un ∈ s.units := (findUnit_mem hf).1
  have huid : un.uid = u := (findUnit_mem hf).2
  have hinact : activeU un.phase = false := by rw [hph]; rfl
  refine { h with
    uTidLt := ?_
    uidLt := ?_
    uidNodup := ?_
    bidLtU := ?_
    bidLtA := ?_
    abNodup := ?_
    behU := ?_
    unitAdmitted := ?_
    occupancy := ?_
    actEqUnits := ?_
    runningUnits := ?_
    browReg := ?_
    browInj := ?_
    actLeMax := ?_
    tokConsistent := ?_ }
  all_goals dsimp only
  · intro v hv
    exact h.uTidLt v (mem_dropUnit hv).1
  · intro v hv
    exact h.uidLt v (mem_dropUnit hv).1
  · exact nodup_uid_dropUnit s u h.uidNodup
  · intro v hv bb hbb
    exact h.bidLtU v (mem_dropUnit hv).1 bb hbb
  · intro bb hbb
    exact h.bidLtA bb (List.mem_of_mem_erase hbb)
  · exact h.abNodup.erase b
  · intro v hv
    exact h.behU v (mem_dropUnit hv).1
  · intro v hv
    exact h.unitAdmitted v (mem_dropUnit hv).1
  · intro x
    have hc := countP_dropUnit (fun v => decide (v.task.tid = x) && activeU v.phase) h hf
    have hz : (if (decide (un.task.tid = x) && activeU un.phase) = true
        then 1 else 0) = 0 := by
      rw [hinact]
      simp
    rw [hz] at hc
    have hocc := h.occupancy x
    unfold countQ countAU at hocc ⊢
    dsimp only
    omega
  · intro h0
    have hlen := length_dropUnit h hf
    have := h.actEqUnits h0
    omega
  · intro h0
    rcases h.runningUnits h0 with h1 | h1
    · rw [h1] at hmem
      cases hmem
    · exact Or.inr h1
  · intro h0 v hv bb hbb
    have hvmem := (mem_dropUnit hv).1
    have hvuid := (mem_dropUnit hv).2
    have hne : bb ≠ b := by
      apply h.browInj h0 v hvmem un hmem ?_ bb b hbb (by rw [hph]; rfl)
      rw [huid]
      exact hvuid
    exact (List.mem_erase_of_ne hne).mpr (h.browReg h0 v hvmem bb hbb)
  · intro h0 v hv v' hv' hvv bb bb' hbv hbv'
    exact h.browInj h0 v (mem_dropUnit hv).1 v' (mem_dropUnit hv').1 hvv bb bb' hbv hbv'
  · have := h.actLeMax
    omega
  · intro v hv tk htk
    exact h.tokConsistent v (mem_dropUnit hv).1 tk htk

theorem minv_sFinallyOut (cfg : Cfg) (s : St) (u : Nat) (un : TUnit) (b : Browser)
    (h : MInv cfg s) (hf : findUnit s u = some un)
    (hph : un.phase = .settledU b) (hb : b ∉ s.activeBrowsers) :
    MInv cfg { s with units := dropUnit s.units u } := by
  have hmem : un ∈ s.units := (findUnit_mem hf).1
  have hinact : activeU un.phase = false := by rw [hph]; rfl
  refine { h with
    uTidLt := ?_
    uidLt := ?_
    uidNodup := ?_
    bidLtU := ?_
    behU := ?_
    unitAdmitted := ?_
    occupancy := ?_
    actEqUnits := ?_
    runningUnits := ?_
    browReg := ?_
    browInj := ?_
    tokConsistent := ?_ }
  all_goals dsimp only
  · intro v hv
    exact h.uTidLt v (mem_dropUnit hv).1
  · intro v hv
    exact h.uidLt v (mem_dropUnit hv).1
  · exact nodup_uid_dropUnit s u h.uidNodup
  · intro v hv bb hbb
    exact h.bidLtU v (mem_dropUnit hv).1 bb hbb
  · intro v hv
    exact h.behU v (mem_dropUnit hv).1
  · intro v hv
    exact h.unitAdmitted v (mem_dropUnit hv).1
  · intro x
    have hc := countP_dropUnit (fun v => decide (v.task.tid = x) && activeU v.phase) h hf
    have hz : (if (decide (un.task.tid = x) && activeU un.phase) = true
        then 1 else 0) = 0 := by
      rw [hinact]
      simp
    rw [hz] at hc
    have hocc := h.occupancy x
    unfold countQ countAU at hocc ⊢
    dsimp only
    omega
  · intro h0
    exact absurd (h.browReg h0 un hmem b (by rw [hph]; rfl)) hb
  · intro h0
    rcases h.runningUnits h0 with h1 | h1
    · rw [h1] at hmem
      cases hmem
    · exact Or.inr h1
  · intro h0 v hv bb hbb
    exact h.browReg h0 v (mem_dropUnit hv).1 bb hbb
  · intro h0 v hv v' hv' hvv bb bb' hbv hbv'
    exact h.browInj h0 v (mem_dropUnit hv).1 v' (mem_dropUnit hv').1 hvv bb bb' hbv hbv'
  · intro v hv tk htk
    exact h.tokConsistent v (mem_dropUnit hv).1 tk htk

theorem minv_sStopEmpty (cfg : Cfg) (s : St) (h : MInv cfg s) :
    MInv cfg
      { s with isRunning := false
               droppedTids := s.droppedTids ++ s.taskQueue.map (fun t => t.tid)
               taskQueue := ([] : List TaskItem)
               stopCalls := s.stopCalls + 1
               activeTasks := 0
               stopsCompleted := s.stopsCompleted + 1 } := by
  refine { h with
    qTidLt := ?_
    dropLt := ?_
    behQ := ?_
    qOrder := ?_
    unadmittedInQ := ?_
    qNotDropped := ?_
    belowAdmitted := ?_
    occupancy := ?_
    stopsEmpty := ?_
    actEqUnits := ?_
    runningUnits := ?_
    browReg := ?_
    browInj := ?_
    actLeMax := ?_
    notRunning := ?_
    resolvedFrom := ?_ }
  all_goals dsimp only
  · intro t ht
    cases ht
  · intro t ht
    rcases List.mem_append.mp ht with ht | ht
    · exact h.dropLt t ht
    · obtain ⟨it, hit, hitx⟩ := List.mem_map.mp ht
      rw [← hitx]
      exact h.qTidLt it hit
  · intro t ht
    cases ht
  · exact List.Pairwise.nil
  · intro t hlt hA hD
    exfalso
    have hD0 : t ∉ s.droppedTids := fun hc => hD (List.mem_append_left _ hc)
    have := h.unadmittedInQ t hlt hA hD0
    unfold queueTids at this
    exact hD (List.mem_append_right _ this)
  · intro t ht
    cases ht
  · intro t y hy hty htA
    exact List.mem_append_left _ (h.belowAdmitted t y hy hty htA)
  · intro x
    have hocc := h.occupancy x
    unfold countQ countAU at hocc ⊢
    dsimp only
    simp only [List.countP_nil]
    omega
  · intro h0
    exact absurd h0 (by omega)
  · intro h0
    exact absurd h0 (by omega)
  · intro h0
    exact absurd h0 (by omega)
  · intro h0
    exact absurd h0 (by omega)
  · intro h0
    exact absurd h0 (by omega)
  · omega
  · intro _
    exact Or.inr (by omega)
  · intro _
    exact Or.inr (by omega)

theorem minv_sStopNonempty (cfg : Cfg) (s : St) (b : Browser) (h : MInv cfg s) :
    MInv cfg
      { s with isRunning := false
               droppedTids := s.droppedTids ++ s.taskQueue.map (fun t => t.tid)
               taskQueue := ([] : List TaskItem)
               stopCalls := s.stopCalls + 1
               closeLog := s.closeLog ++ [b]
               stops := s.stops ++ [{ sid := s.nextStopId, idx := 0 }]
               nextStopId := s.nextStopId + 1 } := by
  refine { h with
    qTidLt := ?_
    dropLt := ?_
    sidLt := ?_
    behQ := ?_
    qOrder := ?_
    unadmittedInQ := ?_
    qNotDropped := ?_
    belowAdmitted := ?_
    occupancy := ?_
    stopsEmpty := ?_
    actEqUnits := ?_
    runningUnits := ?_
    browReg := ?_
    browInj := ?_
    notRunning := ?_
    resolvedFrom := ?_ }
  all_goals dsimp only
  · intro t ht
    cases ht
  · intro t ht
    rcases List.mem_append.mp ht with ht | ht
    · exact h.dropLt t ht
    · obtain ⟨it, hit, hitx⟩ := List.mem_map.mp ht
      rw [← hitx]
      exact h.qTidLt it hit
  · intro k hk
    rcases List.mem_append.mp hk with hk | hk
    · exact Nat.lt_succ_of_lt (h.sidLt k hk)
    · simp at hk
      rw [hk]
      exact Nat.lt_succ_self _
  · intro t ht
    cases ht
  · exact List.Pairwise.nil
  · intro t hlt hA hD
    exfalso
    have hD0 : t ∉ s.droppedTids := fun hc => hD (List.mem_append_left _ hc)
    have := h.unadmittedInQ t hlt hA hD0
    unfold queueTids at this
    exact hD (List.mem_append_right _ this)
  · intro t ht
    cases ht
  · intro t y hy hty htA
    exact List.mem_append_left _ (h.belowAdmitted t y hy hty htA)
  · intro x
    have hocc := h.occupancy x
    unfold countQ countAU at hocc ⊢
    dsimp only
    simp only [List.countP_nil]
    omega
  · intro h0
    exact absurd h0 (by omega)
  · intro h0
    exact absurd h0 (by omega)
  · intro h0
    exact absurd h0 (by omega)
  · intro h0
    exact absurd h0 (by omega)
  · intro h0
    exact absurd h0 (by omega)
  · intro _
    exact Or.inr (by omega)
  · intro _
    exact Or.inr (by omega)

theorem minv_sStopAdv (cfg : Cfg) (s : St) (k : Nat) (idx : Nat) (h : MInv cfg s) :
    MInv cfg
      { s with closeLog := s.closeLog ++ [s.activeBrowsers.getD idx 0]
               stops := s.stops.map fun x =>
                 if x.sid = k then { x with idx := idx } else x } := by
  refine { h with
    sidLt := ?_
    stopsEmpty := ?_ }
  all_goals dsimp only
  · intro x hx
    obtain ⟨y, hy, hyx⟩ := List.mem_map.mp hx
    by_cases hyk : y.sid = k
    · rw [if_pos hyk] at hyx
      rw [← hyx]
      exact h.sidLt y hy
    · rw [if_neg hyk] at hyx
      rw [← hyx]
      exact h.sidLt y hy
  · intro h0
    rw [h.stopsEmpty h0]
    rfl

theorem minv_sStopFin (cfg : Cfg) (s : St) (k : Nat) (st : StopU)
    (hfs : s.stops.find? (fun x => x.sid = k) = some st) (h : MInv cfg s) :
    MInv cfg
      { s with activeBrowsers := ([] : List Browser)
               activeTasks := 0
               stops := s.stops.filter fun x => x.sid ≠ k
               stopsCompleted := s.stopsCompleted + 1 } := by
  have hstops : s.stopCalls = 0 → False := by
    intro h0
    rw [h.stopsEmpty h0] at hfs
    cases hfs
  refine { h with
    sidLt := ?_
    bidLtA := ?_
    abNodup := ?_
    stopsEmpty := ?_
    actEqUnits := ?_
    runningUnits := ?_
    browReg := ?_
    browInj := ?_
    actLeMax := ?_ }
  all_goals dsimp only
  · intro x hx
    exact h.sidLt x (List.mem_of_mem_filter hx)
  · intro b hb
    cases hb
  · exact List.nodup_nil
  · intro h0
    exact absurd h0 (fun hc => hstops hc)
  · intro h0
    exact absurd h0 (fun hc => hstops hc)
  · intro h0
    exact absurd h0 (fun hc => hstops hc)
  · intro h0
    exact absurd h0 (fun hc => hstops hc)
  · intro h0
    exact absurd h0 (fun hc => hstops hc)
  · omega

/-- The master invariant is preserved by every successful event. -/
theorem minv_step (cfg : Cfg) (s : St) (e : Ev) (s' : St)
    (h : MInv cfg s) (hap : applyEvent cfg s e = some s') : MInv cfg s' := by
  cases applyEvent_shape cfg s e s' hap with
  | sStart => exact minv_sStart cfg s h
  | sAddTask beh params => exact minv_sAddTask cfg s beh params h
  | sWake w wk iter hf hph => exact minv_sWake cfg s w iter h
  | sLoopExit w wk iter hf hph hrun => exact minv_sLoopExit cfg s wk.wid iter hrun h
  | sLoopAdmit w wk iter t rest hf hph hrun hq hcap =>
    exact minv_sLoopAdmit cfg s wk.wid t rest hrun hq hcap h
  | sLoopDetect w wk iter hf hph hrun hnoadm hdet =>
    exact minv_sLoopDetect cfg s wk.wid iter hdet h
  | sLoopSleep w wk iter hf hph hrun hnoadm hdet => exact minv_sLoopSleep cfg s wk.wid iter h
  | sDrain w wk err hf hph => exact minv_sDrain cfg s w err h
  | sProxyOk u un f tok hf hph hpr hok =>
    refine minv_phase cfg s u un (.aLaunch (some tok)) s.lostTids s.closeLog
      s.pageCloseLog h hf ?_ ?_ ?_
    · intro _
      rw [hph]
      rfl
    · intro b hb
      cases hb
    · intro tk htk
      simp only [tokOf] at htk
      cases htk
      rw [hpr]
      show some tok = (f un.task.params).toOption
      rw [hok]
      rfl
  | sProxyErr u un f e hf hph hpr herr =>
    exact minv_catch cfg s u un e h hf (by rw [hph]; rfl)
  | sLaunchNone u un tok out hf hph hhl => exact minv_sLaunchNone cfg s u un h hf
  | sLaunchOk u un tok hf hph hhl => exact minv_sLaunchOk cfg s u un tok h hf hph
  | sLaunchRej u un tok e hf hph hhl =>
    exact minv_catch cfg s u un e h hf (by rw [hph]; rfl)
  | sPagesRej u un b tok hf hph =>
    refine minv_phase cfg s u un (.settledU b) (s.lostTids ++ [un.task.tid]) s.closeLog
      s.pageCloseLog h hf ?_ ?_ ?_
    · intro hc
      cases hc
    · intro bb hbb
      simp only [browserOf] at hbb
      cases hbb
      rw [hph]
      rfl
    · intro tk htk
      cases htk
  | sPagesRes u un b tok hasPage hf hph =>
    exact minv_sPagesRes cfg s u un b tok hasPage h hf hph
  | sWorkDone u un b pg tok idx e hf hph hb =>
    refine minv_phase cfg s u un (afterWorkPhase b pg) s.lostTids s.closeLog
      (s.pageCloseLog ++ pageCloseCalls pg) h hf ?_ ?_ ?_
    · rw [activeU_afterWork]
      intro hc
      cases hc
    · intro bb hbb
      rw [browserOf_afterWork] at hbb
      cases hbb
      rw [hph]
      rfl
    · intro tk htk
      rw [tokOf_afterWork] at htk
      cases htk
  | sWorkFail u un b pg tok idx e hf hph hb =>
    exact minv_sWorkFail cfg s u un b pg e h hf (by rw [hph]; rfl) (by rw [hph]; rfl)
  | sPageCloseOk u un b hf hph =>
    refine minv_phase cfg s u un (.cBrowser b) s.lostTids (s.closeLog ++ [b])
      s.pageCloseLog h hf ?_ ?_ ?_
    · intro hc
      cases hc
    · intro bb hbb
      simp only [browserOf] at hbb
      cases hbb
      rw [hph]
      rfl
    · intro tk htk
      cases htk
  | sPageCloseErr u un b hf hph =>
    refine minv_phase cfg s u un (.settledU b) s.lostTids s.closeLog
      s.pageCloseLog h hf ?_ ?_ ?_
    · intro hc
      cases hc
    · intro bb hbb
      simp only [browserOf] at hbb
      cases hbb
      rw [hph]
      rfl
    · intro tk htk
      cases htk
  | sBrowserClose u un b ok hf hph =>
    refine minv_phase cfg s u un (.settledU b) s.lostTids s.closeLog
      s.pageCloseLog h hf ?_ ?_ ?_
    · intro hc
      cases hc
    · intro bb hbb
      simp only [browserOf] at hbb
      cases hbb
      rw [hph]
      rfl
    · intro tk htk
      cases htk
  | sFinallyIn u un b hf hph hb => exact minv_sFinallyIn cfg s u un b h hf hph hb
  | sFinallyOut u un b hf hph hb => exact minv_sFinallyOut cfg s u un b h hf hph hb
  | sStopEmpty hb => exact minv_sStopEmpty cfg s h
  | sStopNonempty b rest hb => exact minv_sStopNonempty cfg s b h
  | sStopAdv k st ok hfs hlt => exact minv_sStopAdv cfg s k (st.idx + 1) h
  | sStopFin k st ok hfs hge => exact minv_sStopFin cfg s k st hfs h

/-- Every state reachable from the freshly constructed cluster satisfies the
master invariant. -/
theorem minv_run (cfg : Cfg) (evts : List Ev) (s : St)
    (h : runEvents cfg evts = some s) : MInv cfg s :=
  runFrom_inv (fun s e s' hs hap => minv_step cfg s e s' hs hap) evts initSt s
    (minv_init cfg) h

/-! ### Preservation of the per-task retry invariant -/

theorem preInvoke_initPhase (cfg : Cfg) : preInvoke (initPhase cfg) = true := by
  unfold initPhase
  cases cfg.proxy <;> rfl

theorem two_le_countP {α : Type} (p : α → Bool) :
    ∀ (l : List α) (x y : α), x ∈ l → y ∈ l → x ≠ y → p x = true → p y = true →
      2 ≤ l.countP p := by
  intro l
  induction l with
  | nil => intro x y hx _ _ _ _; cases hx
  | cons a l ih =>
    intro x y hx hy hne hpx hpy
    rw [List.countP_cons]
    rcases List.mem_cons.mp hx with hxa | hx'
    · rcases List.mem_cons.mp hy with hya | hy'
      · exact absurd (hxa.trans hya.symm) hne
      · have h1 : 0 < l.countP p := List.countP_pos_iff.mpr ⟨y, hy', hpy⟩
        have hpa : p a = true := hxa ▸ hpx
        rw [if_pos hpa]
        omega
    · rcases List.mem_cons.mp hy with hya | hy'
      · have h1 : 0 < l.countP p := List.countP_pos_iff.mpr ⟨x, hx', hpx⟩
        have hpa : p a = true := hya ▸ hpy
        rw [if_pos hpa]
        omega
      · have h2 := ih x y hx' hy' hne hpx hpy
        omega

theorem countQ_cons_pos (t : TaskItem) (q : List TaskItem) (T : Nat) (h : t.tid = T) :
    (t :: q).countP (fun x => decide (x.tid = T)) =
      q.countP (fun x => decide (x.tid = T)) + 1 := by
  rw [List.countP_cons]
  simp [h]

theorem countQ_cons_neg (t : TaskItem) (q : List TaskItem) (T : Nat) (h : ¬ t.tid = T) :
    (t :: q).countP (fun x => decide (x.tid = T)) =
      q.countP (fun x => decide (x.tid = T)) := by
  rw [List.countP_cons]
  simp [h]

theorem countQ_append_pos (q : List TaskItem) (t : TaskItem) (T : Nat) (h : t.tid = T) :
    (q ++ [t]).countP (fun x => decide (x.tid = T)) =
      q.countP (fun x => decide (x.tid = T)) + 1 := by
  rw [List.countP_append, List.countP_cons]
  simp [h]

theorem countQ_append_neg (q : List TaskItem) (t : TaskItem) (T : Nat) (h : ¬ t.tid = T) :
    (q ++ [t]).countP (fun x => decide (x.tid = T)) =
      q.countP (fun x => decide (x.tid = T)) := by
  rw [List.countP_append, List.countP_cons]
  simp [h]

theorem countAU_append_pos (us : List TUnit) (x : TUnit) (T : Nat)
    (h1 : x.task.tid = T) (h2 : activeU x.phase = true) :
    (us ++ [x]).countP (fun v => decide (v.task.tid = T) && activeU v.phase) =
      us.countP (fun v => decide (v.task.tid = T) && activeU v.phase) + 1 := by
  rw [List.countP_append, List.countP_cons]
  simp [h1, h2]

theorem countAU_append_neg (us : List TUnit) (x : TUnit) (T : Nat)
    (h1 : ¬ x.task.tid = T) :
    (us ++ [x]).countP (fun v => decide (v.task.tid = T) && activeU v.phase) =
      us.countP (fun v => decide (v.task.tid = T) && activeU v.phase) := by
  rw [List.countP_append, List.countP_cons]
  simp [h1]

theorem countAU_upd_tt {cfg : Cfg} {s : St} {u : Nat} {un : TUnit}
    (hm : MInv cfg s) (hf : findUnit s u = some un) (p : UPhase) (T : Nat)
    (h1 : un.task.tid = T) (h2 : activeU un.phase = true) (h3 : activeU p = true) :
    (updUnit s.units u p).countP (fun v => decide (v.task.tid = T) && activeU v.phase)
      = s.units.countP (fun v => decide (v.task.tid = T) && activeU v.phase) := by
  have hcnt := countP_updUnit (fun v => decide (v.task.tid = T) && activeU v.phase) hm hf p
  dsimp only at hcnt
  simp [h1, h2, h3] at hcnt
  omega

theorem countAU_upd_tf {cfg : Cfg} {s : St} {u : Nat} {un : TUnit}
    (hm : MInv cfg s) (hf : findUnit s u = some un) (p : UPhase) (T : Nat)
    (h1 : un.task.tid = T) (h2 : activeU un.phase = true) (h3 : activeU p = false) :
    (updUnit s.units u p).countP (fun v => decide (v.task.tid = T) && activeU v.phase) + 1
      = s.units.countP (fun v => decide (v.task.tid = T) && activeU v.phase) := by
  have hcnt := countP_updUnit (fun v => decide (v.task.tid = T) && activeU v.phase) hm hf p
  dsimp only at hcnt
  simp [h1, h2, h3] at hcnt
  omega

theorem countAU_upd_ii {cfg : Cfg} {s : St} {u : Nat} {un : TUnit}
    (hm : MInv cfg s) (hf : findUnit s u = some un) (p : UPhase) (T : Nat)
    (h2 : activeU un.phase = false) (h3 : activeU p = false) :
    (updUnit s.units u p).countP (fun v => decide (v.task.tid = T) && activeU v.phase)
      = s.units.countP (fun v => decide (v.task.tid = T) && activeU v.phase) := by
  have hcnt := countP_updUnit (fun v => decide (v.task.tid = T) && activeU v.phase) hm hf p
  dsimp only at hcnt
  simp [h2, h3] at hcnt
  omega

theorem countAU_upd_ne {cfg : Cfg} {s : St} {u : Nat} {un : TUnit}
    (hm : MInv cfg s) (hf : findUnit s u = some un) (p : UPhase) (T : Nat)
    (h1 : ¬ un.task.tid = T) :
    (updUnit s.units u p).countP (fun v => decide (v.task.tid = T) && activeU v.phase)
      = s.units.countP (fun v => decide (v.task.tid = T) && activeU v.phase) := by
  have hcnt := countP_updUnit (fun v => decide (v.task.tid = T) && activeU v.phase) hm hf p
  dsimp only at hcnt
  simp [h1] at hcnt
  omega

theorem countAU_drop_t {cfg : Cfg} {s : St} {u : Nat} {un : TUnit}
    (hm : MInv cfg s) (hf : findUnit s u = some un) (T : Nat)
    (h1 : un.task.tid = T) (h2 : activeU un.phase = true) :
    (dropUnit s.units u).countP (fun v => decide (v.task.tid = T) && activeU v.phase) + 1
      = s.units.countP (fun v => decide (v.task.tid = T) && activeU v.phase) := by
  have hcnt := countP_dropUnit (fun v => decide (v.task.tid = T) && activeU v.phase) hm hf
  dsimp only at hcnt
  simp [h1, h2] at hcnt
  omega

theorem countAU_drop_i {cfg : Cfg} {s : St} {u : Nat} {un : TUnit}
    (hm : MInv cfg s) (hf : findUnit s u = some un) (T : Nat)
    (h2 : activeU un.phase = false) :
    (dropUnit s.units u).countP (fun v => decide (v.task.tid = T) && activeU v.phase)
      = s.units.countP (fun v => decide (v.task.tid = T) && activeU v.phase) := by
  have hcnt := countP_dropUnit (fun v => decide (v.task.tid = T) && activeU v.phase) hm hf
  dsimp only at hcnt
  simp [h2] at hcnt
  omega

theorem countAU_drop_ne {cfg : Cfg} {s : St} {u : Nat} {un : TUnit}
    (hm : MInv cfg s) (hf : findUnit s u = some un) (T : Nat)
    (h1 : ¬ un.task.tid = T) :
    (dropUnit s.units u).countP (fun v => decide (v.task.tid = T) && activeU v.phase)
      = s.units.countP (fun v => decide (v.task.tid = T) && activeU v.phase) := by
  have hcnt := countP_dropUnit (fun v => decide (v.task.tid = T) && activeU v.phase) hm hf
  dsimp only at hcnt
  simp [h1] at hcnt
  omega

/-- Transporting the life-cycle disjunction to a state with the same
per-`T` counts, invocation count, and active-unit phases. -/
theorem phiMain_transport {s s' : St} {T N : Nat}
    (hq : countQ s' T = countQ s T) (hau : countAU s' T = countAU s T)
    (hic : s'.invCnt T = s.invCnt T)
    (hunits : ∀ x ∈ s'.units, x.task.tid = T → activeU x.phase = true →
      ∃ v ∈ s.units, v.task.tid = T ∧ activeU v.phase = true ∧ v.phase = x.phase)
    (hmain : phiA s T N ∨ phiB s T N ∨ phiC s T N ∨ phiD s T N) :
    phiA s' T N ∨ phiB s' T N ∨ phiC s' T N ∨ phiD s' T N := by
  unfold phiA phiB phiC phiD at hmain ⊢
  rw [hq, hau, hic]
  rcases hmain with h | h | h | h
  · exact Or.inl h
  · refine Or.inr (Or.inl ⟨h.1, h.2.1, h.2.2.1, ?_⟩)
    intro x hx ht ha
    obtain ⟨v, hv, hvt, hva, hvp⟩ := hunits x hx ht ha
    rw [← hvp]
    exact h.2.2.2 v hv hvt hva
  · refine Or.inr (Or.inr (Or.inl ⟨h.1, h.2.1, h.2.2.1, h.2.2.2.1, ?_⟩))
    intro x hx ht ha
    obtain ⟨v, hv, hvt, hva, hvp⟩ := hunits x hx ht ha
    rw [← hvp]
    exact h.2.2.2.2 v hv hvt hva
  · exact Or.inr (Or.inr (Or.inr h))

theorem phi_init (T N : Nat) : Phi initSt T N := by
  intro _ hbeh _
  exact Option.noConfusion hbeh

theorem phi_sAddTask (cfg : Cfg) (s : St) (beh : Nat → Bool) (params : Nat) (T N : Nat)
    (hm : MInv cfg s) (hphi : Phi s T N) :
    Phi { s with
            taskQueue := s.taskQueue ++ [{ tid := s.nextTid, params := params, beh := beh }]
            nextTid := s.nextTid + 1
            behOf := fun t => if t = s.nextTid then some beh else s.behOf t } T N := by
  intro h0 hbeh hlost
  dsimp only at h0 hbeh hlost
  by_cases hT : T = s.nextTid
  · left
    unfold phiA countQ countAU
    dsimp only
    rw [countQ_append_pos _ _ _ hT.symm]
    refine ⟨?_, ?_, ?_⟩
    · have hz : s.taskQueue.countP (fun x => decide (x.tid = T)) = 0 := by
        apply List.countP_eq_zero.mpr
        intro t ht
        have := hm.qTidLt t ht
        simp only [decide_eq_true_eq]
        omega
      omega
    · apply List.countP_eq_zero.mpr
      intro v hv
      have := hm.uTidLt v hv
      simp only [Bool.and_eq_true, decide_eq_true_eq, not_and]
      intro hc
      exfalso
      omega
    · have := hm.invLt T (by omega)
      omega
  · rw [if_neg hT] at hbeh
    have hmain := hphi h0 hbeh hlost
    refine phiMain_transport ?_ ?_ ?_ ?_ hmain
    · unfold countQ
      dsimp only
      rw [countQ_append_neg _ _ _ (fun hc => hT hc.symm)]
    · rfl
    · rfl
    · intro x hx ht ha
      exact ⟨x, hx, ht, ha, rfl⟩

theorem phi_sLoopAdmit (cfg : Cfg) (s : St) (w : Nat) (t : TaskItem) (rest : List TaskItem)
    (T N : Nat) (_hm : MInv cfg s) (hphi : Phi s T N) (hq : s.taskQueue = t :: rest) :
    Phi { s with
            taskQueue := rest
            units := s.units ++ [{ uid := s.nextUid, task := t, phase := initPhase cfg }]
            nextUid := s.nextUid + 1
            activeTasks := s.activeTasks + 1
            admitLog := s.admitLog ++ [t.tid]
            workers := updWorker s.workers w (.atLoop 0) } T N := by
  intro h0 hbeh hlost
  dsimp only at h0 hbeh hlost
  have hmain := hphi h0 hbeh hlost
  by_cases hT : t.tid = T
  · have hqpos : 0 < countQ s T := by
      unfold countQ
      rw [hq, countQ_cons_pos _ _ _ hT]
      omega
    rcases hmain with hA | hB | hC | hD
    · right; left
      unfold phiB countQ countAU
      dsimp only
      have hA1 := hA.1
      unfold countQ at hA1
      rw [hq, countQ_cons_pos _ _ _ hT] at hA1
      have hA2 := hA.2.1
      unfold countAU at hA2
      rw [countAU_append_pos _ _ _ hT (activeU_initPhase cfg)]
      refine ⟨by omega, by omega, hA.2.2, ?_⟩
      intro x hx ht ha
      rcases List.mem_append.mp hx with hx' | hx'
      · exfalso
        have hpos : 0 < s.units.countP
            (fun v => decide (v.task.tid = T) && activeU v.phase) :=
          List.countP_pos_iff.mpr ⟨x, hx', by simp [ht, ha]⟩
        omega
      · have hxe : x = { uid := s.nextUid, task := t, phase := initPhase cfg } := by
          simpa using hx'
        rw [hxe]
        exact preInvoke_initPhase cfg
    · exact absurd hB.1 (by omega)
    · exact absurd hC.1 (by omega)
    · exact absurd hD.1 (by omega)
  · refine phiMain_transport ?_ ?_ ?_ ?_ hmain
    · unfold countQ
      dsimp only
      rw [hq, countQ_cons_neg _ _ _ hT]
    · unfold countAU
      dsimp only
      rw [countAU_append_neg _ _ _ hT]
    · rfl
    · intro x hx ht ha
      rcases List.mem_append.mp hx with hx' | hx'
      · exact ⟨x, hx', ht, ha, rfl⟩
      · exfalso
        have hxe : x = { uid := s.nextUid, task := t, phase := initPhase cfg } := by
          simpa using hx'
        rw [hxe] at ht
        exact hT ht

/-- Phase update of an active unit to another active, pre-invoke phase. -/
theorem phi_updPre (cfg : Cfg) (s s' : St) (u : Nat) (un : TUnit) (p : UPhase) (T N : Nat)
    (hm : MInv cfg s) (hphi : Phi s T N) (hf : findUnit s u = some un)
    (hac0 : activeU un.phase = true) (hpre0 : preInvoke un.phase = true)
    (hacp : activeU p = true) (hprep : preInvoke p = true)
    (hun : s'.units = updUnit s.units u p)
    (hqe : s'.taskQueue = s.taskQueue) (hic : s'.invCnt = s.invCnt)
    (hsc : s'.stopCalls = s.stopCalls) (hbe : s'.behOf = s.behOf)
    (hlt : s'.lostTids = s.lostTids) :
    Phi s' T N := by
  intro h0 hbeh hlost
  rw [hsc] at h0
  rw [hbe] at hbeh
  rw [hlt] at hlost
  have hmain := hphi h0 hbeh hlost
  have hmem : un ∈ s.units := (findUnit_mem hf).1
  by_cases hT : un.task.tid = T
  · have hpos : 0 < countAU s T :=
      List.countP_pos_iff.mpr ⟨un, hmem, by simp [hT, hac0]⟩
    rcases hmain with hA | hB | hC | hD
    · exact absurd hA.2.1 (by omega)
    · right; left
      refine ⟨?_, ?_, ?_, ?_⟩
      · unfold countQ
        rw [hqe]
        exact hB.1
      · unfold countAU
        rw [hun, countAU_upd_tt hm hf p T hT hac0 hacp]
        exact hB.2.1
      · rw [hic]
        exact hB.2.2.1
      · intro x hx ht ha
        rw [hun] at hx
        rcases mem_updUnit hx with ⟨hx', _⟩ | ⟨y, hy, hyu, hxy⟩
        · exact hB.2.2.2 x hx' ht ha
        · rw [hxy]
          exact hprep
    · exfalso
      obtain ⟨bb, pg, tk, hw⟩ := hC.2.2.2.2 un hmem hT hac0
      rw [hw] at hpre0
      exact Bool.noConfusion hpre0
    · exact absurd hD.2.1 (by omega)
  · refine phiMain_transport ?_ ?_ ?_ ?_ hmain
    · unfold countQ
      rw [hqe]
    · unfold countAU
      rw [hun, countAU_upd_ne hm hf p T hT]
    · rw [hic]
    · intro x hx ht ha
      rw [hun] at hx
      rcases mem_updUnit hx with ⟨hx', _⟩ | ⟨y, hy, hyu, hxy⟩
      · exact ⟨x, hx', ht, ha, rfl⟩
      · exfalso
        have hyun : y = un :=
          uid_unique hm hy hmem (by rw [hyu, (findUnit_mem hf).2])
        rw [hxy] at ht
        dsimp only at ht
        rw [hyun] at ht
        exact hT ht

/-- Phase update of an inactive unit to another inactive phase. -/
theorem phi_updInactive (cfg : Cfg) (s s' : St) (u : Nat) (un : TUnit) (p : UPhase) (T N : Nat)
    (hm : MInv cfg s) (hphi : Phi s T N) (hf : findUnit s u = some un)
    (hac0 : activeU un.phase = false) (hacp : activeU p = false)
    (hun : s'.units = updUnit s.units u p)
    (hqe : s'.taskQueue = s.taskQueue) (hic : s'.invCnt = s.invCnt)
    (hsc : s'.stopCalls = s.stopCalls) (hbe : s'.behOf = s.behOf)
    (hlt : s'.lostTids = s.lostTids) :
    Phi s' T N := by
  intro h0 hbeh hlost
  rw [hsc] at h0
  rw [hbe] at hbeh
  rw [hlt] at hlost
  have hmain := hphi h0 hbeh hlost
  refine phiMain_transport ?_ ?_ ?_ ?_ hmain
  · unfold countQ
    rw [hqe]
  · unfold countAU
    rw [hun, countAU_upd_ii hm hf p T hac0 hacp]
  · rw [hic]
  · intro x hx ht ha
    rw [hun] at hx
    rcases mem_updUnit hx with ⟨hx', _⟩ | ⟨y, hy, hyu, hxy⟩
    · exact ⟨x, hx', ht, ha, rfl⟩
    · exfalso
      rw [hxy] at ha
      dsimp only at ha
      exact Bool.noConfusion (hacp ▸ ha)

/-- Removal of an inactive unit. -/
theorem phi_dropInactive (cfg : Cfg) (s s' : St) (u : Nat) (un : TUnit) (T N : Nat)
    (hm : MInv cfg s) (hphi : Phi s T N) (hf : findUnit s u = some un)
    (hac0 : activeU un.phase = false)
    (hun : s'.units = dropUnit s.units u)
    (hqe : s'.taskQueue = s.taskQueue) (hic : s'.invCnt = s.invCnt)
    (hsc : s'.stopCalls = s.stopCalls) (hbe : s'.behOf = s.behOf)
    (hlt : s'.lostTids = s.lostTids) :
    Phi s' T N := by
  intro h0 hbeh hlost
  rw [hsc] at h0
  rw [hbe] at hbeh
  rw [hlt] at hlost
  have hmain := hphi h0 hbeh hlost
  refine phiMain_transport ?_ ?_ ?_ ?_ hmain
  · unfold countQ
    rw [hqe]
  · unfold countAU
    rw [hun, countAU_drop_i hm hf T hac0]
  · rw [hic]
  · intro x hx ht ha
    rw [hun] at hx
    obtain ⟨hx', _⟩ := mem_dropUnit hx
    exact ⟨x, hx', ht, ha, rfl⟩

theorem phi_sLaunchNone (cfg : Cfg) (s : St) (u : Nat) (un : TUnit) (T N : Nat)
    (hm : MInv cfg s) (hphi : Phi s T N) (hf : findUnit s u = some un) :
    Phi { s with activeTasks := s.activeTasks - 1
                 units := dropUnit s.units u
                 lostTids := s.lostTids ++ [un.task.tid] } T N := by
  intro h0 hbeh hlost
  dsimp only at h0 hbeh hlost
  by_cases hT : un.task.tid = T
  · exact absurd (by simp [hT] : T ∈ s.lostTids ++ [un.task.tid]) hlost
  · have hlost0 : T ∉ s.lostTids := fun hc => hlost (List.mem_append_left _ hc)
    have hmain := hphi h0 hbeh hlost0
    refine phiMain_transport ?_ ?_ ?_ ?_ hmain
    · rfl
    · unfold countAU
      dsimp only
      rw [countAU_drop_ne hm hf T hT]
    · rfl
    · intro x hx ht ha
      obtain ⟨hx', _⟩ := mem_dropUnit hx
      exact ⟨x, hx', ht, ha, rfl⟩

theorem phi_sPagesRej (cfg : Cfg) (s : St) (u : Nat) (un : TUnit) (b : Browser) (T N : Nat)
    (hm : MInv cfg s) (hphi : Phi s T N) (hf : findUnit s u = some un) :
    Phi { s with lostTids := s.lostTids ++ [un.task.tid]
                 units := updUnit s.units u (.settledU b) } T N := by
  intro h0 hbeh hlost
  dsimp only at h0 hbeh hlost
  by_cases hT : un.task.tid = T
  · exact absurd (by simp [hT] : T ∈ s.lostTids ++ [un.task.tid]) hlost
  · have hlost0 : T ∉ s.lostTids := fun hc => hlost (List.mem_append_left _ hc)
    have hmain := hphi h0 hbeh hlost0
    refine phiMain_transport ?_ ?_ ?_ ?_ hmain
    · rfl
    · unfold countAU
      dsimp only
      rw [countAU_upd_ne hm hf (.settledU b) T hT]
    · rfl
    · intro x hx ht ha
      rcases mem_updUnit hx with ⟨hx', _⟩ | ⟨y, hy, hyu, hxy⟩
      · exact ⟨x, hx', ht, ha, rfl⟩
      · exfalso
        rw [hxy] at ha
        exact Bool.noConfusion ha

/-- The `catch` handler of the admitted IIFE preserves the per-task retry
invariant: a pre-invoke failure re-enqueues the task at the queue front. -/
theorem phi_catch (cfg : Cfg) (s : St) (u : Nat) (un : TUnit) (e : Nat) (T N : Nat)
    (hm : MInv cfg s) (hphi : Phi s T N) (hf : findUnit s u = some un)
    (hac0 : activeU un.phase = true) (hpre0 : preInvoke un.phase = true) :
    Phi (catchStep s un e) T N := by
  intro h0 hbeh hlost
  dsimp only [catchStep] at h0 hbeh hlost
  have hmem : un ∈ s.units := (findUnit_mem hf).1
  have huid : un.uid = u := (findUnit_mem hf).2
  have hmain := hphi h0 hbeh hlost
  by_cases hT : un.task.tid = T
  · have hrun : s.isRunning = true := by
      rcases hm.runningUnits h0 with hnil | h
      · rw [hnil] at hmem
        cases hmem
      · exact h
    have hpos : 0 < countAU s T :=
      List.countP_pos_iff.mpr ⟨un, hmem, by simp [hT, hac0]⟩
    rcases hmain with hA | hB | hC | hD
    · exact absurd hA.2.1 (by omega)
    · left
      unfold phiA countQ countAU
      dsimp only [catchStep]
      rw [if_pos hrun, countQ_cons_pos _ _ _ hT, huid]
      have hB1 := hB.1
      unfold countQ at hB1
      have hB2 := hB.2.1
      unfold countAU at hB2
      have hdrop := countAU_drop_t hm hf T hT hac0
      exact ⟨by omega, by omega, hB.2.2.1⟩
    · exfalso
      obtain ⟨bb, pg, tk, hw⟩ := hC.2.2.2.2 un hmem hT hac0
      rw [hw] at hpre0
      exact Bool.noConfusion hpre0
    · exact absurd hD.2.1 (by omega)
  · refine phiMain_transport ?_ ?_ ?_ ?_ hmain
    · unfold countQ
      dsimp only [catchStep]
      by_cases hr : s.isRunning = true
      · rw [if_pos hr, countQ_cons_neg _ _ _ hT]
      · rw [if_neg hr]
    · unfold countAU
      dsimp only [catchStep]
      rw [huid, countAU_drop_ne hm hf T hT]
    · rfl
    · intro x hx ht ha
      obtain ⟨hx', _⟩ := mem_dropUnit hx
      exact ⟨x, hx', ht, ha, rfl⟩

theorem phi_sPagesRes (cfg : Cfg) (s : St) (u : Nat) (un : TUnit) (b : Browser)
    (tok : Option String) (hasPage : Bool) (T N : Nat)
    (hm : MInv cfg s) (hphi : Phi s T N) (hf : findUnit s u = some un)
    (hph : un.phase = .aPages b tok) :
    Phi { s with nextSid := if hasPage then s.nextSid + 1 else s.nextSid
                 invCnt := fun t => if t = un.task.tid then s.invCnt un.task.tid + 1
                   else s.invCnt t
                 workCalls := s.workCalls ++
                   [{ tid := un.task.tid, params := un.task.params
                      page := if hasPage then some s.nextSid else none
                      tok := tok, idx := s.invCnt un.task.tid }]
                 units := updUnit s.units u
                   (.aWork b (if hasPage then some s.nextSid else none) tok
                     (s.invCnt un.task.tid)) } T N := by
  intro h0 hbeh hlost
  dsimp only at h0 hbeh hlost
  have hmem : un ∈ s.units := (findUnit_mem hf).1
  have hac0 : activeU un.phase = true := by rw [hph]; rfl
  have hmain := hphi h0 hbeh hlost
  by_cases hT : un.task.tid = T
  · have hpos : 0 < countAU s T :=
      List.countP_pos_iff.mpr ⟨un, hmem, by simp [hT, hac0]⟩
    rcases hmain with hA | hB | hC | hD
    · exact absurd hA.2.1 (by omega)
    · right; right; left
      unfold phiC countQ countAU
      dsimp only
      have hiT : (if T = un.task.tid then s.invCnt un.task.tid + 1 else s.invCnt T)
          = s.invCnt T + 1 := by
        rw [if_pos hT.symm, hT]
      rw [hiT, Nat.add_sub_cancel,
        countAU_upd_tt hm hf (.aWork b (if hasPage then some s.nextSid else none) tok
          (s.invCnt un.task.tid)) T hT hac0 rfl]
      have hB2 := hB.2.1
      unfold countAU at hB2
      have hB3 := hB.2.2.1
      refine ⟨hB.1, hB2, by omega, by omega, ?_⟩
      intro x hx ht ha
      rcases mem_updUnit hx with ⟨hx', hne⟩ | ⟨y, hy, hyu, hxy⟩
      · exfalso
        have hxun : x ≠ un := fun hc => hne (by rw [hc, (findUnit_mem hf).2])
        have h2 : 2 ≤ s.units.countP
            (fun v => decide (v.task.tid = T) && activeU v.phase) :=
          two_le_countP _ s.units x un hx' hmem hxun (by simp [ht, ha])
            (by simp [hT, hac0])
        omega
      · rw [hxy]
        dsimp only
        rw [hT]
        exact ⟨b, (if hasPage then some s.nextSid else none), tok, rfl⟩
    · exfalso
      obtain ⟨bb, pg, tk, hw⟩ := hC.2.2.2.2 un hmem hT hac0
      rw [hph] at hw
      exact UPhase.noConfusion hw
    · exact absurd hD.2.1 (by omega)
  · refine phiMain_transport ?_ ?_ ?_ ?_ hmain
    · rfl
    · unfold countAU
      dsimp only
      rw [countAU_upd_ne hm hf _ T hT]
    · show (if T = un.task.tid then s.invCnt un.task.tid + 1 else s.invCnt T) = s.invCnt T
      rw [if_neg (fun hc => hT hc.symm)]
    · intro x hx ht ha
      rcases mem_updUnit hx with ⟨hx', _⟩ | ⟨y, hy, hyu, hxy⟩
      · exact ⟨x, hx', ht, ha, rfl⟩
      · exfalso
        have hyun : y = un :=
          uid_unique hm hy hmem (by rw [hyu, (findUnit_mem hf).2])
        rw [hxy] at ht
        dsimp only at ht
        rw [hyun] at ht
        exact hT ht

theorem phi_sWorkDone (cfg : Cfg) (s : St) (u : Nat) (un : TUnit) (b : Browser)
    (pg : Option Nat) (tok : Option String) (idx : Nat) (T N : Nat)
    (hm : MInv cfg s) (hphi : Phi s T N) (hf : findUnit s u = some un)
    (hph : un.phase = .aWork b pg tok idx) (hb : un.task.beh idx = true) :
    Phi { s with pageCloseLog := s.pageCloseLog ++ pageCloseCalls pg
                 units := updUnit s.units u (afterWorkPhase b pg) } T N := by
  intro h0 hbeh hlost
  dsimp only at h0 hbeh hlost
  have hmem : un ∈ s.units := (findUnit_mem hf).1
  have hac0 : activeU un.phase = true := by rw [hph]; rfl
  have hmain := hphi h0 hbeh hlost
  by_cases hT : un.task.tid = T
  · have hpos : 0 < countAU s T :=
      List.countP_pos_iff.mpr ⟨un, hmem, by simp [hT, hac0]⟩
    rcases hmain with hA | hB | hC | hD
    · exact absurd hA.2.1 (by omega)
    · exfalso
      have hpre := hB.2.2.2 un hmem hT hac0
      rw [hph] at hpre
      exact Bool.noConfusion hpre
    · right; right; right
      unfold phiD countQ countAU
      dsimp only
      obtain ⟨bb, pgg, tk, hw⟩ := hC.2.2.2.2 un hmem hT hac0
      rw [hph] at hw
      injection hw with e1 e2 e3 e4
      have hbu := hm.behU un hmem
      rw [hT, hbeh] at hbu
      have hbe : un.task.beh = behN N := (Option.some.inj hbu).symm
      rw [hbe] at hb
      have hNle : N ≤ idx := by simpa [behN] using hb
      have hC2 := hC.2.1
      unfold countAU at hC2
      have hC3 := hC.2.2.1
      have hC4 := hC.2.2.2.1
      have hC1 := hC.1
      unfold countQ at hC1
      rw [← countAU_upd_tf hm hf (afterWorkPhase b pg) T hT hac0
        (activeU_afterWork b pg)] at hC2
      exact ⟨hC1, by omega, by omega⟩
    · exact absurd hD.2.1 (by omega)
  · refine phiMain_transport ?_ ?_ ?_ ?_ hmain
    · rfl
    · unfold countAU
      dsimp only
      rw [countAU_upd_ne hm hf _ T hT]
    · rfl
    · intro x hx ht ha
      rcases mem_updUnit hx with ⟨hx', _⟩ | ⟨y, hy, hyu, hxy⟩
      · exact ⟨x, hx', ht, ha, rfl⟩
      · exfalso
        rw [hxy] at ha
        dsimp only at ha
        exact Bool.noConfusion ((activeU_afterWork b pg) ▸ ha)

theorem phi_sWorkFail (cfg : Cfg) (s : St) (u : Nat) (un : TUnit) (b : Browser)
    (pg : Option Nat) (tok : Option String) (idx : Nat) (e : Nat) (T N : Nat)
    (hm : MInv cfg s) (hphi : Phi s T N) (hf : findUnit s u = some un)
    (hph : un.phase = .aWork b pg tok idx) (hb : un.task.beh idx = false) :
    Phi { s with failLog := s.failLog ++ [un.task.tid]
                 taskQueue := if s.isRunning then un.task :: s.taskQueue else s.taskQueue
                 callbacks := s.callbacks ++ [(e, some un.task.params)]
                 pageCloseLog := s.pageCloseLog ++ pageCloseCalls pg
                 units := updUnit s.units u (afterWorkPhase b pg) } T N := by
  intro h0 hbeh hlost
  dsimp only at h0 hbeh hlost
  have hmem : un ∈ s.units := (findUnit_mem hf).1
  have hac0 : activeU un.phase = true := by rw [hph]; rfl
  have hmain := hphi h0 hbeh hlost
  by_cases hT : un.task.tid = T
  · have hrun : s.isRunning = true := by
      rcases hm.runningUnits h0 with hnil | h
      · rw [hnil] at hmem
        cases hmem
      · exact h
    have hpos : 0 < countAU s T :=
      List.countP_pos_iff.mpr ⟨un, hmem, by simp [hT, hac0]⟩
    rcases hmain with hA | hB | hC | hD
    · exact absurd hA.2.1 (by omega)
    · exfalso
      have hpre := hB.2.2.2 un hmem hT hac0
      rw [hph] at hpre
      exact Bool.noConfusion hpre
    · left
      unfold phiA countQ countAU
      dsimp only
      obtain ⟨bb, pgg, tk, hw⟩ := hC.2.2.2.2 un hmem hT hac0
      rw [hph] at hw
      injection hw with e1 e2 e3 e4
      have hbu := hm.behU un hmem
      rw [hT, hbeh] at hbu
      have hbe : un.task.beh = behN N := (Option.some.inj hbu).symm
      rw [hbe] at hb
      have hNgt : ¬ N ≤ idx := by simpa [behN] using hb
      have hC1 := hC.1
      unfold countQ at hC1
      have hC2 := hC.2.1
      unfold countAU at hC2
      have hC3 := hC.2.2.1
      have hC4 := hC.2.2.2.1
      rw [← countAU_upd_tf hm hf (afterWorkPhase b pg) T hT hac0
        (activeU_afterWork b pg)] at hC2
      rw [if_pos hrun, countQ_cons_pos _ _ _ hT]
      exact ⟨by omega, by omega, by omega⟩
    · exact absurd hD.2.1 (by omega)
  · refine phiMain_transport ?_ ?_ ?_ ?_ hmain
    · unfold countQ
      dsimp only
      by_cases hr : s.isRunning = true
      · rw [if_pos hr, countQ_cons_neg _ _ _ hT]
      · rw [if_neg hr]
    · unfold countAU
      dsimp only
      rw [countAU_upd_ne hm hf _ T hT]
    · rfl
    · intro x hx ht ha
      rcases mem_updUnit hx with ⟨hx', _⟩ | ⟨y, hy, hyu, hxy⟩
      · exact ⟨x, hx', ht, ha, rfl⟩
      · exfalso
        rw [hxy] at ha
        dsimp only at ha
        exact Bool.noConfusion ((activeU_afterWork b pg) ▸ ha)

/-- Every transition preserves the per-task retry invariant. -/
theorem phi_step (cfg : Cfg) (s : St) (e : Ev) (s' : St) (T N : Nat)
    (hm : MInv cfg s) (hphi : Phi s T N)
    (hap : applyEvent cfg s e = some s') : Phi s' T N := by
  cases applyEvent_shape cfg s e s' hap with
  | sStart => exact hphi
  | sAddTask beh params => exact phi_sAddTask cfg s beh params T N hm hphi
  | sWake w wk iter hf hph => exact hphi
  | sLoopExit w wk iter hf hph hrun => exact hphi
  | sLoopAdmit w wk iter t rest hf hph hrun hq hcap =>
    exact phi_sLoopAdmit cfg s wk.wid t rest T N hm hphi hq
  | sLoopDetect w wk iter hf hph hrun hnoadm hdet => exact hphi
  | sLoopSleep w wk iter hf hph hrun hnoadm hdet => exact hphi
  | sDrain w wk err hf hph => exact hphi
  | sProxyOk u un f tok hf hph hpr hok =>
    exact phi_updPre cfg s _ u un (.aLaunch (some tok)) T N hm hphi hf
      (by rw [hph]; rfl) (by rw [hph]; rfl) rfl rfl rfl rfl rfl rfl rfl rfl
  | sProxyErr u un f er hf hph hpr herr =>
    exact phi_catch cfg s u un er T N hm hphi hf (by rw [hph]; rfl) (by rw [hph]; rfl)
  | sLaunchNone u un tok out hf hph hhl => exact phi_sLaunchNone cfg s u un T N hm hphi hf
  | sLaunchOk u un tok hf hph hhl =>
    exact phi_updPre cfg s _ u un (.aPages s.nextBid tok) T N hm hphi hf
      (by rw [hph]; rfl) (by rw [hph]; rfl) rfl rfl rfl rfl rfl rfl rfl rfl
  | sLaunchRej u un tok er hf hph hhl =>
    exact phi_catch cfg s u un er T N hm hphi hf (by rw [hph]; rfl) (by rw [hph]; rfl)
  | sPagesRej u un b tok hf hph => exact phi_sPagesRej cfg s u un b T N hm hphi hf
  | sPagesRes u un b tok hasPage hf hph =>
    exact phi_sPagesRes cfg s u un b tok hasPage T N hm hphi hf hph
  | sWorkDone u un b pg tok idx er hf hph hb =>
    exact phi_sWorkDone cfg s u un b pg tok idx T N hm hphi hf hph hb
  | sWorkFail u un b pg tok idx er hf hph hb =>
    exact phi_sWorkFail cfg s u un b pg tok idx er T N hm hphi hf hph hb
  | sPageCloseOk u un b hf hph =>
    exact phi_updInactive cfg s _ u un (.cBrowser b) T N hm hphi hf
      (by rw [hph]; rfl) rfl rfl rfl rfl rfl rfl rfl
  | sPageCloseErr u un b hf hph =>
    exact phi_updInactive cfg s _ u un (.settledU b) T N hm hphi hf
      (by rw [hph]; rfl) rfl rfl rfl rfl rfl rfl rfl
  | sBrowserClose u un b ok hf hph =>
    exact phi_updInactive cfg s _ u un (.settledU b) T N hm hphi hf
      (by rw [hph]; rfl) rfl rfl rfl rfl rfl rfl rfl
  | sFinallyIn u un b hf hph hb =>
    exact phi_dropInactive cfg s _ u un T N hm hphi hf (by rw [hph]; rfl)
      rfl rfl rfl rfl rfl rfl
  | sFinallyOut u un b hf hph hb =>
    exact phi_dropInactive cfg s _ u un T N hm hphi hf (by rw [hph]; rfl)
      rfl rfl rfl rfl rfl rfl
  | sStopEmpty hb =>
    intro h0 _ _
    dsimp only at h0
    exact absurd h0 (by omega)
  | sStopNonempty b rest hb =>
    intro h0 _ _
    dsimp only at h0
    exact absurd h0 (by omega)
  | sStopAdv k st ok hfs hlt =>
    intro h0 _ _
    dsimp only at h0
    rw [hm.stopsEmpty h0] at hfs
    exact Option.noConfusion hfs
  | sStopFin k st ok hfs hge =>
    intro h0 _ _
    dsimp only at h0
    rw [hm.stopsEmpty h0] at hfs
    exact Option.noConfusion hfs

theorem ginv_step (cfg : Cfg) (s : St) (e : Ev) (s' : St)
    (hs : GInv cfg s) (hap : applyEvent cfg s e = some s') : GInv cfg s' :=
  ⟨minv_step cfg s e s' hs.1 hap,
   fun T N => phi_step cfg s e s' T N hs.1 (hs.2 T N) hap⟩

theorem ginv_init (cfg : Cfg) : GInv cfg initSt :=
  ⟨minv_init cfg, fun T N => phi_init T N⟩

/-- Every reachable state satisfies the global invariant. -/
theorem ginv_run (cfg : Cfg) (evts : List Ev) (s : St)
    (h : runEvents cfg evts = some s) : GInv cfg s :=
  runFrom_inv (ginv_step cfg) evts initSt s (ginv_init cfg) h

/-! ### The browser-registration invariant -/

theorem mem_updUnit_of_ne {us : List TUnit} {v : TUnit} (hv : v ∈ us) (u : Nat) (p : UPhase)
    (hne : v.uid ≠ u) : v ∈ updUnit us u p := by
  unfold updUnit
  refine List.mem_map.mpr ⟨v, hv, ?_⟩
  simp [hne]

theorem mem_updUnit_self {us : List TUnit} {v : TUnit} (hv : v ∈ us) (u : Nat) (p : UPhase)
    (he : v.uid = u) : { v with phase := p } ∈ updUnit us u p := by
  unfold updUnit
  refine List.mem_map.mpr ⟨v, hv, ?_⟩
  simp [he]

theorem mem_dropUnit_of_ne {us : List TUnit} {v : TUnit} (hv : v ∈ us) (u : Nat)
    (hne : v.uid ≠ u) : v ∈ dropUnit us u := by
  unfold dropUnit
  exact List.mem_filter.mpr ⟨hv, by simpa using hne⟩

/-- A phase update whose new phase keeps the unit's browser preserves the
browser-registration invariant. -/
theorem brow_upd (cfg : Cfg) (s : St) (u : Nat) (un : TUnit) (p : UPhase)
    (hm : MInv cfg s) (hb : BrowOk s) (hf : findUnit s u = some un)
    (hkeep : ∀ bb, browserOf un.phase = some bb → browserOf p = some bb) :
    s.stopCalls = 0 → ∀ b ∈ s.activeBrowsers,
      ∃ x ∈ updUnit s.units u p, browserOf x.phase = some b := by
  intro h0 b hbm
  obtain ⟨v, hv, hbv⟩ := hb h0 b hbm
  by_cases hvu : v.uid = u
  · have hvun : v = un := uid_unique hm hv (findUnit_mem hf).1
      (by rw [hvu, (findUnit_mem hf).2])
    refine ⟨{ un with phase := p },
      mem_updUnit_self (findUnit_mem hf).1 u p (findUnit_mem hf).2, ?_⟩
    exact hkeep b (hvun ▸ hbv)
  · exact ⟨v, mem_updUnit_of_ne hv u p hvu, hbv⟩

/-- The catch handler removes a unit that carries no browser, preserving the
browser-registration invariant. -/
theorem brow_catch (cfg : Cfg) (s : St) (u : Nat) (un : TUnit) (e : Nat)
    (hm : MInv cfg s) (hb : BrowOk s) (hf : findUnit s u = some un)
    (hnob : browserOf un.phase = none) :
    BrowOk (catchStep s un e) := by
  intro h0 b hbm
  dsimp only [catchStep] at h0 hbm ⊢
  obtain ⟨v, hv, hbv⟩ := hb h0 b hbm
  have hvne : v.uid ≠ un.uid := by
    intro hvu
    have hvun : v = un := uid_unique hm hv (findUnit_mem hf).1 hvu
    rw [hvun, hnob] at hbv
    exact Option.noConfusion hbv
  exact ⟨v, mem_dropUnit_of_ne hv un.uid hvne, hbv⟩

/-- Every transition preserves the browser-registration invariant. -/
theorem brow_step (cfg : Cfg) (s : St) (e : Ev) (s' : St)
    (hm : MInv cfg s) (hb : BrowOk s) (hap : applyEvent cfg s e = some s') :
    BrowOk s' := by
  cases applyEvent_shape cfg s e s' hap with
  | sStart => exact hb
  | sAddTask beh params => exact hb
  | sWake w wk iter hf hph => exact hb
  | sLoopExit w wk iter hf hph hrun => exact hb
  | sLoopAdmit w wk iter t rest hf hph hrun hq hcap =>
    intro h0 b hbm
    dsimp only at h0 hbm
    obtain ⟨v, hv, hbv⟩ := hb h0 b hbm
    exact ⟨v, List.mem_append_left _ hv, hbv⟩
  | sLoopDetect w wk iter hf hph hrun hnoadm hdet => exact hb
  | sLoopSleep w wk iter hf hph hrun hnoadm hdet => exact hb
  | sDrain w wk err hf hph => exact hb
  | sProxyOk u un f tok hf hph hpr hok =>
    exact brow_upd cfg s u un _ hm hb hf
      (by rw [hph]; intro bb hc; exact Option.noConfusion hc)
  | sProxyErr u un f er hf hph hpr herr =>
    exact brow_catch cfg s u un er hm hb hf (by rw [hph]; rfl)
  | sLaunchNone u un tok out hf hph hhl =>
    intro h0 b hbm
    dsimp only at h0 hbm
    obtain ⟨v, hv, hbv⟩ := hb h0 b hbm
    have hvne : v.uid ≠ u := by
      intro hvu
      have hvun : v = un := uid_unique hm hv (findUnit_mem hf).1
        (by rw [hvu, (findUnit_mem hf).2])
      rw [hvun, hph] at hbv
      exact Option.noConfusion hbv
    exact ⟨v, mem_dropUnit_of_ne hv u hvne, hbv⟩
  | sLaunchOk u un tok hf hph hhl =>
    intro h0 b hbm
    dsimp only at h0 hbm
    rcases List.mem_append.mp hbm with hbm' | hbm'
    · obtain ⟨v, hv, hbv⟩ := hb h0 b hbm'
      have hvne : v.uid ≠ u := by
        intro hvu
        have hvun : v = un := uid_unique hm hv (findUnit_mem hf).1
          (by rw [hvu, (findUnit_mem hf).2])
        rw [hvun, hph] at hbv
        exact Option.noConfusion hbv
      exact ⟨v, mem_updUnit_of_ne hv u _ hvne, hbv⟩
    · have hbb : b = s.nextBid := by simpa using hbm'
      refine ⟨{ un with phase := .aPages s.nextBid tok },
        mem_updUnit_self (findUnit_mem hf).1 u _ (findUnit_mem hf).2, ?_⟩
      rw [hbb]
      rfl
  | sLaunchRej u un tok er hf hph hhl =>
    exact brow_catch cfg s u un er hm hb hf (by rw [hph]; rfl)
  | sPagesRej u un b tok hf hph =>
    intro h0 bb hbm
    dsimp only at h0 hbm
    exact brow_upd cfg s u un (.settledU b) hm hb hf
      (by rw [hph]; intro b2 hc; rw [← Option.some.inj hc]; rfl) h0 bb hbm
  | sPagesRes u un b tok hasPage hf hph =>
    exact brow_upd cfg s u un _ hm hb hf
      (by rw [hph]; intro b2 hc; rw [← Option.some.inj hc]; rfl)
  | sWorkDone u un b pg tok idx er hf hph hbeh =>
    exact brow_upd cfg s u un _ hm hb hf
      (by rw [hph]; intro b2 hc; rw [browserOf_afterWork, Option.some.inj hc])
  | sWorkFail u un b pg tok idx er hf hph hbeh =>
    exact brow_upd cfg s u un _ hm hb hf
      (by rw [hph]; intro b2 hc; rw [browserOf_afterWork, Option.some.inj hc])
  | sPageCloseOk u un b hf hph =>
    exact brow_upd cfg s u un _ hm hb hf
      (by rw [hph]; intro b2 hc; rw [← Option.some.inj hc]; rfl)
  | sPageCloseErr u un b hf hph =>
    exact brow_upd cfg s u un _ hm hb hf
      (by rw [hph]; intro b2 hc; rw [← Option.some.inj hc]; rfl)
  | sBrowserClose u un b ok hf hph =>
    exact brow_upd cfg s u un _ hm hb hf
      (by rw [hph]; intro b2 hc; rw [← Option.some.inj hc]; rfl)
  | sFinallyIn u un b0 hf hph hbin =>
    intro h0 bb hbm
    dsimp only at h0 hbm
    have hbne : bb ≠ b0 := ((List.Nodup.mem_erase_iff hm.abNodup).mp hbm).1
    have hsub : bb ∈ s.activeBrowsers := List.mem_of_mem_erase hbm
    obtain ⟨v, hv, hbv⟩ := hb h0 bb hsub
    have hvne : v.uid ≠ u := by
      intro hvu
      have hvun : v = un := uid_unique hm hv (findUnit_mem hf).1
        (by rw [hvu, (findUnit_mem hf).2])
      rw [hvun, hph] at hbv
      exact hbne (Option.some.inj hbv).symm
    exact ⟨v, mem_dropUnit_of_ne hv u hvne, hbv⟩
  | sFinallyOut u un b0 hf hph hnin =>
    intro h0 bb hbm
    dsimp only at h0 hbm
    obtain ⟨v, hv, hbv⟩ := hb h0 bb hbm
    have hvne : v.uid ≠ u := by
      intro hvu
      have hvun : v = un := uid_unique hm hv (findUnit_mem hf).1
        (by rw [hvu, (findUnit_mem hf).2])
      rw [hvun, hph] at hbv
      rw [← Option.some.inj hbv] at hbm
      exact hnin hbm
    exact ⟨v, mem_dropUnit_of_ne hv u hvne, hbv⟩
  | sStopEmpty hbs =>
    intro h0
    dsimp only at h0
    exact absurd h0 (by omega)
  | sStopNonempty b rest hbs =>
    intro h0
    dsimp only at h0
    exact absurd h0 (by omega)
  | sStopAdv k st ok hfs hlt =>
    intro h0
    dsimp only at h0
    rw [hm.stopsEmpty h0] at hfs
    exact Option.noConfusion hfs
  | sStopFin k st ok hfs hge =>
    intro h0 b hbm
    dsimp only at hbm
    exact absurd hbm (List.not_mem_nil b)

theorem brow_init : BrowOk initSt := by
  intro _ b hbm
  exact absurd hbm (by simp [initSt])

theorem mbinv_step (cfg : Cfg) (s : St) (e : Ev) (s' : St)
    (hs : MInv cfg s ∧ BrowOk s) (hap : applyEvent cfg s e = some s') :
    MInv cfg s' ∧ BrowOk s' :=
  ⟨minv_step cfg s e s' hs.1 hap, brow_step cfg s e s' hs.1 hs.2 hap⟩

/-- Every reachable state satisfies the browser-registration invariant. -/
theorem brow_run (cfg : Cfg) (evts : List Ev) (s : St)
    (h : runEvents cfg evts = some s) : BrowOk s :=
  (runFrom_inv (mbinv_step cfg) evts initSt s ⟨minv_init cfg, brow_init⟩ h).2

/-! ### Draining a stopped cluster (for C6/C10) -/

/-- A non-public event can neither restart the loop nor refill a cleared
queue. -/
theorem c6_drain_step (cfg : Cfg) (s : St) (e : Ev) (s' : St)
    (hpub : isPublicEv e = false)
    (hrun : s.isRunning = false) (hq : s.taskQueue = [])
    (hap : applyEvent cfg s e = some s') :
    s'.isRunning = false ∧ s'.taskQueue = [] := by
  cases applyEvent_shape cfg s e s' hap with
  | sStart => exact absurd hpub (by simp [isPublicEv])
  | sAddTask beh params => exact absurd hpub (by simp [isPublicEv])
  | sWake w wk iter hf hph => exact ⟨hrun, hq⟩
  | sLoopExit w wk iter hf hph hr => exact ⟨hrun, hq⟩
  | sLoopAdmit w wk iter t rest hf hph hr hq2 hcap => exact Bool.noConfusion (hrun ▸ hr)
  | sLoopDetect w wk iter hf hph hr hnoadm hdet => exact Bool.noConfusion (hrun ▸ hr)
  | sLoopSleep w wk iter hf hph hr hnoadm hdet => exact Bool.noConfusion (hrun ▸ hr)
  | sDrain w wk err hf hph => exact ⟨hrun, hq⟩
  | sProxyOk u un f tok hf hph hpr hok => exact ⟨hrun, hq⟩
  | sProxyErr u un f er hf hph hpr herr =>
    refine ⟨hrun, ?_⟩
    show (if s.isRunning = true then un.task :: s.taskQueue else s.taskQueue) = []
    rw [hrun, if_neg Bool.false_ne_true]
    exact hq
  | sLaunchNone u un tok out hf hph hhl => exact ⟨hrun, hq⟩
  | sLaunchOk u un tok hf hph hhl => exact ⟨hrun, hq⟩
  | sLaunchRej u un tok er hf hph hhl =>
    refine ⟨hrun, ?_⟩
    show (if s.isRunning = true then un.task :: s.taskQueue else s.taskQueue) = []
    rw [hrun, if_neg Bool.false_ne_true]
    exact hq
  | sPagesRej u un b tok hf hph => exact ⟨hrun, hq⟩
  | sPagesRes u un b tok hasPage hf hph => exact ⟨hrun, hq⟩
  | sWorkDone u un b pg tok idx er hf hph hbeh => exact ⟨hrun, hq⟩
  | sWorkFail u un b pg tok idx er hf hph hbeh =>
    refine ⟨hrun, ?_⟩
    show (if s.isRunning = true then un.task :: s.taskQueue else s.taskQueue) = []
    rw [hrun, if_neg Bool.false_ne_true]
    exact hq
  | sPageCloseOk u un b hf hph => exact ⟨hrun, hq⟩
  | sPageCloseErr u un b hf hph => exact ⟨hrun, hq⟩
  | sBrowserClose u un b ok hf hph => exact ⟨hrun, hq⟩
  | sFinallyIn u un b hf hph hbin => exact ⟨hrun, hq⟩
  | sFinallyOut u un b hf hph hnin => exact ⟨hrun, hq⟩
  | sStopEmpty hbs => exact absurd hpub (by simp [isPublicEv])
  | sStopNonempty b rest hbs => exact absurd hpub (by simp [isPublicEv])
  | sStopAdv k st ok hfs hlt => exact ⟨hrun, hq⟩
  | sStopFin k st ok hfs hge => exact ⟨hrun, hq⟩

/-- A stopped cluster with a cleared queue stays that way under any sequence
of non-public events. -/
theorem c6_drain (cfg : Cfg) :
    ∀ (evts : List Ev) (s s' : St), (∀ e ∈ evts, isPublicEv e = false) →
      s.isRunning = false → s.taskQueue = [] →
      runFrom cfg s evts = some s' →
      s'.isRunning = false ∧ s'.taskQueue = [] := by
  intro evts
  induction evts with
  | nil =>
    intro s s' _ hr hq hrn
    rw [runFrom_nil] at hrn
    cases hrn
    exact ⟨hr, hq⟩
  | cons e es ih =>
    intro s s' hpub hr hq hrn
    rw [runFrom_cons] at hrn
    cases hap : applyEvent cfg s e with
    | none =>
      rw [hap] at hrn
      exact absurd hrn (by simp)
    | some s1 =>
      rw [hap] at hrn
      obtain ⟨hr1, hq1⟩ := c6_drain_step cfg s e s1 (hpub e (by simp)) hr hq hap
      exact ih s1 s' (fun x hx => hpub x (by simp [hx])) hr1 hq1 hrn

/-! ### The frozen admission log of a stopped cluster (for C10) -/

/-- With no `start`, a stopped cluster admits nothing: the admission log is
frozen, unit tids stay below the old `nextTid`, and no invocation count at
or above it ever moves. -/
theorem c10_frozen_step (cfg : Cfg) (s0 : St) (s : St) (e : Ev) (s' : St)
    (hstart : isStartEv e = false)
    (hr : s.isRunning = false) (hl : s.admitLog = s0.admitLog)
    (hu : ∀ u ∈ s.units, u.task.tid < s0.nextTid)
    (hi : ∀ t, s0.nextTid ≤ t → s.invCnt t = 0)
    (hap : applyEvent cfg s e = some s') :
    s'.isRunning = false ∧ s'.admitLog = s0.admitLog ∧
      (∀ u ∈ s'.units, u.task.tid < s0.nextTid) ∧
      (∀ t, s0.nextTid ≤ t → s'.invCnt t = 0) := by
  cases applyEvent_shape cfg s e s' hap with
  | sStart => exact absurd hstart (by simp [isStartEv])
  | sAddTask beh params => exact ⟨hr, hl, hu, hi⟩
  | sWake w wk iter hf hph => exact ⟨hr, hl, hu, hi⟩
  | sLoopExit w wk iter hf hph hr2 => exact ⟨hr, hl, hu, hi⟩
  | sLoopAdmit w wk iter t rest hf hph hr2 hq hcap => exact Bool.noConfusion (hr ▸ hr2)
  | sLoopDetect w wk iter hf hph hr2 hnoadm hdet => exact Bool.noConfusion (hr ▸ hr2)
  | sLoopSleep w wk iter hf hph hr2 hnoadm hdet => exact Bool.noConfusion (hr ▸ hr2)
  | sDrain w wk err hf hph => exact ⟨hr, hl, hu, hi⟩
  | sProxyOk u un f tok hf hph hpr hok =>
    refine ⟨hr, hl, ?_, hi⟩
    intro x hx
    rcases mem_updUnit hx with ⟨hx', _⟩ | ⟨y, hy, hyu, hxy⟩
    · exact hu x hx'
    · rw [hxy]
      exact hu y hy
  | sProxyErr u un f er hf hph hpr herr =>
    refine ⟨hr, hl, ?_, hi⟩
    intro x hx
    exact hu x (mem_dropUnit hx).1
  | sLaunchNone u un tok out hf hph hhl =>
    refine ⟨hr, hl, ?_, hi⟩
    intro x hx
    exact hu x (mem_dropUnit hx).1
  | sLaunchOk u un tok hf hph hhl =>
    refine ⟨hr, hl, ?_, hi⟩
    intro x hx
    rcases mem_updUnit hx with ⟨hx', _⟩ | ⟨y, hy, hyu, hxy⟩
    · exact hu x hx'
    · rw [hxy]
      exact hu y hy
  | sLaunchRej u un tok er hf hph hhl =>
    refine ⟨hr, hl, ?_, hi⟩
    intro x hx
    exact hu x (mem_dropUnit hx).1
  | sPagesRej u un b tok hf hph =>
    refine ⟨hr, hl, ?_, hi⟩
    intro x hx
    rcases mem_updUnit hx with ⟨hx', _⟩ | ⟨y, hy, hyu, hxy⟩
    · exact hu x hx'
    · rw [hxy]
      exact hu y hy
  | sPagesRes u un b tok hasPage hf hph =>
    refine ⟨hr, hl, ?_, ?_⟩
    · intro x hx
      rcases mem_updUnit hx with ⟨hx', _⟩ | ⟨y, hy, hyu, hxy⟩
      · exact hu x hx'
      · rw [hxy]
        exact hu y hy
    · intro t ht
      show (if t = un.task.tid then s.invCnt un.task.tid + 1 else s.invCnt t) = 0
      have hne : t ≠ un.task.tid := by
        have := hu un (findUnit_mem hf).1
        omega
      rw [if_neg hne]
      exact hi t ht
  | sWorkDone u un b pg tok idx er hf hph hbeh =>
    refine ⟨hr, hl, ?_, hi⟩
    intro x hx
    rcases mem_updUnit hx with ⟨hx', _⟩ | ⟨y, hy, hyu, hxy⟩
    · exact hu x hx'
    · rw [hxy]
      exact hu y hy
  | sWorkFail u un b pg tok idx er hf hph hbeh =>
    refine ⟨hr, hl, ?_, hi⟩
    intro x hx
    rcases mem_updUnit hx with ⟨hx', _⟩ | ⟨y, hy, hyu, hxy⟩
    · exact hu x hx'
    · rw [hxy]
      exact hu y hy
  | sPageCloseOk u un b hf hph =>
    refine ⟨hr, hl, ?_, hi⟩
    intro x hx
    rcases mem_updUnit hx with ⟨hx', _⟩ | ⟨y, hy, hyu, hxy⟩
    · exact hu x hx'
    · rw [hxy]
      exact hu y hy
  | sPageCloseErr u un b hf hph =>
    refine ⟨hr, hl, ?_, hi⟩
    intro x hx
    rcases mem_updUnit hx with ⟨hx', _⟩ | ⟨y, hy, hyu, hxy⟩
    · exact hu x hx'
    · rw [hxy]
      exact hu y hy
  | sBrowserClose u un b ok hf hph =>
    refine ⟨hr, hl, ?_, hi⟩
    intro x hx
    rcases mem_updUnit hx with ⟨hx', _⟩ | ⟨y, hy, hyu, hxy⟩
    · exact hu x hx'
    · rw [hxy]
      exact hu y hy
  | sFinallyIn u un b hf hph hbin =>
    refine ⟨hr, hl, ?_, hi⟩
    intro x hx
    exact hu x (mem_dropUnit hx).1
  | sFinallyOut u un b hf hph hnin =>
    refine ⟨hr, hl, ?_, hi⟩
    intro x hx
    exact hu x (mem_dropUnit hx).1
  | sStopEmpty hbs => exact ⟨rfl, hl, hu, hi⟩
  | sStopNonempty b rest hbs => exact ⟨rfl, hl, hu, hi⟩
  | sStopAdv k st ok hfs hlt => exact ⟨hr, hl, hu, hi⟩
  | sStopFin k st ok hfs hge => exact ⟨hr, hl, hu, hi⟩

/-- Iterated version of `c10_frozen_step` along a start-free run. -/
theorem c10_frozen (cfg : Cfg) (s0 : St) :
    ∀ (evts : List Ev) (s s' : St), (∀ e ∈ evts, isStartEv e = false) →
      s.isRunning = false → s.admitLog = s0.admitLog →
      (∀ u ∈ s.units, u.task.tid < s0.nextTid) →
      (∀ t, s0.nextTid ≤ t → s.invCnt t = 0) →
      runFrom cfg s evts = some s' →
      s'.admitLog = s0.admitLog ∧ (∀ t, s0.nextTid ≤ t → s'.invCnt t = 0) := by
  intro evts
  induction evts with
  | nil =>
    intro s s' _ hr hl hu hi hrn
    rw [runFrom_nil] at hrn
    cases hrn
    exact ⟨hl, hi⟩
  | cons e es ih =>
    intro s s' hstart hr hl hu hi hrn
    rw [runFrom_cons] at hrn
    cases hap : applyEvent cfg s e with
    | none =>
      rw [hap] at hrn
      exact absurd hrn (by simp)
    | some s1 =>
      rw [hap] at hrn
      obtain ⟨hr1, hl1, hu1, hi1⟩ :=
        c10_frozen_step cfg s0 s e s1 (hstart e (by simp)) hr hl hu hi hap
      exact ih s1 s' (fun x hx => hstart x (by simp [hx])) hr1 hl1 hu1 hi1 hrn

/-! ### Counterexamples -/

/-- C3 counterexample: `activeTasks` can become negative — `stop()` zeroes
the counter while an admission is suspended at `await createWorker`; when
that launch later rejects, the catch handler decrements the counter
unguarded, reaching `-1`.  And the active-context bound can be exceeded —
an admission suspended across a `stop()`/`start()` cycle registers its
browser beside the next cycle's, giving 2 browsers with `maxWorkers = 1`. -/
theorem c3_counterexample :
    (¬ (∀ (cfg : Cfg) (evts : List Ev) (s : St),
        runEvents cfg evts = some s → 0 ≤ s.activeTasks)) ∧
    (¬ (∀ (cfg : Cfg) (evts : List Ev) (s : St),
        runEvents cfg evts = some s →
        s.activeBrowsers.length ≤ cfg.maxWorkers)) := by
  constructor
  · intro h
    have := h cfgBase evtsNeg ((runEvents cfgBase evtsNeg).getD default) rfl
    exact absurd this (by decide)
  · intro h
    have := h cfgBase evtsOverflow ((runEvents cfgBase evtsOverflow).getD default) rfl
    exact absurd this (by decide)

/-- C2 counterexample: the idle promise resolves after `stop()` even though
the consecutive empty-poll count (recorded in the resolution snapshot) has
not reached `iterationsBeforeStop`: the loop exit unconditionally calls
`resolveTasksCompleted()`. -/
theorem c2_counterexample :
    ¬ (∀ (cfg : Cfg) (evts : List Ev) (s : St),
        runEvents cfg evts = some s → s.tasksCompleted = true →
        ∀ p, s.resolveSnap = some p → cfg.iterationsBeforeStop ≤ p.iter) := by
  intro h
  have := h cfgThresh evtsStopResolve
    ((runEvents cfgThresh evtsStopResolve).getD default) rfl (by decide)
    { qLen := 0, act := 0, brs := 0, iter := 1 } (by decide)
  exact absurd this (by decide)

/-- C1 counterexample: a context acquired for a task that found no usable
surface is never closed, even after the runner's promise has settled and the
`.finally` callback has run (`page.close()` on the missing page throws,
skipping `browser.close()`). -/
theorem c1_counterexample :
    ¬ (∀ (cfg : Cfg) (evts : List Ev) (s : St),
        runEvents cfg evts = some s → s.units.length = 0 →
        ∀ b, b < s.nextBid → s.closeLog.count b = 1) := by
  intro h
  have := h cfgBase evtsNoPageFail
    ((runEvents cfgBase evtsNoPageFail).getD default) rfl (by decide) 0 (by decide)
  exact absurd this (by decide)

/-- C7 counterexample: when `browser.pages()` yields no page, the code does
not apply the standard failure handling — the task is run anyway with an
absent page, and if that invocation succeeds no error callback is ever
invoked. -/
theorem c7_counterexample :
    ¬ (∀ (cfg : Cfg) (evts : List Ev) (s : St),
        runEvents cfg evts = some s → s.units.length = 0 → s.stopCalls = 0 →
        (∃ w ∈ s.workCalls, w.page = none) → 1 ≤ s.callbacks.length) := by
  intro h
  have := h cfgBase evtsNoPageOk
    ((runEvents cfgBase evtsNoPageOk).getD default) rfl (by decide) (by decide)
    ⟨{ tid := 0, params := 0, page := none, tok := none, idx := 0 }, by decide, rfl⟩
  exact absurd this (by decide)

/-- C6 counterexample: the `stop()` postconditions do not persist — an
admission that was suspended at `await createWorker` when `stop()` completed
registers its browser afterwards, so the active-context collection becomes
non-empty again with no new `start()` and no pending stop. -/
theorem c6_counterexample :
    ¬ (∀ (cfg : Cfg) (evts : List Ev) (s : St),
        runEvents cfg evts = some s → s.startCalls ≤ 1 →
        1 ≤ s.stopsCompleted → s.stops.length = 0 →
        s.activeBrowsers.length = 0) := by
  intro h
  have := h cfgBase evtsLateReg
    ((runEvents cfgBase evtsLateReg).getD default) rfl (by decide) (by decide) (by decide)
  exact absurd this (by decide)

/-- C8: failure propagation after admission.  (1) When the context provider
returns no context (`puppeteerInstance.launch` is undefined, so
`createWorker` resolves `undefined`), `activeTasks` is decremented and the
admission is abandoned: queue unchanged, no error callback, no unit left.
(2) When the context launch rejects, `activeTasks` is decremented, the task
is re-enqueued at the queue front iff the cluster is still running, and the
error callback receives the error and the props.  (3) When the resource
resolver throws, the same handling as (2) applies. -/
theorem c8_holds (cfg : Cfg) (s : St) (u : Nat) (un : TUnit) :
    (∀ tok out s', findUnit s u = some un → un.phase = .aLaunch tok →
      cfg.hasLaunch = false →
      applyEvent cfg s (.resumeLaunch u out) = some s' →
      s'.activeTasks = s.activeTasks - 1 ∧ s'.taskQueue = s.taskQueue ∧
      s'.callbacks = s.callbacks ∧ findUnit s' u = none) ∧
    (∀ tok e s', findUnit s u = some un → un.phase = .aLaunch tok →
      cfg.hasLaunch = true →
      applyEvent cfg s (.resumeLaunch u (.reject e)) = some s' →
      s'.activeTasks = s.activeTasks - 1 ∧
      s'.taskQueue = (if s.isRunning then un.task :: s.taskQueue else s.taskQueue) ∧
      s'.callbacks = s.callbacks ++ [(e, some un.task.params)] ∧
      findUnit s' u = none) ∧
    (∀ f e s', findUnit s u = some un → un.phase = .aProxy →
      cfg.proxy = .resolver f → f un.task.params = .error e →
      applyEvent cfg s (.resumeProxy u) = some s' →
      s'.activeTasks = s.activeTasks - 1 ∧
      s'.taskQueue = (if s.isRunning then un.task :: s.taskQueue else s.taskQueue) ∧
      s'.callbacks = s.callbacks ++ [(e, some un.task.params)] ∧
      findUnit s' u = none) := by
  refine ⟨?_, ?_, ?_⟩
  · intro tok out s' hf hp hhl hap
    simp only [applyEvent, hf, Option.bind_eq_bind, Option.some_bind, hp, hhl,
      Bool.false_eq_true, if_false] at hap
    cases hap
    refine ⟨rfl, rfl, rfl, ?_⟩
    show (dropUnit s.units u).find? _ = none
    exact find?_dropUnit s.units u
  · intro tok e s' hf hp hhl hap
    simp only [applyEvent, hf, Option.bind_eq_bind, Option.some_bind, hp, hhl,
      if_true] at hap
    cases hap
    refine ⟨rfl, rfl, rfl, ?_⟩
    show (dropUnit s.units un.uid).find? _ = none
    have : un.uid = u := (findUnit_mem hf).2
    rw [this]
    exact find?_dropUnit s.units u
  · intro f e s' hf hp hpr hfe hap
    simp only [applyEvent, hf, Option.bind_eq_bind, Option.some_bind, hp, hpr,
      hfe] at hap
    cases hap
    refine ⟨rfl, rfl, rfl, ?_⟩
    show (dropUnit s.units un.uid).find? _ = none
    have : un.uid = u := (findUnit_mem hf).2
    rw [this]
    exact find?_dropUnit s.units u

/-- C8 witness: the provider-returns-no-context step at a concrete reachable
state. -/
theorem c8_holds_witness :
    ((applyEvent cfgNoLaunch stAdmitNoLaunch (.resumeLaunch 0 .ok)).getD default).activeTasks
      = stAdmitNoLaunch.activeTasks - 1 :=
  ((c8_holds cfgNoLaunch stAdmitNoLaunch 0
      { uid := 0, task := { tid := 0, params := 4, beh := behN 0 }
        phase := .aLaunch none }).1
    none .ok _ rfl rfl rfl rfl).1

/-- C1 amended: on the work-function success and failure paths *with a
surface present*, the runner closes the surface and then the context,
exactly once, before its promise settles ((i) settling the work promise
immediately initiates `page.close()`; (ii) a successful surface close
initiates `browser.close()`).  But when no usable surface was obtained, the
runner settles without closing the context at all ((iii)), and a failing
surface close also skips the context close ((iv)). -/
theorem c1_amended (cfg : Cfg) (s : St) (u : Nat) (un : TUnit) (b : Browser) :
    (∀ p tok idx e s', findUnit s u = some un → un.phase = .aWork b (some p) tok idx →
      applyEvent cfg s (.resumeWork u e) = some s' →
      s'.pageCloseLog = s.pageCloseLog ++ [p] ∧ s'.closeLog = s.closeLog ∧
      findUnit s' u = some { un with phase := .cPage b }) ∧
    (∀ s', findUnit s u = some un → un.phase = .cPage b →
      applyEvent cfg s (.resumePageClose u true) = some s' →
      s'.closeLog = s.closeLog ++ [b] ∧
      findUnit s' u = some { un with phase := .cBrowser b }) ∧
    (∀ tok idx e s', findUnit s u = some un → un.phase = .aWork b none tok idx →
      applyEvent cfg s (.resumeWork u e) = some s' →
      s'.closeLog = s.closeLog ∧ s'.pageCloseLog = s.pageCloseLog ∧
      findUnit s' u = some { un with phase := .settledU b }) ∧
    (∀ s', findUnit s u = some un → un.phase = .cPage b →
      applyEvent cfg s (.resumePageClose u false) = some s' →
      s'.closeLog = s.closeLog ∧
      findUnit s' u = some { un with phase := .settledU b }) := by
  refine ⟨?_, ?_, ?_, ?_⟩
  · intro p tok idx e s' hf hp hap
    simp only [applyEvent, hf, Option.bind_eq_bind, Option.some_bind, hp] at hap
    by_cases hb : un.task.beh idx = true
    · rw [if_pos hb] at hap
      cases hap
      exact ⟨rfl, rfl, findUnit_updUnit hf _⟩
    · rw [if_neg hb] at hap
      cases hap
      exact ⟨rfl, rfl, findUnit_updUnit hf _⟩
  · intro s' hf hp hap
    simp only [applyEvent, hf, Option.bind_eq_bind, Option.some_bind, hp,
      if_true] at hap
    cases hap
    exact ⟨rfl, findUnit_updUnit hf _⟩
  · intro tok idx e s' hf hp hap
    simp only [applyEvent, hf, Option.bind_eq_bind, Option.some_bind, hp] at hap
    by_cases hb : un.task.beh idx = true
    · rw [if_pos hb] at hap
      cases hap
      refine ⟨rfl, ?_, findUnit_updUnit hf _⟩
      simp [pageCloseCalls]
    · rw [if_neg hb] at hap
      cases hap
      refine ⟨rfl, ?_, findUnit_updUnit hf _⟩
      simp [pageCloseCalls]
  · intro s' hf hp hap
    simp only [applyEvent, hf, Option.bind_eq_bind, Option.some_bind, hp,
      Bool.false_eq_true, if_false] at hap
    cases hap
    exact ⟨rfl, findUnit_updUnit hf _⟩

/-- C1 amended witness: settling the work promise at a concrete state with a
surface initiates the surface close. -/
theorem c1_amended_witness :
    ((applyEvent cfgBase stAtWork (.resumeWork 0 9)).getD default).pageCloseLog
      = stAtWork.pageCloseLog ++ [0] :=
  (((c1_amended cfgBase stAtWork 0
      { uid := 0, task := { tid := 0, params := 0, beh := behN 1 }
        phase := .aWork 0 (some 0) none 0 } 0).1)
    0 none 0 9 _ rfl rfl rfl).1

/-- C7 amended: when the acquired context yields no usable surface, the
task-running step does *not* treat this as a failure by itself — the work
function is invoked anyway with an absent surface ((a)); the standard
failure handling (front re-enqueue while running plus error callback) fires
only if that invocation itself fails ((c)), and not on success ((b)); in
either case the context is never closed on this path. -/
theorem c7_amended (cfg : Cfg) (s : St) (u : Nat) (un : TUnit) (b : Browser)
    (tok : Option String) :
    (∀ s', findUnit s u = some un → un.phase = .aPages b tok →
      applyEvent cfg s (.resumePages u (.resolve false)) = some s' →
      s'.workCalls = s.workCalls ++
        [{ tid := un.task.tid, params := un.task.params, page := none
           tok := tok, idx := s.invCnt un.task.tid }] ∧
      findUnit s' u = some { un with phase := .aWork b none tok (s.invCnt un.task.tid) }) ∧
    (∀ idx e s', findUnit s u = some un → un.phase = .aWork b none tok idx →
      un.task.beh idx = true →
      applyEvent cfg s (.resumeWork u e) = some s' →
      s'.taskQueue = s.taskQueue ∧ s'.callbacks = s.callbacks ∧
      s'.closeLog = s.closeLog ∧
      findUnit s' u = some { un with phase := .settledU b }) ∧
    (∀ idx e s', findUnit s u = some un → un.phase = .aWork b none tok idx →
      un.task.beh idx = false →
      applyEvent cfg s (.resumeWork u e) = some s' →
      s'.taskQueue = (if s.isRunning then un.task :: s.taskQueue else s.taskQueue) ∧
      s'.callbacks = s.callbacks ++ [(e, some un.task.params)] ∧
      s'.closeLog = s.closeLog ∧
      findUnit s' u = some { un with phase := .settledU b }) := by
  refine ⟨?_, ?_, ?_⟩
  · intro s' hf hp hap
    simp only [applyEvent, hf, Option.bind_eq_bind, Option.some_bind, hp] at hap
    cases hap
    exact ⟨rfl, findUnit_updUnit hf _⟩
  · intro idx e s' hf hp hb hap
    simp only [applyEvent, hf, Option.bind_eq_bind, Option.some_bind, hp, hb,
      if_true] at hap
    cases hap
    exact ⟨rfl, rfl, rfl, findUnit_updUnit hf _⟩
  · intro idx e s' hf hp hb hap
    simp only [applyEvent, hf, Option.bind_eq_bind, Option.some_bind, hp, hb,
      Bool.false_eq_true, if_false] at hap
    cases hap
    exact ⟨rfl, rfl, rfl, findUnit_updUnit hf _⟩

/-- C7 amended witness: at a concrete state with a unit awaiting
`browser.pages()`, an empty pages resolution invokes the work function with
an absent page. -/
theorem c7_amended_witness :
    ((applyEvent cfgBase stAtPages (.resumePages 0 (.resolve false))).getD default).workCalls
      = stAtPages.workCalls ++
        [{ tid := 0, params := 0, page := none, tok := none, idx := 0 }] :=
  (((c7_amended cfgBase stAtPages 0
      { uid := 0, task := { tid := 0, params := 0, beh := behN 0 }
        phase := .aPages 0 none } 0 none).1)
    _ rfl rfl rfl).1

/-- C9 counterexample: a present resource token is not always injected into
the launch parameters — with the constant proxy `""` the token is present
(`some ""`) but JavaScript truthiness drops the `--proxy-server=` directive. -/
theorem c9_counterexample :
    ¬ (∀ (cfg : Cfg) (evts : List Ev) (s : St),
        runEvents cfg evts = some s → ∀ r ∈ s.launches, ∀ tk,
        r.tok = some tk → ("--proxy-server=" ++ tk) ∈ r.args) := by
  intro h
  have := h cfgEmptyProxy evtsEmptyProxy
    ((runEvents cfgEmptyProxy evtsEmptyProxy).getD default) rfl
    { tid := 0, params := 5, tok := some "", args := ["--foo"] } (by decide) "" (by decide)
  exact absurd this (by decide)

/-- C2 (amended): when the `tasksCompleted` promise has resolved, either the
natural terminal-idle condition had been detected — witnessed by the
recorded detection snapshot: empty queue, zero `activeTasks`, no registered
browsers and a consecutive empty-poll count at or above
`iterationsBeforeStop` — or `stop()` had been called (and a `stop()` alone
can resolve it below the threshold; the snapshot is recorded once, at the
first detection). -/
theorem c2_amended (cfg : Cfg) (evts : List Ev) (s : St)
    (h : runEvents cfg evts = some s) (hres : s.tasksCompleted = true) :
    (∃ p, s.detectSnap = some p ∧ p.qLen = 0 ∧ p.act = 0 ∧ p.brs = 0 ∧
      cfg.iterationsBeforeStop ≤ p.iter) ∨ 1 ≤ s.stopCalls := by
  have hm := minv_run cfg evts s h
  rcases hm.resolvedFrom hres with hd | hs
  · left
    have hne := hm.detectIff.mp hd
    cases hsnap : s.detectSnap with
    | none => exact absurd hsnap hne
    | some p =>
      obtain ⟨h1, h2, h3, h4⟩ := hm.detectOk p hsnap
      exact ⟨p, rfl, h1, h2, h3, h4⟩
  · right
    exact hs

/-- C2 witness: the naturally idle retry run resolves the promise, and the
theorem recovers its detection snapshot or a stop call. -/
theorem c2_amended_witness :
    (∃ p, stRetryOnce.detectSnap = some p ∧ p.qLen = 0 ∧ p.act = 0 ∧ p.brs = 0 ∧
      cfgBase.iterationsBeforeStop ≤ p.iter) ∨ 1 ≤ stRetryOnce.stopCalls :=
  c2_amended cfgBase evtsRetryOnce stRetryOnce rfl rfl

/-- C3 (amended): in every reachable state `activeTasks ≤ maxWorkers`; and
in every reachable state in which `stop()` has never been called,
`0 ≤ activeTasks` and the registered-browser count is at most `maxWorkers`.
(After a `stop()`, in-flight admissions may drive the counter negative and
push the browser count past the bound.) -/
theorem c3_amended (cfg : Cfg) (evts : List Ev) (s : St)
    (h : runEvents cfg evts = some s) :
    s.activeTasks ≤ (cfg.maxWorkers : Int) ∧
    (s.stopCalls = 0 → 0 ≤ s.activeTasks ∧
      s.activeBrowsers.length ≤ cfg.maxWorkers) := by
  have hm := minv_run cfg evts s h
  have hbok := brow_run cfg evts s h
  refine ⟨hm.actLeMax, fun h0 => ⟨?_, ?_⟩⟩
  · rw [hm.actEqUnits h0]
    omega
  · have hsub : s.activeBrowsers ⊆ s.units.filterMap (fun u => browserOf u.phase) := by
      intro b hb
      obtain ⟨u, hu, hbu⟩ := hbok h0 b hb
      exact List.mem_filterMap.mpr ⟨u, hu, hbu⟩
    have hlen1 : s.activeBrowsers.length ≤
        (s.units.filterMap (fun u => browserOf u.phase)).length :=
      (List.subperm_of_subset hm.abNodup hsub).length_le
    have hlen2 : (s.units.filterMap (fun u => browserOf u.phase)).length
        ≤ s.units.length := List.length_filterMap_le _ _
    have hact := hm.actEqUnits h0
    have hmax := hm.actLeMax
    omega

/-- C3 witness: the bounds at the concrete retry run's final state. -/
theorem c3_amended_witness :
    stRetryOnce.activeTasks ≤ (cfgBase.maxWorkers : Int) ∧
    (stRetryOnce.stopCalls = 0 → 0 ≤ stRetryOnce.activeTasks ∧
      stRetryOnce.activeBrowsers.length ≤ cfgBase.maxWorkers) :=
  c3_amended cfgBase evtsRetryOnce stRetryOnce rfl

/-- C4: tasks are admitted in FIFO order of enqueueing — in every reachable
state the admission log lists smaller (earlier-enqueued) tids first — and a
task whose work function fails is reinserted at the queue front, so it
precedes every task enqueued after it. -/
theorem c4_holds (cfg : Cfg) :
    (∀ evts s, runEvents cfg evts = some s →
      ∀ t1 t2, t1 ∈ s.admitLog → t2 ∈ s.admitLog → t1 < t2 →
        s.admitLog.indexOf t1 < s.admitLog.indexOf t2) ∧
    (∀ s s' u un b pg tok idx er, findUnit s u = some un →
      un.phase = .aWork b pg tok idx → un.task.beh idx = false →
      s.isRunning = true →
      applyEvent cfg s (.resumeWork u er) = some s' →
      s'.taskQueue = un.task :: s.taskQueue) := by
  constructor
  · intro evts s h t1 t2 h1 h2 hlt
    exact (minv_run cfg evts s h).admitOrder t1 t2 h1 h2 hlt
  · intro s s' u un b pg tok idx er hf hph hb hrun hap
    simp only [applyEvent, hf, Option.bind_eq_bind, Option.some_bind, hph, hb,
      Bool.false_eq_true, if_false] at hap
    cases hap
    show (if s.isRunning = true then un.task :: s.taskQueue else s.taskQueue)
      = un.task :: s.taskQueue
    rw [if_pos hrun]

/-- C4 witness: in the two-task FIFO run both tasks are admitted, in
enqueue order. -/
theorem c4_holds_witness :
    stFifo.admitLog.indexOf 0 < stFifo.admitLog.indexOf 1 :=
  (c4_holds cfgBase).1 evtsFifo stFifo rfl 0 1 (by decide) (by decide) (by decide)

/-- C5: no retry limit while the cluster keeps running.  In any run in which
`stop()` was never called, a task with behaviour `behN N` (fails exactly `N`
times, then succeeds) that was neither abandoned by a provider/pages failure
nor left pending (its queue entries and units are gone with the rest) has
had its work function invoked exactly `N + 1` times. -/
theorem c5_holds (cfg : Cfg) (evts : List Ev) (s : St) (T N : Nat)
    (hrn : runEvents cfg evts = some s)
    (hstop : s.stopCalls = 0)
    (hbeh : s.behOf T = some (behN N))
    (hlost : T ∉ s.lostTids)
    (hq : s.taskQueue.length = 0)
    (hu : s.units.length = 0) :
    s.invCnt T = N + 1 := by
  have hphi := (ginv_run cfg evts s hrn).2 T N hstop hbeh hlost
  have hcq : countQ s T = 0 := by
    unfold countQ
    rw [List.length_eq_zero.mp hq]
    rfl
  have hca : countAU s T = 0 := by
    unfold countAU
    rw [List.length_eq_zero.mp hu]
    rfl
  rcases hphi with hA | hB | hC | hD
  · exact absurd hA.1 (by omega)
  · exact absurd hB.2.1 (by omega)
  · exact absurd hC.2.1 (by omega)
  · exact hD.2.2

/-- C5 witness: the fail-once-then-succeed task of the natural-idle run is
invoked exactly twice. -/
theorem c5_holds_witness : stRetryOnce.invCnt 0 = 2 :=
  c5_holds cfgBase evtsRetryOnce stRetryOnce 0 1 rfl rfl rfl (by decide) rfl rfl

/-- C6 (amended): a `stop()` that finds no registered browser completes
synchronously with the queue cleared, `activeTasks` zeroed, no browsers and
the loop flag down ((a)); a `stop()` whose last `browser.close()` resumes
completes with the browser list and `activeTasks` cleared, without having
waited for in-flight work ((b)); and while no further public call
(`start`/`addTask`/`stop`) intervenes, the loop stays down and the queue
stays empty ((c)).  The postconditions do not persist against in-flight
admissions, which may re-register a browser (see the counterexample). -/
theorem c6_amended (cfg : Cfg) (s : St) :
    (∀ s', s.activeBrowsers = [] →
      applyEvent cfg s .stopBegin = some s' →
      s'.taskQueue = [] ∧ s'.activeTasks = 0 ∧ s'.activeBrowsers = [] ∧
      s'.isRunning = false ∧ s'.stopsCompleted = s.stopsCompleted + 1) ∧
    (∀ s' k st ok, s.stops.find? (fun x => x.sid = k) = some st →
      ¬ st.idx + 1 < s.activeBrowsers.length →
      applyEvent cfg s (.stopCloseResume k ok) = some s' →
      s'.activeBrowsers = [] ∧ s'.activeTasks = 0 ∧
      s'.taskQueue = s.taskQueue ∧ s'.isRunning = s.isRunning ∧
      s'.stopsCompleted = s.stopsCompleted + 1) ∧
    (∀ evts s1, (∀ e ∈ evts, isPublicEv e = false) →
      s.isRunning = false → s.taskQueue = [] →
      runFrom cfg s evts = some s1 →
      s1.isRunning = false ∧ s1.taskQueue = []) := by
  refine ⟨?_, ?_, ?_⟩
  · intro s' hab hap
    simp only [applyEvent, hab] at hap
    cases hap
    exact ⟨rfl, rfl, rfl, rfl, rfl⟩
  · intro s' k st ok hfs hge hap
    simp only [applyEvent, hfs] at hap
    rw [if_neg hge] at hap
    cases hap
    exact ⟨rfl, rfl, rfl, rfl, rfl⟩
  · intro evts s1 hpub hr hq hrn
    exact c6_drain cfg evts s s1 hpub hr hq hrn

/-- C6 witness: stopping the one-admission state (no browser registered yet)
completes at once with the queue and counters cleared. -/
theorem c6_amended_witness :
    stStopped.taskQueue = [] ∧ stStopped.activeTasks = 0 ∧
    stStopped.activeBrowsers = [] ∧ stStopped.isRunning = false ∧
    stStopped.stopsCompleted = stAdmit.stopsCompleted + 1 :=
  (c6_amended cfgBase stAdmit).1 stStopped rfl rfl

/-- C9 (amended): every recorded launch carries the token resolved from the
configured proxy setting against that task's own params (absent setting:
none; constant string: that string; resolver: its result), and its launch
args are the proxy directive followed by the caller's static args — where an
empty-string token yields no directive (JS falsiness) — and every work
invocation receives the same resolved token. -/
theorem c9_amended (cfg : Cfg) (evts : List Ev) (s : St)
    (h : runEvents cfg evts = some s) :
    (∀ r ∈ s.launches, r.tok = resolveProxy cfg.proxy r.params ∧
      r.args = proxyArgs r.tok ++ cfg.staticArgs) ∧
    (∀ r ∈ s.workCalls, r.tok = resolveProxy cfg.proxy r.params) := by
  have hm := minv_run cfg evts s h
  exact ⟨fun r hr => hm.launchRecOk r hr, hm.workRecOk⟩

/-- C9 witness: the one launch of the empty-string-proxy run carries the
resolved token `some ""` and only the static args. -/
theorem c9_amended_witness :
    ({ tid := 0, params := 5, tok := some "", args := ["--foo"] } : LaunchRec).tok
        = resolveProxy cfgEmptyProxy.proxy
          ({ tid := 0, params := 5, tok := some "", args := ["--foo"] } : LaunchRec).params ∧
    ({ tid := 0, params := 5, tok := some "", args := ["--foo"] } : LaunchRec).args
        = proxyArgs (some "") ++ cfgEmptyProxy.staticArgs :=
  (c9_amended cfgEmptyProxy evtsEmptyProxy
      ((runEvents cfgEmptyProxy evtsEmptyProxy).getD default) rfl).1
    { tid := 0, params := 5, tok := some "", args := ["--foo"] } (by decide)

/-- C10: `addTask` only appends the task at the queue tail (recording its
behaviour), changing nothing else ((a)); and once the loop flag is down, a
run containing no `start` admits nothing: the admission log is frozen, so a
task appended after the stop (tid at or above the old `nextTid`) is never
admitted and its work function is never invoked ((b)). -/
theorem c10_holds (cfg : Cfg) :
    (∀ s beh params, applyEvent cfg s (.addTask beh params) =
      some { s with
               taskQueue := s.taskQueue ++
                 [{ tid := s.nextTid, params := params, beh := beh }]
               nextTid := s.nextTid + 1
               behOf := fun t => if t = s.nextTid then some beh else s.behOf t }) ∧
    (∀ evts s, runEvents cfg evts = some s → s.isRunning = false →
      ∀ evts2 s', (∀ e ∈ evts2, isStartEv e = false) →
        runFrom cfg s evts2 = some s' →
        s'.admitLog = s.admitLog ∧
        ∀ t, s.nextTid ≤ t → t ∉ s'.admitLog ∧ s'.invCnt t = 0) := by
  constructor
  · intro s beh params
    rfl
  · intro evts s h hr evts2 s' hstart hrn
    have hm := minv_run cfg evts s h
    obtain ⟨hl, hi⟩ := c10_frozen cfg s evts2 s s' hstart hr rfl
      (fun u hu => hm.uTidLt u hu) (fun t ht => hm.invLt t ht) hrn
    refine ⟨hl, fun t ht => ⟨?_, hi t ht⟩⟩
    rw [hl]
    intro hc
    have := hm.admitLt t hc
    omega

/-- C10 witness: a task added to the stopped cluster is not admitted and tid
5 (fresh after the stop) is neither admitted nor invoked. -/
theorem c10_holds_witness :
    5 ∉ ((runFrom cfgBase stStopped [Ev.addTask (behN 0) 7]).getD default).admitLog ∧
    ((runFrom cfgBase stStopped [Ev.addTask (behN 0) 7]).getD default).invCnt 5 = 0 :=
  ((c10_holds cfgBase).2 (evtsAdmit ++ [Ev.stopBegin]) stStopped rfl rfl
      [Ev.addTask (behN 0) 7]
      ((runFrom cfgBase stStopped [Ev.addTask (behN 0) 7]).getD default)
      (by decide) rfl).2 5 (by decide)

end SmartCluster
